import Mathlib

/-!
# isdayoff: request construction and response decoding

A shallow embedding of `src/isdayoff.go` and `src/params.go`.

Go strings and byte slices are byte sequences that need not hold valid UTF-8,
so a Go `string` is modelled as a list of bytes.  The standard-library
functions the client calls (`strings.TrimSpace`, the `range` loop over a
string, `string(rune)`, `fmt.Sprintf` with `%d` and `%02d`, `url.Values`,
`http.Header`) are modelled on bytes in the first half of the definitions;
the client itself follows.
-/

namespace Isdayoff

/-! ## Go strings -/

/-- One byte of a Go string. -/
abbrev Byte := Fin 256

/-- A Go `string` or `[]byte`: any sequence of bytes. -/
abbrev GoString := List Byte

/-- Go's conversion `byte(n)`: the low eight bits. -/
def byte (n : Nat) : Byte := ⟨n % 256, Nat.mod_lt n (by decide)⟩

/-! ## unicode/utf8 -/

/-- The constant `utf8.RuneError`, U+FFFD. -/
def RuneError : Nat := 0xFFFD

/-- The function `utf8.AppendRune` on an empty buffer, which is also the
conversion `string(r)` of a rune: the UTF-8 encoding of `r`, and the encoding
of U+FFFD for surrogates and values above U+10FFFF. -/
def EncodeRune (r : Nat) : GoString :=
  if r < 0x80 then [byte r]
  else if r < 0x800 then [byte (0xC0 + r / 64), byte (0x80 + r % 64)]
  else if 0x10FFFF < r ∨ (0xD800 ≤ r ∧ r ≤ 0xDFFF) then [0xEF, 0xBF, 0xBD]
  else if r < 0x10000 then
    [byte (0xE0 + r / 4096), byte (0x80 + r / 64 % 64), byte (0x80 + r % 64)]
  else
    [byte (0xF0 + r / 262144), byte (0x80 + r / 4096 % 64), byte (0x80 + r / 64 % 64),
      byte (0x80 + r % 64)]

/-- A string literal of the Go source, as its UTF-8 bytes. -/
def str (s : String) : GoString := s.data.flatMap (fun c => EncodeRune c.toNat)

/-- The table `first` of unicode/utf8: `0xF0` for an ASCII byte, `0xF1` for a
byte that cannot start a sequence, and otherwise the sequence length in the low
three bits and the index of the accept range in the high four. -/
def first (b : Byte) : Nat :=
  if b.val < 0x80 then 0xF0
  else if b.val < 0xC2 then 0xF1
  else if b.val < 0xE0 then 0x02
  else if b.val = 0xE0 then 0x13
  else if b.val < 0xED then 0x03
  else if b.val = 0xED then 0x23
  else if b.val < 0xF0 then 0x03
  else if b.val = 0xF0 then 0x34
  else if b.val < 0xF4 then 0x04
  else if b.val = 0xF4 then 0x44
  else 0xF1

/-- The table `acceptRanges` of unicode/utf8: the range allowed for the second
byte of a sequence. -/
def acceptRanges (i : Nat) : Nat × Nat :=
  match i with
  | 0 => (0x80, 0xBF)
  | 1 => (0xA0, 0xBF)
  | 2 => (0x80, 0x9F)
  | 3 => (0x90, 0xBF)
  | 4 => (0x80, 0x8F)
  | _ => (0, 0)

/-- The function `utf8.DecodeRuneInString`: the first rune of `s` and its width
in bytes; `(RuneError, 0)` for the empty string and `(RuneError, 1)` for an
invalid encoding.  The masks and shifts of the Go code are written with `%` and
`*`. -/
def DecodeRuneInString (s : GoString) : Nat × Nat :=
  match s with
  | [] => (RuneError, 0)
  | s0 :: t =>
    let x := first s0
    if 0xF0 ≤ x then
      (if x = 0xF0 then s0.val else RuneError, 1)
    else
      let sz := x % 8
      let accept := acceptRanges (x / 16)
      if s.length < sz then (RuneError, 1)
      else
        match t with
        | [] => (RuneError, 1)
        | s1 :: t1 =>
          if s1.val < accept.1 ∨ accept.2 < s1.val then (RuneError, 1)
          else if sz ≤ 2 then (s0.val % 32 * 64 + s1.val % 64, 2)
          else
            match t1 with
            | [] => (RuneError, 1)
            | s2 :: t2 =>
              if s2.val < 0x80 ∨ 0xBF < s2.val then (RuneError, 1)
              else if sz ≤ 3 then (s0.val % 16 * 4096 + s1.val % 64 * 64 + s2.val % 64, 3)
              else
                match t2 with
                | [] => (RuneError, 1)
                | s3 :: _ =>
                  if s3.val < 0x80 ∨ 0xBF < s3.val then (RuneError, 1)
                  else
                    (s0.val % 8 * 262144 + s1.val % 64 * 4096 + s2.val % 64 * 64
                      + s3.val % 64, 4)

/-- The function `utf8.RuneStart`: the byte is not a continuation byte. -/
def RuneStart (b : Byte) : Bool := b.val / 64 != 2

/-- The loop `for start--; start >= lim; start-- { if RuneStart(s[start]) { break } }`
of `utf8.DecodeLastRuneInString`, entered with `start` already decremented; the
result is the value of `start` after the loop. -/
def scanBack (s : GoString) (lim : Int) : Nat → Int → Int
  | 0, start => start
  | fuel + 1, start =>
    if lim ≤ start then
      if RuneStart (s.getD start.toNat 0) then start else scanBack s lim fuel (start - 1)
    else start

/-- The function `utf8.DecodeLastRuneInString`: the last rune of `s` and its
width in bytes. -/
def DecodeLastRuneInString (s : GoString) : Nat × Nat :=
  let e : Int := s.length
  if e = 0 then (RuneError, 0)
  else
    let r := (s.getD (e - 1).toNat 0).val
    if r < 0x80 then (r, 1)
    else
      let lim : Int := if e - 4 < 0 then 0 else e - 4
      let start := scanBack s lim s.length (e - 2)
      let start := if start < 0 then 0 else start
      let d := DecodeRuneInString (s.drop start.toNat)
      if start + d.2 ≠ e then (RuneError, 1) else d

/-- The runes a `for _, char := range s` loop yields, with at most `fuel`
iterations. -/
def rangeAux : Nat → GoString → List Nat
  | 0, _ => []
  | fuel + 1, s =>
    if s = [] then []
    else (DecodeRuneInString s).1 :: rangeAux fuel (s.drop (DecodeRuneInString s).2)

/-- The runes a `for _, char := range s` loop yields, in order: every
iteration consumes at least one byte, so `s.length` iterations are enough. -/
def rangeString (s : GoString) : List Nat := rangeAux s.length s

/-! ## unicode and strings -/

/-- The function `unicode.IsSpace`: the Unicode White_Space property. -/
def IsSpace (r : Nat) : Bool :=
  if r ≤ 0xFF then
    r = 0x09 ∨ r = 0x0A ∨ r = 0x0B ∨ r = 0x0C ∨ r = 0x0D ∨ r = 0x20 ∨ r = 0x85 ∨ r = 0xA0
  else
    r = 0x1680 ∨ (0x2000 ≤ r ∧ r ≤ 0x200A) ∨ r = 0x2028 ∨ r = 0x2029 ∨ r = 0x202F
      ∨ r = 0x205F ∨ r = 0x3000

/-- The function `strings.TrimLeftFunc(s, unicode.IsSpace)` with at most `fuel`
runes removed. -/
def trimLeftAux : Nat → GoString → GoString
  | 0, s => s
  | fuel + 1, s =>
    if s ≠ [] ∧ IsSpace (DecodeRuneInString s).1 then
      trimLeftAux fuel (s.drop (DecodeRuneInString s).2)
    else s

/-- The function `strings.TrimLeftFunc(s, unicode.IsSpace)`: the leading runes
that are white space are removed. -/
def TrimLeftSpace (s : GoString) : GoString := trimLeftAux s.length s

/-- The function `strings.TrimRightFunc(s, unicode.IsSpace)` with at most
`fuel` runes removed. -/
def trimRightAux : Nat → GoString → GoString
  | 0, s => s
  | fuel + 1, s =>
    if s ≠ [] ∧ IsSpace (DecodeLastRuneInString s).1 then
      trimRightAux fuel (s.take (s.length - (DecodeLastRuneInString s).2))
    else s

/-- The function `strings.TrimRightFunc(s, unicode.IsSpace)`: the trailing
runes that are white space are removed. -/
def TrimRightSpace (s : GoString) : GoString := trimRightAux s.length s

/-- The function `strings.TrimSpace`: `s` without its leading and trailing
white space, as defined by Unicode. -/
def TrimSpace (s : GoString) : GoString := TrimRightSpace (TrimLeftSpace s)

/-! ## fmt -/

/-- The decimal digits of a natural number, most significant first. -/
def digits (n : Nat) : GoString := (Nat.toDigits 10 n).map (fun c => byte c.toNat)

/-- Zero padding of `fmt`: `ds` preceded by zeros up to the width `prec`. -/
def padZeros (prec : Nat) (ds : GoString) : GoString :=
  List.replicate (prec - ds.length) (byte 0x30) ++ ds

/-- The format `fmt.Sprintf("%d", x)`: the decimal digits, after a minus sign
for a negative number. -/
def formatInt (x : Int) : GoString :=
  if x < 0 then byte 0x2D :: digits x.natAbs else digits x.natAbs

/-- The format `fmt.Sprintf("%02d", x)`: the width 2 counts the sign, and the
zeros follow the sign. -/
def formatInt02 (x : Int) : GoString :=
  if x < 0 then byte 0x2D :: padZeros 1 (digits x.natAbs) else padZeros 2 (digits x.natAbs)

/-! ## net/url -/

/-- The function `shouldEscape(c, encodeQueryComponent)` of net/url: everything
is escaped but letters, digits and `-`, `_`, `.`, `~`. -/
def shouldEscape (c : Byte) : Bool :=
  if (0x61 ≤ c.val ∧ c.val ≤ 0x7A) ∨ (0x41 ≤ c.val ∧ c.val ≤ 0x5A)
      ∨ (0x30 ≤ c.val ∧ c.val ≤ 0x39) then false
  else if c.val = 0x2D ∨ c.val = 0x5F ∨ c.val = 0x2E ∨ c.val = 0x7E then false
  else true

/-- The digit `"0123456789ABCDEF"[n]` of net/url. -/
def upperhex (n : Nat) : Byte := if n < 10 then byte (0x30 + n) else byte (0x41 + (n - 10))

/-- What `url.QueryEscape` writes for one byte: `+` for a space, `%XX` for a
byte that has to be escaped, the byte itself otherwise. -/
def escapeByte (c : Byte) : GoString :=
  if c.val = 0x20 then [byte 0x2B]
  else if shouldEscape c then [byte 0x25, upperhex (c.val / 16), upperhex (c.val % 16)]
  else [c]

/-- The function `url.QueryEscape`. -/
def QueryEscape (s : GoString) : GoString := s.flatMap escapeByte

/-- The type `url.Values`, a `map[string][]string`, as an association list
with one entry per key. -/
abbrev Values := List (GoString × List GoString)

/-- The method `Values.Set`: `v[key] = []string{value}`. -/
def Values.Set : Values → GoString → GoString → Values
  | [], key, value => [(key, [value])]
  | (k, vs) :: rest, key, value =>
    if k = key then (key, [value]) :: rest else (k, vs) :: Values.Set rest key value

/-- The method `Values.Add`: `v[key] = append(v[key], value)`. -/
def Values.Add : Values → GoString → GoString → Values
  | [], key, value => [(key, [value])]
  | (k, vs) :: rest, key, value =>
    if k = key then (k, vs ++ [value]) :: rest else (k, vs) :: Values.Add rest key value

/-- Go's comparison `a < b` of strings: bytewise lexicographic. -/
def strLess : GoString → GoString → Bool
  | [], [] => false
  | [], _ :: _ => true
  | _ :: _, [] => false
  | a :: s, b :: t => decide (a.val < b.val) || (decide (a = b) && strLess s t)

/-- The keys of `v` as `slices.Sort` leaves them. -/
def Values.sortedKeys (v : Values) : List GoString :=
  (v.map Prod.fst).insertionSort (fun a b => strLess b a = false)

/-- The values stored under `key`, that is `v[key]`. -/
def Values.index : Values → GoString → List GoString
  | [], _ => []
  | (k, vs) :: rest, key => if k = key then vs else Values.index rest key

/-- The method `Values.Encode`: the entries sorted by key, each value written as
`key=value` with both sides escaped, and `&` before every pair but the first. -/
def Values.Encode (v : Values) : GoString :=
  (Values.sortedKeys v).foldl
    (fun buf k =>
      (Values.index v k).foldl
        (fun buf x =>
          (if buf.length > 0 then buf ++ [byte 0x26] else buf)
            ++ QueryEscape k ++ [byte 0x3D] ++ QueryEscape x)
        buf)
    []

/-- The type `url.URL`, with the fields the client uses. -/
structure URL where
  Scheme : GoString
  Host : GoString
  Path : GoString
  RawQuery : GoString
deriving DecidableEq

/-! ## net/http -/

/-- The method `Header.Set` for a key already in canonical form, as
`User-Agent` is. -/
def Header.Set (h : Values) (key value : GoString) : Values := Values.Set h key value

/-- The method `Header.Get`: the first value stored under the key, or `""`. -/
def Header.Get (h : Values) (key : GoString) : GoString :=
  match Values.index h key with
  | [] => []
  | x :: _ => x

/-- The type `http.Request`, with the fields the client sets. -/
structure Request where
  Method : GoString
  URL : URL
  Header : Values
deriving DecidableEq

/-- The function `http.NewRequest(method, url, nil)` for a URL that parses into
`u`: a request with an empty header. -/
def NewRequest (method : GoString) (u : URL) : Request :=
  { Method := method, URL := u, Header := [] }

/-! ## params.go -/

/-- Type `CountryCode`. -/
abbrev CountryCode := GoString

/-- Type `DayType`. -/
abbrev DayType := GoString

/-- Type `YearType`. -/
abbrev YearType := GoString

/-- Type `ErrorCode`. -/
abbrev ErrorCode := GoString

def CountryCodeBelarus : CountryCode := str "by"
def CountryCodeKazakhstan : CountryCode := str "kz"
def CountryCodeRussia : CountryCode := str "ru"
def CountryCodeUkraine : CountryCode := str "ua"
def CountryCodeUSA : CountryCode := str "us"
def CountryCodeUzbekistan : CountryCode := str "uz"
def CountryCodeTurkey : CountryCode := str "tr"

def DayTypeWorking : DayType := str "0"
def DayTypeNonWorking : DayType := str "1"
def DayTypeHalfHoliday : DayType := str "2"
def DayTypeWorkingCovid : DayType := str "4"

def YearTypeNotLeap : YearType := str "0"
def YearTypeLeap : YearType := str "1"

def ErrorCodeWrongDate : ErrorCode := str "100"
def ErrorCodeNotFound : ErrorCode := str "101"
def ErrorCodeInternalError : ErrorCode := str "199"

/-! ## isdayoff.go -/

/-- The map `boolToStr`. -/
def boolToStr (b : Bool) : GoString :=
  match b with
  | false => str "0"
  | true => str "1"

/-- The struct `APIError`. -/
structure APIError where
  Code : ErrorCode
  Message : GoString
  Status : Int
deriving DecidableEq

/-- A non-nil Go `error` value as the client meets it. -/
inductive GoError where
  /-- A `*APIError`. -/
  | api (e : APIError)
  /-- The result of `fmt.Errorf` without `%w`, with its message. -/
  | errorf (msg : GoString)
  /-- The result of `fmt.Errorf` with `%w`: its message and the wrapped error. -/
  | wrapped (msg : GoString) (inner : GoError)
  /-- An error of the transport or of the body reader, with its message. -/
  | external (msg : GoString)
deriving DecidableEq

/-- The method `Error()`; for an `*APIError` it is
`fmt.Sprintf("API error %s (HTTP %d): %s", e.Code, e.Status, e.Message)`. -/
def GoError.Error : GoError → GoString
  | .api e =>
    str "API error " ++ e.Code ++ str " (HTTP " ++ formatInt e.Status ++ str "): " ++ e.Message
  | .errorf msg => msg
  | .wrapped msg _ => msg
  | .external msg => msg

/-- The call `fmt.Errorf(format, err)` where `format` is `pre` followed by `%w`. -/
def wrapf (pre : GoString) (err : GoError) : GoError := .wrapped (pre ++ err.Error) err

/-- The type `http.Response` once `io.ReadAll(res.Body)` has run: the status
code and either the bytes of the body or the error of reading it. -/
structure Response where
  StatusCode : Int
  Body : Except GoError GoString

/-- The type `http.Client` as the client uses it: the method `Do`, which
returns a response or an error. -/
structure HTTPClient where
  Do : Request → Except GoError Response

/-- The struct `Client`, with its one field. -/
structure Client where
  httpClient : HTTPClient

/-- The function `NewWithClient`; `New` is `NewWithClient(http.DefaultClient)`. -/
def NewWithClient (client : HTTPClient) : Client := { httpClient := client }

/-- The function `parseAPIError`. -/
def parseAPIError (statusCode : Int) (body : GoString) : GoError :=
  let bodyStr := TrimSpace body
  if bodyStr = ErrorCodeWrongDate then
    .api { Code := ErrorCodeWrongDate, Message := str "Ошибка в дате", Status := statusCode }
  else if bodyStr = ErrorCodeNotFound then
    .api { Code := ErrorCodeNotFound, Message := str "Данные не найдены", Status := statusCode }
  else if bodyStr = ErrorCodeInternalError then
    .api { Code := ErrorCodeInternalError, Message := str "Ошибка сервиса", Status := statusCode }
  else
    .errorf (str "unexpected status code " ++ formatInt statusCode ++ str ": " ++ bodyStr)

/-- The struct `Params`; a nil pointer is `none`. -/
structure Params where
  Year : Int := 0
  Month : Option Int := none
  Day : Option Int := none
  CountryCode : Option CountryCode := none
  Pre : Option Bool := none
  Covid : Option Bool := none
  SixDayWeek : Option Bool := none
  TZ : Option GoString := none
deriving DecidableEq

/-- The value every request of `IsLeap`, `GetBy` and `GetByPeriod` sets as
`User-Agent` (lines 34, 149 and 208). -/
def userAgentData : GoString := str "isdayoff-golang-lib/1.0.0 (https://github.com/kotopheiop)"

/-- The value `aliasRequest` sets as `User-Agent` (line 269). -/
def userAgentAlias : GoString := str "isdayoff-golang-lib/1.0.2 (https://github.com/kotopheiop)"

/-- The request `IsLeap` builds and hands to the transport: the URL
`fmt.Sprintf("https://isdayoff.ru/api/isleap?year=%d", year)`, which
`http.NewRequest` parses, and the `User-Agent` header. -/
def IsLeapRequest (year : Int) : Request :=
  let req := NewRequest (str "GET")
    { Scheme := str "https", Host := str "isdayoff.ru", Path := str "/api/isleap",
      RawQuery := str "year=" ++ formatInt year }
  { req with Header := Header.Set req.Header (str "User-Agent") userAgentData }

/-- The method `Client.IsLeap`: the returned pair `(bool, error)`, a nil error
being `none`. -/
def IsLeap (c : Client) (year : Int) : Bool × Option GoError :=
  match c.httpClient.Do (IsLeapRequest year) with
  | .error err => (false, some (wrapf (str "client.Do(req) failed: ") err))
  | .ok res =>
    match res.Body with
    | .error err => (false, some (wrapf (str "io.ReadAll failed: ") err))
    | .ok body =>
      if res.StatusCode ≠ 200 then (false, some (parseAPIError res.StatusCode body))
      else (decide (body = YearTypeLeap), none)

/-- The query `GetBy` collects in `q` (lines 118 to 141), starting from the
empty query of the base URL. -/
def GetByValues (params : Params) : Values :=
  let q : Values := []
  let q := Values.Set q (str "year") (formatInt params.Year)
  let q := match params.Month with
    | some month => Values.Set q (str "month") (formatInt02 month)
    | none => q
  let q := match params.Day with
    | some day => Values.Set q (str "day") (formatInt02 day)
    | none => q
  let q := match params.CountryCode with
    | some cc => Values.Set q (str "cc") cc
    | none => q
  let q := match params.Pre with
    | some pre => Values.Set q (str "pre") (boolToStr pre)
    | none => q
  let q := match params.Covid with
    | some covid => Values.Set q (str "covid") (boolToStr covid)
    | none => q
  let q := match params.SixDayWeek with
    | some sd => Values.Set q (str "sd") (boolToStr sd)
    | none => q
  let q := match params.TZ with
    | some tz => Values.Set q (str "tz") tz
    | none => q
  q

/-- The request `GetBy` builds and hands to the transport. -/
def GetByRequest (params : Params) : Request :=
  let u : URL :=
    { Scheme := str "https", Host := str "isdayoff.ru", Path := str "/api/getdata",
      RawQuery := [] }
  let q := GetByValues params
  let u := { u with RawQuery := Values.Encode q }
  let req := NewRequest (str "GET") u
  { req with Header := Header.Set req.Header (str "User-Agent") userAgentData }

/-- The method `Client.GetBy`: the returned pair `([]DayType, error)`; a nil
slice and a nil error are `none`. -/
def GetBy (c : Client) (params : Params) : Option (List DayType) × Option GoError :=
  match c.httpClient.Do (GetByRequest params) with
  | .error err => (none, some (wrapf (str "client.Do(req) failed: ") err))
  | .ok res =>
    match res.Body with
    | .error err => (none, some (wrapf (str "io.ReadAll failed: ") err))
    | .ok body =>
      if res.StatusCode ≠ 200 then (none, some (parseAPIError res.StatusCode body))
      else
        let result : List DayType := []
        let bodyStr := body
        let result :=
          (rangeString bodyStr).foldl (fun result char => result ++ [EncodeRune char]) result
        (some result, none)

/-- The query `GetByPeriod` collects in `q` (lines 185 to 200). -/
def GetByPeriodValues (date1 date2 : GoString) (params : Params) : Values :=
  let q : Values := []
  let q := Values.Set q (str "date1") date1
  let q := Values.Set q (str "date2") date2
  let q := match params.CountryCode with
    | some cc => Values.Set q (str "cc") cc
    | none => q
  let q := match params.Pre with
    | some pre => Values.Set q (str "pre") (boolToStr pre)
    | none => q
  let q := match params.Covid with
    | some covid => Values.Set q (str "covid") (boolToStr covid)
    | none => q
  let q := match params.SixDayWeek with
    | some sd => Values.Set q (str "sd") (boolToStr sd)
    | none => q
  q

/-- The request `GetByPeriod` builds and hands to the transport. -/
def GetByPeriodRequest (date1 date2 : GoString) (params : Params) : Request :=
  let u : URL :=
    { Scheme := str "https", Host := str "isdayoff.ru", Path := str "/api/getdata",
      RawQuery := [] }
  let q := GetByPeriodValues date1 date2 params
  let u := { u with RawQuery := Values.Encode q }
  let req := NewRequest (str "GET") u
  { req with Header := Header.Set req.Header (str "User-Agent") userAgentData }

/-- The method `Client.GetByPeriod`. -/
def GetByPeriod (c : Client) (date1 date2 : GoString) (params : Params) :
    Option (List DayType) × Option GoError :=
  match c.httpClient.Do (GetByPeriodRequest date1 date2 params) with
  | .error err => (none, some (wrapf (str "client.Do(req) failed: ") err))
  | .ok res =>
    match res.Body with
    | .error err => (none, some (wrapf (str "io.ReadAll failed: ") err))
    | .ok body =>
      if res.StatusCode ≠ 200 then (none, some (parseAPIError res.StatusCode body))
      else
        let result : List DayType := []
        let bodyStr := body
        let result :=
          (rangeString bodyStr).foldl (fun result char => result ++ [EncodeRune char]) result
        (some result, none)

/-- The query `aliasRequest` collects in `q` (lines 250 to 265), starting from
the empty query of the request URL. -/
def aliasValues (params : Params) : Values :=
  let q : Values := []
  let q := match params.CountryCode with
    | some cc => Values.Add q (str "cc") cc
    | none => q
  let q := match params.Pre with
    | some pre => Values.Add q (str "pre") (boolToStr pre)
    | none => q
  let q := match params.Covid with
    | some covid => Values.Add q (str "covid") (boolToStr covid)
    | none => q
  let q := match params.SixDayWeek with
    | some sd => Values.Add q (str "sd") (boolToStr sd)
    | none => q
  let q := match params.TZ with
    | some tz => Values.Add q (str "tz") tz
    | none => q
  q

/-- The request `aliasRequest` builds and hands to the transport, for an alias name
that is a plain path segment, as `today` and `tomorrow` are. -/
def aliasRequestRequest (aliasName : GoString) (params : Params) : Request :=
  let req := NewRequest (str "GET")
    { Scheme := str "https", Host := str "isdayoff.ru", Path := str "/" ++ aliasName,
      RawQuery := [] }
  let q := aliasValues params
  let req := { req with URL := { req.URL with RawQuery := Values.Encode q } }
  { req with Header := Header.Set req.Header (str "User-Agent") userAgentAlias }

/-- The method `Client.aliasRequest`: the returned pair `(*DayType, error)`; a
nil pointer and a nil error are `none`. -/
def aliasRequest (c : Client) (aliasName : GoString) (params : Params) :
    Option DayType × Option GoError :=
  match c.httpClient.Do (aliasRequestRequest aliasName params) with
  | .error err => (none, some (wrapf (str "client.Do(req) failed: ") err))
  | .ok res =>
    match res.Body with
    | .error err => (none, some (wrapf (str "io.ReadAll failed: ") err))
    | .ok body =>
      if res.StatusCode ≠ 200 then (none, some (parseAPIError res.StatusCode body))
      else
        let bodyStr := TrimSpace body
        let result : DayType := bodyStr
        (some result, none)

/-- The method `Client.Today`. -/
def Today (c : Client) (params : Params) : Option DayType × Option GoError :=
  aliasRequest c (str "today") params

/-- The method `Client.Tomorrow`. -/
def Tomorrow (c : Client) (params : Params) : Option DayType × Option GoError :=
  aliasRequest c (str "tomorrow") params

/-! ## Vocabulary of the statements -/

/-- The fixed message of each error code, as the literals of `parseAPIError`
give it. -/
def errorMessage (code : ErrorCode) : GoString :=
  if code = ErrorCodeWrongDate then str "Ошибка в дате"
  else if code = ErrorCodeNotFound then str "Данные не найдены"
  else if code = ErrorCodeInternalError then str "Ошибка сервиса"
  else []

/-- The error is a `*APIError`. -/
def GoError.isAPIError : GoError → Bool
  | .api _ => true
  | _ => false

/-- A transport that answers every request with the given status and body. -/
def constClient (status : Int) (body : GoString) : Client :=
  NewWithClient { Do := fun _ => .ok { StatusCode := status, Body := .ok body } }

/-- A transport that answers the request `req`, and no other, with the status
200 and the given body: every other request gets a transport error. -/
def expectClient (req : Request) (body : GoString) : Client :=
  NewWithClient
    { Do := fun r =>
        if r = req then .ok { StatusCode := 200, Body := .ok body }
        else .error (.external (str "unexpected request")) }

/-- A Unicode scalar value: what a rune of valid text is. -/
def validRune (r : Nat) : Prop := r < 0xD800 ∨ (0xDFFF < r ∧ r < 0x110000)

/-- The DayType value is one of the four enumerated codes. -/
def isDayTypeCode (d : DayType) : Prop :=
  d = DayTypeWorking ∨ d = DayTypeNonWorking ∨ d = DayTypeHalfHoliday ∨ d = DayTypeWorkingCovid

/-- The byte is one of the characters `0`, `1`, `2`, `4`. -/
def isDayTypeByte (b : Byte) : Prop :=
  b.val = 0x30 ∨ b.val = 0x31 ∨ b.val = 0x32 ∨ b.val = 0x34

/-- The UTF-8 encoding of a sequence of Unicode characters. -/
def utf8 (text : List Char) : GoString := text.flatMap (fun ch => EncodeRune ch.toNat)

instance : DecidablePred validRune := fun r => by
  unfold validRune
  infer_instance

instance : DecidablePred isDayTypeCode := fun d => by
  unfold isDayTypeCode
  infer_instance

instance : DecidablePred isDayTypeByte := fun b => by
  unfold isDayTypeByte
  infer_instance

/-- White space in the sense of the statements: the bytes are the encodings of
a sequence of white-space characters. -/
def isSpaceSeq (w : GoString) : Prop :=
  ∃ rs : List Nat, (∀ r ∈ rs, IsSpace r = true) ∧ w = rs.flatMap EncodeRune

/-- The string begins with the encoding of a white-space character. -/
def startsWithSpace (s : GoString) : Prop :=
  ∃ r rest, IsSpace r = true ∧ s = EncodeRune r ++ rest

/-- The string ends with the encoding of a white-space character. -/
def endsWithSpace (s : GoString) : Prop :=
  ∃ r init, IsSpace r = true ∧ s = init ++ EncodeRune r

/-- The function `ishex` of net/url. -/
def ishex (c : Byte) : Bool :=
  (0x30 ≤ c.val ∧ c.val ≤ 0x39) ∨ (0x61 ≤ c.val ∧ c.val ≤ 0x66) ∨ (0x41 ≤ c.val ∧ c.val ≤ 0x46)

/-- The function `unhex` of net/url. -/
def unhex (c : Byte) : Nat :=
  if 0x30 ≤ c.val ∧ c.val ≤ 0x39 then c.val - 0x30
  else if 0x61 ≤ c.val ∧ c.val ≤ 0x66 then c.val - 0x61 + 10
  else if 0x41 ≤ c.val ∧ c.val ≤ 0x46 then c.val - 0x41 + 10
  else 0

/-- The function `url.QueryUnescape`: `%XX` is the byte with that hexadecimal
code, `+` is a space; `none` for a `%` that two hexadecimal digits do not
follow. -/
def QueryUnescape : GoString → Option GoString
  | [] => some []
  | c :: t =>
    if c.val = 0x25 then
      match t with
      | h1 :: h2 :: rest =>
        if ishex h1 ∧ ishex h2 then
          (QueryUnescape rest).map (fun r => byte (unhex h1 * 16 + unhex h2) :: r)
        else none
      | _ => none
    else if c.val = 0x2B then (QueryUnescape t).map (fun r => byte 0x20 :: r)
    else (QueryUnescape t).map (fun r => c :: r)

/-- The pieces of `s` between the occurrences of the byte `sep`. -/
def splitByte (sep : Byte) : GoString → List GoString
  | [] => [[]]
  | c :: t =>
    if c = sep then [] :: splitByte sep t
    else
      match splitByte sep t with
      | [] => [[c]]
      | p :: ps => (c :: p) :: ps

/-- What `url.ParseQuery` reads in one piece of a query string: nothing in an
empty piece, in a piece with a semicolon or in a piece with a malformed escape,
and otherwise the key before the first `=` and the value after it, both
unescaped. -/
def parsePiece (piece : GoString) : Option (GoString × GoString) :=
  if piece = [] ∨ byte 0x3B ∈ piece then none
  else
    match QueryUnescape (piece.takeWhile (fun c => c ≠ byte 0x3D)),
      QueryUnescape ((piece.dropWhile (fun c => c ≠ byte 0x3D)).drop 1) with
    | some k, some v => some (k, v)
    | _, _ => none

/-- The key and value pairs a raw query string carries, in order, as
`url.ParseQuery` reads them: the string is cut at every `&` and each piece is
read by `parsePiece`. -/
def ParseQuery (query : GoString) : List (GoString × GoString) :=
  (splitByte (byte 0x26) query).filterMap parsePiece

/-- The keys a raw query string carries, in order, with repetitions. -/
def queryKeys (query : GoString) : List GoString := (ParseQuery query).map Prod.fst

/-- The piece `key=value` that `Values.Encode` writes for one pair. -/
def encodePair (kx : GoString × GoString) : GoString :=
  QueryEscape kx.1 ++ [byte 0x3D] ++ QueryEscape kx.2

/-- The pieces joined with `&`, as `Values.Encode` writes them into its buffer. -/
def joinAmp : List GoString → GoString
  | [] => []
  | [p] => p
  | p :: q :: ps => p ++ byte 0x26 :: joinAmp (q :: ps)

/-- The pairs of `v` in the order `Values.Encode` writes them: by sorted key,
and for one key in the order of its values. -/
def Values.pairs (v : Values) : List (GoString × GoString) :=
  (Values.sortedKeys v).flatMap (fun k => (Values.index v k).map (fun x => (k, x)))

/-- The assignment `q.Set(key, x)` guarded by `if field != nil`. -/
def optSet (q : Values) (key : GoString) (o : Option GoString) : Values :=
  match o with
  | some x => Values.Set q key x
  | none => q

/-- A sequence of guarded assignments, first to last. -/
def setAll (as : List (GoString × Option GoString)) (q : Values) : Values :=
  as.foldl (fun q a => optSet q a.1 a.2) q

/-- The query string `raw` emits the flag under `key` as the specification says: with
the value "0" for a flag that is present and false, with the value "1" for a
flag that is present and true, with no other value, and not at all for an
absent flag. -/
def flagEmitted (raw key : GoString) (flag : Option Bool) : Prop :=
  (∀ v, (key, v) ∈ ParseQuery raw ↔
      (flag = some false ∧ v = str "0") ∨ (flag = some true ∧ v = str "1"))
  ∧ (key ∈ queryKeys raw ↔ flag ≠ none)

/-- The byte is a decimal digit, `0` to `9`. -/
def isDigit (b : Byte) : Prop := 0x30 ≤ b.val ∧ b.val ≤ 0x39

instance : DecidablePred isDigit := fun b => by
  unfold isDigit
  infer_instance

/-- The number a string of decimal digits denotes, read from the left. -/
def decimalValue (s : GoString) : Nat := s.foldl (fun acc b => acc * 10 + (b.val - 0x30)) 0

/-- The string is the plain decimal representation of `n`: at least one byte,
decimal digits only, denoting `n`, and no leading zero unless the string is
"0". -/
def isPlainDecimal (s : GoString) (n : Nat) : Prop :=
  s ≠ [] ∧ (∀ b ∈ s, isDigit b) ∧ decimalValue s = n ∧ (∀ t, s = byte 0x30 :: t → t = [])

instance (s : GoString) (n : Nat) : Decidable (isPlainDecimal s n) := by
  unfold isPlainDecimal
  exact
    match s with
    | [] => isFalse (fun h => h.1 rfl)
    | b :: t =>
      decidable_of_iff ((∀ c ∈ b :: t, isDigit c) ∧ decimalValue (b :: t) = n
          ∧ (b = byte 0x30 → t = []))
        ⟨fun h => ⟨by simp, h.1, h.2.1, fun u hu => by
            have h1 := (List.cons.inj hu).1
            have h2 := (List.cons.inj hu).2
            rw [← h2]
            exact h.2.2 h1⟩,
         fun h => ⟨h.2.1, h.2.2.1, fun hb => h.2.2.2 t (by rw [hb])⟩⟩

/-! ## Theorems -/

/-! ### UTF-8 decoding and encoding -/


theorem first_cases (b : Byte) :
    (b.val < 0x80 ∧ first b = 0xF0)
    ∨ ((b.val < 0xC2 ∨ 0xF5 ≤ b.val) ∧ 0x80 ≤ b.val ∧ first b = 0xF1)
    ∨ (0xC2 ≤ b.val ∧ b.val ≤ 0xDF ∧ first b = 0x02)
    ∨ (b.val = 0xE0 ∧ first b = 0x13)
    ∨ (0xE1 ≤ b.val ∧ b.val ≤ 0xEF ∧ b.val ≠ 0xED ∧ first b = 0x03)
    ∨ (b.val = 0xED ∧ first b = 0x23)
    ∨ (b.val = 0xF0 ∧ first b = 0x34)
    ∨ (0xF1 ≤ b.val ∧ b.val ≤ 0xF3 ∧ first b = 0x04)
    ∨ (b.val = 0xF4 ∧ first b = 0x44) := by
  obtain ⟨n, hn⟩ := b
  simp only [first]
  split_ifs <;> simp <;> omega

theorem decode1 (s0 : Byte) (t : GoString) (x : Nat) (hf : first s0 = x) (hx : 0xF0 ≤ x) :
    DecodeRuneInString (s0 :: t) = (if x = 0xF0 then s0.val else RuneError, 1) := by
  simp only [DecodeRuneInString, hf, if_pos hx]

theorem decode2 (s0 : Byte) (t : GoString) (hf : first s0 = 0x02) :
    DecodeRuneInString (s0 :: t) =
      match t with
      | [] => (RuneError, 1)
      | s1 :: _ => if 0x80 ≤ s1.val ∧ s1.val ≤ 0xBF then (s0.val % 32 * 64 + s1.val % 64, 2)
                   else (RuneError, 1) := by
  rcases t with _ | ⟨s1, t1⟩
  · simp [DecodeRuneInString, hf]
  · simp only [DecodeRuneInString, hf, acceptRanges, List.length_cons]
    split_ifs <;> first | rfl | (exfalso; omega)

theorem decode3 (s0 : Byte) (t : GoString) (lo hi x : Nat)
    (hf : first s0 = x) (hx : x % 8 = 3) (ha : acceptRanges (x / 16) = (lo, hi)) (hx' : x < 0xF0):
    DecodeRuneInString (s0 :: t) =
      match t with
      | s1 :: s2 :: _ =>
        if lo ≤ s1.val ∧ s1.val ≤ hi ∧ 0x80 ≤ s2.val ∧ s2.val ≤ 0xBF then
          (s0.val % 16 * 4096 + s1.val % 64 * 64 + s2.val % 64, 3)
        else (RuneError, 1)
      | _ => (RuneError, 1) := by
  have hx2 : ¬ (0xF0 ≤ x) := by omega
  rcases t with _ | ⟨s1, _ | ⟨s2, t2⟩⟩
  · simp only [DecodeRuneInString, hf, hx, ha, if_neg hx2, List.length_cons, List.length_nil]
    rfl
  · simp only [DecodeRuneInString, hf, hx, ha, if_neg hx2, List.length_cons, List.length_nil]
    split_ifs <;> first | rfl | (exfalso; omega)
  · simp only [DecodeRuneInString, hf, ha, hx, if_neg hx2, List.length_cons]
    split_ifs <;> first | rfl | (exfalso; omega)

theorem decode4 (s0 : Byte) (t : GoString) (lo hi x : Nat)
    (hf : first s0 = x) (hx : x % 8 = 4) (ha : acceptRanges (x / 16) = (lo, hi)) (hx' : x < 0xF0):
    DecodeRuneInString (s0 :: t) =
      match t with
      | s1 :: s2 :: s3 :: _ =>
        if lo ≤ s1.val ∧ s1.val ≤ hi ∧ 0x80 ≤ s2.val ∧ s2.val ≤ 0xBF
            ∧ 0x80 ≤ s3.val ∧ s3.val ≤ 0xBF then
          (s0.val % 8 * 262144 + s1.val % 64 * 4096 + s2.val % 64 * 64 + s3.val % 64, 4)
        else (RuneError, 1)
      | _ => (RuneError, 1) := by
  have hx2 : ¬ (0xF0 ≤ x) := by omega
  rcases t with _ | ⟨s1, _ | ⟨s2, _ | ⟨s3, t3⟩⟩⟩
  · simp only [DecodeRuneInString, hf, hx, ha, if_neg hx2, List.length_cons, List.length_nil]
    rfl
  · simp only [DecodeRuneInString, hf, hx, ha, if_neg hx2, List.length_cons, List.length_nil]
    split_ifs <;> first | rfl | (exfalso; omega)
  · simp only [DecodeRuneInString, hf, hx, ha, if_neg hx2, List.length_cons, List.length_nil]
    split_ifs <;> first | rfl | (exfalso; omega)
  · simp only [DecodeRuneInString, hf, ha, hx, if_neg hx2, List.length_cons]
    split_ifs <;> first | (exfalso; omega) | rfl

theorem decode_cases (s0 : Byte) (t : GoString) :
    (s0.val < 0x80 ∧ DecodeRuneInString (s0 :: t) = (s0.val, 1))
    ∨ (0x80 ≤ s0.val ∧ DecodeRuneInString (s0 :: t) = (RuneError, 1))
    ∨ (∃ s1 t1, t = s1 :: t1 ∧ 0xC2 ≤ s0.val ∧ s0.val ≤ 0xDF ∧ 0x80 ≤ s1.val ∧ s1.val ≤ 0xBF
        ∧ DecodeRuneInString (s0 :: t) = (s0.val % 32 * 64 + s1.val % 64, 2))
    ∨ (∃ s1 s2 t2, t = s1 :: s2 :: t2 ∧ 0xE0 ≤ s0.val ∧ s0.val ≤ 0xEF
        ∧ 0x80 ≤ s1.val ∧ s1.val ≤ 0xBF ∧ (s0.val = 0xE0 → 0xA0 ≤ s1.val)
        ∧ (s0.val = 0xED → s1.val ≤ 0x9F) ∧ 0x80 ≤ s2.val ∧ s2.val ≤ 0xBF
        ∧ DecodeRuneInString (s0 :: t)
          = (s0.val % 16 * 4096 + s1.val % 64 * 64 + s2.val % 64, 3))
    ∨ (∃ s1 s2 s3 t3, t = s1 :: s2 :: s3 :: t3 ∧ 0xF0 ≤ s0.val ∧ s0.val ≤ 0xF4
        ∧ 0x80 ≤ s1.val ∧ s1.val ≤ 0xBF ∧ (s0.val = 0xF0 → 0x90 ≤ s1.val)
        ∧ (s0.val = 0xF4 → s1.val ≤ 0x8F) ∧ 0x80 ≤ s2.val ∧ s2.val ≤ 0xBF
        ∧ 0x80 ≤ s3.val ∧ s3.val ≤ 0xBF
        ∧ DecodeRuneInString (s0 :: t)
          = (s0.val % 8 * 262144 + s1.val % 64 * 4096 + s2.val % 64 * 64 + s3.val % 64, 4)) := by
  have three : ∀ lo hi x : Nat, first s0 = x → x % 8 = 3 → acceptRanges (x / 16) = (lo, hi) →
      x < 0xF0 → 0x80 ≤ lo → hi ≤ 0xBF → 0xE0 ≤ s0.val → s0.val ≤ 0xEF →
      (s0.val = 0xE0 → 0xA0 ≤ lo) → (s0.val = 0xED → hi ≤ 0x9F) →
      (0x80 ≤ s0.val ∧ DecodeRuneInString (s0 :: t) = (RuneError, 1))
      ∨ (∃ s1 s2 t2, t = s1 :: s2 :: t2 ∧ 0xE0 ≤ s0.val ∧ s0.val ≤ 0xEF
        ∧ 0x80 ≤ s1.val ∧ s1.val ≤ 0xBF ∧ (s0.val = 0xE0 → 0xA0 ≤ s1.val)
        ∧ (s0.val = 0xED → s1.val ≤ 0x9F) ∧ 0x80 ≤ s2.val ∧ s2.val ≤ 0xBF
        ∧ DecodeRuneInString (s0 :: t)
          = (s0.val % 16 * 4096 + s1.val % 64 * 64 + s2.val % 64, 3)) := by
    intro lo hi x hf hx ha hx' hlo hhi h1 h2 h3 h4
    rw [decode3 s0 t lo hi x hf hx ha hx']
    rcases t with _ | ⟨s1, _ | ⟨s2, t2⟩⟩
    · exact Or.inl ⟨by omega, rfl⟩
    · exact Or.inl ⟨by omega, rfl⟩
    · by_cases h : lo ≤ s1.val ∧ s1.val ≤ hi ∧ 0x80 ≤ s2.val ∧ s2.val ≤ 0xBF
      · right
        refine ⟨s1, s2, t2, rfl, h1, h2, by omega, by omega, by omega, by omega, h.2.2.1,
          h.2.2.2, ?_⟩
        simp only [if_pos h]
      · left
        refine ⟨by omega, ?_⟩
        simp only [if_neg h]
  have four : ∀ lo hi x : Nat, first s0 = x → x % 8 = 4 → acceptRanges (x / 16) = (lo, hi) →
      x < 0xF0 → 0x80 ≤ lo → hi ≤ 0xBF → 0xF0 ≤ s0.val → s0.val ≤ 0xF4 →
      (s0.val = 0xF0 → 0x90 ≤ lo) → (s0.val = 0xF4 → hi ≤ 0x8F) →
      (0x80 ≤ s0.val ∧ DecodeRuneInString (s0 :: t) = (RuneError, 1))
      ∨ (∃ s1 s2 s3 t3, t = s1 :: s2 :: s3 :: t3 ∧ 0xF0 ≤ s0.val ∧ s0.val ≤ 0xF4
        ∧ 0x80 ≤ s1.val ∧ s1.val ≤ 0xBF ∧ (s0.val = 0xF0 → 0x90 ≤ s1.val)
        ∧ (s0.val = 0xF4 → s1.val ≤ 0x8F) ∧ 0x80 ≤ s2.val ∧ s2.val ≤ 0xBF
        ∧ 0x80 ≤ s3.val ∧ s3.val ≤ 0xBF
        ∧ DecodeRuneInString (s0 :: t)
          = (s0.val % 8 * 262144 + s1.val % 64 * 4096 + s2.val % 64 * 64 + s3.val % 64, 4)) := by
    intro lo hi x hf hx ha hx' hlo hhi h1 h2 h3 h4
    rw [decode4 s0 t lo hi x hf hx ha hx']
    rcases t with _ | ⟨s1, _ | ⟨s2, _ | ⟨s3, t3⟩⟩⟩
    · exact Or.inl ⟨by omega, rfl⟩
    · exact Or.inl ⟨by omega, rfl⟩
    · exact Or.inl ⟨by omega, rfl⟩
    · by_cases h : lo ≤ s1.val ∧ s1.val ≤ hi ∧ 0x80 ≤ s2.val ∧ s2.val ≤ 0xBF
          ∧ 0x80 ≤ s3.val ∧ s3.val ≤ 0xBF
      · right
        refine ⟨s1, s2, s3, t3, rfl, h1, h2, by omega, by omega, by omega, by omega, h.2.2.1,
          h.2.2.2.1, h.2.2.2.2.1, h.2.2.2.2.2, ?_⟩
        simp only [if_pos h]
      · left
        refine ⟨by omega, ?_⟩
        simp only [if_neg h]
  rcases first_cases s0 with h | h | h | h | h | h | h | h | h
  · left
    refine ⟨h.1, ?_⟩
    rw [decode1 s0 t _ h.2 (by decide)]
    simp
  · right; left
    refine ⟨h.2.1, ?_⟩
    rw [decode1 s0 t _ h.2.2 (by decide)]
    simp
  · rw [decode2 s0 t h.2.2]
    rcases t with _ | ⟨s1, t1⟩
    · exact Or.inr (Or.inl ⟨by omega, rfl⟩)
    · by_cases hs : 0x80 ≤ s1.val ∧ s1.val ≤ 0xBF
      · right; right; left
        refine ⟨s1, t1, rfl, h.1, h.2.1, hs.1, hs.2, ?_⟩
        simp only [if_pos hs]
      · right; left
        refine ⟨by omega, ?_⟩
        simp only [if_neg hs]
  · rcases three 0xA0 0xBF 0x13 h.2 (by decide) (by decide) (by decide) (by decide) (by decide)
      (by omega) (by omega) (by omega) (by omega) with h' | h'
    · exact Or.inr (Or.inl h')
    · exact Or.inr (Or.inr (Or.inr (Or.inl h')))
  · rcases three 0x80 0xBF 0x03 h.2.2.2 (by decide) (by decide) (by decide) (by decide)
      (by decide) (by omega) (by omega) (by omega) (by omega) with h' | h'
    · exact Or.inr (Or.inl h')
    · exact Or.inr (Or.inr (Or.inr (Or.inl h')))
  · rcases three 0x80 0x9F 0x23 h.2 (by decide) (by decide) (by decide) (by decide) (by decide)
      (by omega) (by omega) (by omega) (by omega) with h' | h'
    · exact Or.inr (Or.inl h')
    · exact Or.inr (Or.inr (Or.inr (Or.inl h')))
  · rcases four 0x90 0xBF 0x34 h.2 (by decide) (by decide) (by decide) (by decide) (by decide)
      (by omega) (by omega) (by omega) (by omega) with h' | h'
    · exact Or.inr (Or.inl h')
    · exact Or.inr (Or.inr (Or.inr (Or.inr h')))
  · rcases four 0x80 0xBF 0x04 h.2.2 (by decide) (by decide) (by decide) (by decide)
      (by decide) (by omega) (by omega) (by omega) (by omega) with h' | h'
    · exact Or.inr (Or.inl h')
    · exact Or.inr (Or.inr (Or.inr (Or.inr h')))
  · rcases four 0x80 0x8F 0x44 h.2 (by decide) (by decide) (by decide) (by decide) (by decide)
      (by omega) (by omega) (by omega) (by omega) with h' | h'
    · exact Or.inr (Or.inl h')
    · exact Or.inr (Or.inr (Or.inr (Or.inr h')))

theorem byte_val (n : Nat) : (byte n).val = n % 256 := rfl

theorem byte_of_val (b : Byte) : byte b.val = b := by
  apply Fin.ext
  rw [byte_val]
  exact Nat.mod_eq_of_lt b.isLt

theorem decode_size (s : GoString) (h : s ≠ []) :
    1 ≤ (DecodeRuneInString s).2 ∧ (DecodeRuneInString s).2 ≤ s.length := by
  rcases s with _ | ⟨s0, t⟩
  · exact absurd rfl h
  · rcases decode_cases s0 t with ⟨-, he⟩ | ⟨-, he⟩ | ⟨s1, t1, ht, -, -, -, -, he⟩
        | ⟨s1, s2, t2, ht, -, -, -, -, -, -, -, -, he⟩
        | ⟨s1, s2, s3, t3, ht, -, -, -, -, -, -, -, -, -, -, he⟩
    · rw [he]
      simp
    · rw [he]
      simp
    · rw [he, ht]
      simp
    · rw [he, ht]
      simp
    · rw [he, ht]
      simp

theorem decode_encode (r : Nat) (hv : validRune r) (rest : GoString) :
    DecodeRuneInString (EncodeRune r ++ rest) = (r, (EncodeRune r).length) := by
  unfold validRune at hv
  unfold EncodeRune
  split_ifs with h1 h2 h3 h4
  · have hf : first (byte r) = 0xF0 := by
      rcases first_cases (byte r) with h | h | h | h | h | h | h | h | h <;>
        simp only [byte_val] at h <;> first | exact h.2 | (exfalso; omega)
    simp only [List.cons_append, List.nil_append, List.length_cons, List.length_nil]
    rw [decode1 _ _ _ hf (by decide)]
    simp only [byte_val, if_true]
    congr 1
    omega
  · have hf : first (byte (0xC0 + r / 64)) = 0x02 := by
      rcases first_cases (byte (0xC0 + r / 64)) with h | h | h | h | h | h | h | h | h <;>
        simp only [byte_val] at h <;> first | exact h.2.2 | (exfalso; omega)
    simp only [List.cons_append, List.nil_append, List.length_cons, List.length_nil]
    rw [decode2 _ _ hf]
    simp only [byte_val]
    rw [if_pos (by omega)]
    congr 1
    omega
  · exfalso
    omega
  · simp only [List.cons_append, List.nil_append, List.length_cons, List.length_nil]
    rcases first_cases (byte (0xE0 + r / 4096)) with h | h | h | h | h | h | h | h | h <;>
      simp only [byte_val] at h
    · exfalso; omega
    · exfalso; omega
    · exfalso; omega
    · rw [decode3 _ _ 0xA0 0xBF _ h.2 (by decide) (by decide) (by decide)]
      simp only [byte_val]
      rw [if_pos (by omega)]
      congr 1
      omega
    · rw [decode3 _ _ 0x80 0xBF _ h.2.2.2 (by decide) (by decide) (by decide)]
      simp only [byte_val]
      rw [if_pos (by omega)]
      congr 1
      omega
    · rw [decode3 _ _ 0x80 0x9F _ h.2 (by decide) (by decide) (by decide)]
      simp only [byte_val]
      rw [if_pos (by omega)]
      congr 1
      omega
    · exfalso; omega
    · exfalso; omega
    · exfalso; omega
  · simp only [List.cons_append, List.nil_append, List.length_cons, List.length_nil]
    rcases first_cases (byte (0xF0 + r / 262144)) with h | h | h | h | h | h | h | h | h <;>
      simp only [byte_val] at h
    · exfalso; omega
    · exfalso; omega
    · exfalso; omega
    · exfalso; omega
    · exfalso; omega
    · exfalso; omega
    · rw [decode4 _ _ 0x90 0xBF _ h.2 (by decide) (by decide) (by decide)]
      simp only [byte_val]
      rw [if_pos (by omega)]
      congr 1
      omega
    · rw [decode4 _ _ 0x80 0xBF _ h.2.2 (by decide) (by decide) (by decide)]
      simp only [byte_val]
      rw [if_pos (by omega)]
      congr 1
      omega
    · rw [decode4 _ _ 0x80 0x8F _ h.2 (by decide) (by decide) (by decide)]
      simp only [byte_val]
      rw [if_pos (by omega)]
      congr 1
      omega

theorem decode_inv (s0 : Byte) (t : GoString) (r n : Nat)
    (h : DecodeRuneInString (s0 :: t) = (r, n)) (hr : n ≠ 1 ∨ r < 0x80) :
    s0 :: t = EncodeRune r ++ (s0 :: t).drop n ∧ n = (EncodeRune r).length ∧ validRune r := by
  rcases decode_cases s0 t with ⟨h0, he⟩ | ⟨h0, he⟩ | ⟨s1, t1, ht, a1, a2, a3, a4, he⟩
      | ⟨s1, s2, t2, ht, a1, a2, a3, a4, a5, a6, a7, a8, he⟩
      | ⟨s1, s2, s3, t3, ht, a1, a2, a3, a4, a5, a6, a7, a8, a9, a10, he⟩
  · rw [he] at h
    cases h
    have e : EncodeRune s0.val = [s0] := by
      unfold EncodeRune
      rw [if_pos h0, byte_of_val]
    rw [e]
    refine ⟨by simp, by simp, Or.inl (by omega)⟩
  · rw [he] at h
    cases h
    exfalso
    unfold RuneError at hr
    omega
  · rw [he] at h
    cases h
    subst ht
    have hs0 := s0.isLt
    have hs1 := s1.isLt
    have e : EncodeRune (s0.val % 32 * 64 + s1.val % 64) = [s0, s1] := by
      unfold EncodeRune
      rw [if_neg (by omega), if_pos (by omega)]
      congr 1
      · apply Fin.ext
        rw [byte_val]
        omega
      · congr 1
        apply Fin.ext
        rw [byte_val]
        omega
    rw [e]
    refine ⟨by simp, by simp, Or.inl (by omega)⟩
  · rw [he] at h
    cases h
    subst ht
    have hs0 := s0.isLt
    have hs1 := s1.isLt
    have hs2 := s2.isLt
    have e : EncodeRune (s0.val % 16 * 4096 + s1.val % 64 * 64 + s2.val % 64) = [s0, s1, s2] := by
      unfold EncodeRune
      rw [if_neg (by omega), if_neg (by omega), if_neg (by omega), if_pos (by omega)]
      congr 1
      · apply Fin.ext
        rw [byte_val]
        omega
      · congr 1
        · apply Fin.ext
          rw [byte_val]
          omega
        · congr 1
          apply Fin.ext
          rw [byte_val]
          omega
    rw [e]
    refine ⟨by simp, by simp, ?_⟩
    unfold validRune
    omega
  · rw [he] at h
    cases h
    subst ht
    have hs0 := s0.isLt
    have hs1 := s1.isLt
    have hs2 := s2.isLt
    have hs3 := s3.isLt
    have e : EncodeRune (s0.val % 8 * 262144 + s1.val % 64 * 4096 + s2.val % 64 * 64
        + s3.val % 64) = [s0, s1, s2, s3] := by
      unfold EncodeRune
      rw [if_neg (by omega), if_neg (by omega), if_neg (by omega), if_neg (by omega)]
      congr 1
      · apply Fin.ext
        rw [byte_val]
        omega
      · congr 1
        · apply Fin.ext
          rw [byte_val]
          omega
        · congr 1
          · apply Fin.ext
            rw [byte_val]
            omega
          · congr 1
            apply Fin.ext
            rw [byte_val]
            omega
    rw [e]
    refine ⟨by simp, by simp, ?_⟩
    unfold validRune
    omega

/-! ### The range loop -/

theorem rangeAux_fuel : ∀ (fuel fuel' : Nat) (s : GoString),
    s.length ≤ fuel → s.length ≤ fuel' → rangeAux fuel s = rangeAux fuel' s := by
  intro fuel
  induction fuel with
  | zero =>
    intro fuel' s h _
    have hs : s = [] := List.length_eq_zero.mp (Nat.le_zero.mp h)
    subst hs
    cases fuel' <;> simp [rangeAux]
  | succ n ih =>
    intro fuel' s h h'
    by_cases hs : s = []
    · subst hs
      cases fuel' <;> simp [rangeAux]
    · have hd := decode_size s hs
      have hpos : 0 < s.length := List.length_pos.mpr hs
      cases fuel' with
      | zero => omega
      | succ m =>
        simp only [rangeAux, if_neg hs]
        congr 1
        apply ih
        · simp only [List.length_drop]
          omega
        · simp only [List.length_drop]
          omega

theorem rangeString_nil : rangeString [] = [] := rfl

theorem rangeString_cons (s : GoString) (hs : s ≠ []) :
    rangeString s
      = (DecodeRuneInString s).1 :: rangeString (s.drop (DecodeRuneInString s).2) := by
  have hd := decode_size s hs
  have hpos : 0 < s.length := List.length_pos.mpr hs
  unfold rangeString
  obtain ⟨n, hn⟩ : ∃ n, s.length = n + 1 := ⟨s.length - 1, by omega⟩
  rw [hn]
  simp only [rangeAux, if_neg hs]
  congr 1
  apply rangeAux_fuel
  · simp only [List.length_drop]
    omega
  · exact le_refl _

theorem EncodeRune_ne_nil (r : Nat) : EncodeRune r ≠ [] := by
  unfold EncodeRune
  split_ifs <;> simp

theorem rangeString_encode (r : Nat) (hv : validRune r) (rest : GoString) :
    rangeString (EncodeRune r ++ rest) = r :: rangeString rest := by
  rw [rangeString_cons _ (by simp [EncodeRune_ne_nil]), decode_encode r hv rest]
  simp

theorem rangeString_utf8 (text : List Char) : rangeString (utf8 text) = text.map Char.toNat := by
  induction text with
  | nil => rfl
  | cons ch rest ih =>
    have hv : validRune ch.toNat := ch.valid
    show rangeString (EncodeRune ch.toNat ++ utf8 rest) = _
    rw [rangeString_encode _ hv, ih]
    rfl

theorem foldl_append_singleton {α β : Type} (f : α → β) (l : List α) (init : List β) :
    l.foldl (fun result char => result ++ [f char]) init = init ++ l.map f := by
  induction l generalizing init with
  | nil => simp
  | cons a l ih => simp [ih]

theorem EncodeRune_isDayTypeCode (r : Nat) :
    isDayTypeCode (EncodeRune r) ↔ (r = 0x30 ∨ r = 0x31 ∨ r = 0x32 ∨ r = 0x34) := by
  have hw : DayTypeWorking = [byte 0x30] := by decide
  have hn : DayTypeNonWorking = [byte 0x31] := by decide
  have hh : DayTypeHalfHoliday = [byte 0x32] := by decide
  have hc : DayTypeWorkingCovid = [byte 0x34] := by decide
  unfold isDayTypeCode
  rw [hw, hn, hh, hc]
  unfold EncodeRune
  split_ifs with h1 h2 h3 h4
  · simp only [List.cons.injEq, and_true, Fin.ext_iff, byte_val]
    omega
  · simp
    omega
  · simp
    omega
  · simp
    omega
  · simp
    omega

theorem decode_ascii (s0 : Byte) (t : GoString) (h : s0.val < 0x80) :
    DecodeRuneInString (s0 :: t) = (s0.val, 1) := by
  rcases first_cases s0 with h' | h' | h' | h' | h' | h' | h' | h' | h'
  · rw [decode1 s0 t _ h'.2 (by decide)]
    simp
  all_goals
    exfalso
    omega

theorem decode_not_ascii (s0 : Byte) (t : GoString) (h : 0x80 ≤ s0.val) :
    0x80 ≤ (DecodeRuneInString (s0 :: t)).1 := by
  rcases decode_cases s0 t with ⟨h0, he⟩ | ⟨h0, he⟩ | ⟨s1, t1, -, a1, a2, a3, a4, he⟩
    | ⟨s1, s2, t2, -, a1, a2, a3, a4, a5, a6, a7, a8, he⟩
    | ⟨s1, s2, s3, t3, -, a1, a2, a3, a4, a5, a6, a7, a8, a9, a10, he⟩
  · omega
  · rw [he]
    decide
  · rw [he]
    show 0x80 ≤ s0.val % 32 * 64 + s1.val % 64
    omega
  · rw [he]
    show 0x80 ≤ s0.val % 16 * 4096 + s1.val % 64 * 64 + s2.val % 64
    omega
  · rw [he]
    show 0x80 ≤ s0.val % 8 * 262144 + s1.val % 64 * 4096 + s2.val % 64 * 64 + s3.val % 64
    omega

theorem rangeString_all_codes : ∀ (n : Nat) (s : GoString), s.length = n →
    ((∀ r ∈ rangeString s, r = 0x30 ∨ r = 0x31 ∨ r = 0x32 ∨ r = 0x34)
      ↔ ∀ b ∈ s, isDayTypeByte b) := by
  intro n
  induction n with
  | zero =>
    intro s hs
    have : s = [] := List.length_eq_zero.mp hs
    subst this
    simp [rangeString_nil]
  | succ n ih =>
    intro s hs
    rcases s with _ | ⟨s0, t⟩
    · simp at hs
    · have ht : t.length = n := by simpa using hs
      rw [rangeString_cons _ (by simp)]
      simp only [List.mem_cons, forall_eq_or_imp]
      unfold isDayTypeByte
      by_cases h0 : s0.val < 0x80
      · rw [decode_ascii s0 t h0]
        simp only [List.drop_succ_cons, List.drop_zero]
        rw [ih t ht]
        rfl
      · have hge := decode_not_ascii s0 t (by omega)
        constructor
        · intro h
          have h1 := h.1
          exfalso
          omega
        · intro h
          have h1 := h.1
          exfalso
          omega

/-! ### White space -/

theorem IsSpace_iff (r : Nat) :
    IsSpace r = true ↔
      (r = 0x09 ∨ r = 0x0A ∨ r = 0x0B ∨ r = 0x0C ∨ r = 0x0D ∨ r = 0x20 ∨ r = 0x85 ∨ r = 0xA0
        ∨ r = 0x1680 ∨ (0x2000 ≤ r ∧ r ≤ 0x200A) ∨ r = 0x2028 ∨ r = 0x2029 ∨ r = 0x202F
        ∨ r = 0x205F ∨ r = 0x3000) := by
  unfold IsSpace
  split_ifs with h
  · simp only [decide_eq_true_eq]
    omega
  · simp only [decide_eq_true_eq]
    omega

theorem IsSpace_valid (r : Nat) (h : IsSpace r = true) : validRune r := by
  rw [IsSpace_iff] at h
  unfold validRune
  omega

theorem decode_space_inv (s : GoString) (hs : s ≠ [])
    (h : IsSpace (DecodeRuneInString s).1 = true) :
    s = EncodeRune (DecodeRuneInString s).1 ++ s.drop (DecodeRuneInString s).2 := by
  rcases s with _ | ⟨s0, t⟩
  · exact absurd rfl hs
  · have hr : (DecodeRuneInString (s0 :: t)).2 ≠ 1 ∨ (DecodeRuneInString (s0 :: t)).1 < 0x80 := by
      rcases decode_cases s0 t with ⟨h0, he⟩ | ⟨h0, he⟩ | ⟨s1, t1, -, -, -, -, -, he⟩
        | ⟨s1, s2, t2, -, -, -, -, -, -, -, -, -, he⟩
        | ⟨s1, s2, s3, t3, -, -, -, -, -, -, -, -, -, -, -, he⟩
      · rw [he]
        exact Or.inr h0
      · rw [he] at h
        exact absurd h (by decide)
      · rw [he]
        exact Or.inl (by simp)
      · rw [he]
        exact Or.inl (by simp)
      · rw [he]
        exact Or.inl (by simp)
    exact (decode_inv s0 t _ _ rfl hr).1

theorem startsWithSpace_iff (s : GoString) :
    startsWithSpace s ↔ s ≠ [] ∧ IsSpace (DecodeRuneInString s).1 = true := by
  constructor
  · rintro ⟨r, rest, hr, rfl⟩
    refine ⟨by simp [EncodeRune_ne_nil], ?_⟩
    rw [decode_encode r (IsSpace_valid r hr) rest]
    exact hr
  · rintro ⟨hs, h⟩
    exact ⟨_, _, h, decode_space_inv s hs h⟩

/-! ### Trimming on the left -/

theorem trimLeftAux_fuel : ∀ (fuel fuel' : Nat) (s : GoString),
    s.length ≤ fuel → s.length ≤ fuel' → trimLeftAux fuel s = trimLeftAux fuel' s := by
  intro fuel
  induction fuel with
  | zero =>
    intro fuel' s h _
    have hs : s = [] := List.length_eq_zero.mp (Nat.le_zero.mp h)
    subst hs
    cases fuel' <;> simp [trimLeftAux]
  | succ n ih =>
    intro fuel' s h h'
    by_cases hs : s = []
    · subst hs
      cases fuel' <;> simp [trimLeftAux]
    · have hd := decode_size s hs
      have hpos : 0 < s.length := List.length_pos.mpr hs
      cases fuel' with
      | zero => omega
      | succ m =>
        simp only [trimLeftAux]
        split_ifs
        · apply ih
          · simp only [List.length_drop]
            omega
          · simp only [List.length_drop]
            omega
        · rfl

theorem TrimLeftSpace_nil : TrimLeftSpace [] = [] := rfl

theorem TrimLeftSpace_eq (s : GoString) :
    TrimLeftSpace s =
      if s ≠ [] ∧ IsSpace (DecodeRuneInString s).1 = true then
        TrimLeftSpace (s.drop (DecodeRuneInString s).2)
      else s := by
  by_cases hs : s = []
  · subst hs
    simp [TrimLeftSpace_nil]
  · have hd := decode_size s hs
    have hpos : 0 < s.length := List.length_pos.mpr hs
    unfold TrimLeftSpace
    obtain ⟨n, hn⟩ : ∃ n, s.length = n + 1 := ⟨s.length - 1, by omega⟩
    rw [hn]
    simp only [trimLeftAux]
    split_ifs
    · apply trimLeftAux_fuel
      · simp only [List.length_drop]
        omega
      · exact le_refl _
    · rfl

theorem TrimLeftSpace_encode (r : Nat) (hr : IsSpace r = true) (rest : GoString) :
    TrimLeftSpace (EncodeRune r ++ rest) = TrimLeftSpace rest := by
  rw [TrimLeftSpace_eq, decode_encode r (IsSpace_valid r hr) rest]
  simp [hr, EncodeRune_ne_nil]

theorem TrimLeftSpace_spaceSeq (w rest : GoString) (hw : isSpaceSeq w) :
    TrimLeftSpace (w ++ rest) = TrimLeftSpace rest := by
  obtain ⟨rs, hrs, rfl⟩ := hw
  induction rs with
  | nil => rfl
  | cons r rs ih =>
    have h1 : IsSpace r = true := hrs r (List.mem_cons_self _ _)
    have h2 : ∀ x ∈ rs, IsSpace x = true := fun x hx => hrs x (List.mem_cons_of_mem _ hx)
    simp only [List.flatMap_cons, List.append_assoc]
    rw [TrimLeftSpace_encode r h1, ih h2]

theorem isSpaceSeq_nil : isSpaceSeq [] := ⟨[], by simp, rfl⟩

theorem isSpaceSeq_cons (r : Nat) (hr : IsSpace r = true) (w : GoString) (hw : isSpaceSeq w) :
    isSpaceSeq (EncodeRune r ++ w) := by
  obtain ⟨rs, hrs, rfl⟩ := hw
  refine ⟨r :: rs, ?_, by simp⟩
  intro x hx
  rcases List.mem_cons.mp hx with rfl | hx
  · exact hr
  · exact hrs x hx

theorem isSpaceSeq_append (w1 w2 : GoString) (h1 : isSpaceSeq w1) (h2 : isSpaceSeq w2) :
    isSpaceSeq (w1 ++ w2) := by
  obtain ⟨rs1, hrs1, rfl⟩ := h1
  obtain ⟨rs2, hrs2, rfl⟩ := h2
  refine ⟨rs1 ++ rs2, ?_, by simp⟩
  intro x hx
  rcases List.mem_append.mp hx with hx | hx
  · exact hrs1 x hx
  · exact hrs2 x hx

theorem TrimLeftSpace_spec : ∀ (n : Nat) (s : GoString), s.length = n →
    (∃ pre, isSpaceSeq pre ∧ s = pre ++ TrimLeftSpace s) ∧ ¬ startsWithSpace (TrimLeftSpace s) := by
  intro n
  induction n using Nat.strong_induction_on with
  | _ n ih =>
    intro s hn
    rw [TrimLeftSpace_eq]
    by_cases h : s ≠ [] ∧ IsSpace (DecodeRuneInString s).1 = true
    · rw [if_pos h]
      have hd := decode_size s h.1
      have hlen : (s.drop (DecodeRuneInString s).2).length < n := by
        simp only [List.length_drop]
        omega
      obtain ⟨⟨pre, hpre, he⟩, hns⟩ := ih _ hlen (s.drop (DecodeRuneInString s).2) rfl
      refine ⟨⟨EncodeRune (DecodeRuneInString s).1 ++ pre, isSpaceSeq_cons _ h.2 _ hpre, ?_⟩, hns⟩
      rw [List.append_assoc, ← he]
      exact decode_space_inv s h.1 h.2
    · rw [if_neg h]
      refine ⟨⟨[], isSpaceSeq_nil, rfl⟩, ?_⟩
      rw [startsWithSpace_iff]
      exact h


/-! ### Decoding backwards -/


theorem getD_append_at (x w : GoString) (k : Nat) (d : Byte) :
    (x ++ w).getD (x.length + k) d = w.getD k d := by
  induction x with
  | nil => simp
  | cons a x ih =>
    simp only [List.cons_append, List.length_cons]
    rw [show x.length + 1 + k = (x.length + k) + 1 by omega, List.getD_cons_succ]
    exact ih

theorem drop_append_at (x w : GoString) : (x ++ w).drop x.length = w := by
  simp

theorem DecodeLast_ascii (x : GoString) (b : Byte) (hb : b.val < 0x80) :
    DecodeLastRuneInString (x ++ [b]) = (b.val, 1) := by
  unfold DecodeLastRuneInString
  have hlen : (x ++ [b]).length = x.length + 1 := by simp
  have hg : (x ++ [b]).getD (((x ++ [b]).length : Int) - 1).toNat 0 = b := by
    rw [hlen]
    have : (((x.length + 1 : Nat) : Int) - 1).toNat = x.length + 0 := by
      push_cast
      simp
    rw [this, getD_append_at]
    rfl
  simp only [hg]
  rw [if_neg (by rw [hlen]; push_cast; omega), if_pos hb]

/-- The bound `lim` of the backward scan. -/
theorem scan_lim (e : Int) : (if e - 4 < 0 then (0 : Int) else e - 4) = max 0 (e - 4) := by
  split_ifs <;> omega

theorem DecodeLast_of_scan (x enc : GoString) (c : Byte) (k : Nat)
    (hk : enc.length = k + 2) (hc : 0x80 ≤ c.val) (hlast : enc.getD (k + 1) 0 = c)
    (hscan : scanBack (x ++ enc) (max 0 (((x.length + (k + 2) : Nat) : Int) - 4))
      (x.length + (k + 2)) (x.length + k : Nat) = (x.length : Int)) :
    DecodeLastRuneInString (x ++ enc) =
      if (DecodeRuneInString enc).2 ≠ enc.length then (RuneError, 1)
      else DecodeRuneInString enc := by
  unfold DecodeLastRuneInString
  have hlen : (x ++ enc).length = x.length + (k + 2) := by simp [hk]
  have hg : (x ++ enc).getD (((x ++ enc).length : Int) - 1).toNat 0 = c := by
    rw [hlen]
    have : (((x.length + (k + 2) : Nat) : Int) - 1).toNat = x.length + (k + 1) := by
      push_cast
      omega
    rw [this, getD_append_at]
    exact hlast
  simp only [hg, scan_lim]
  rw [if_neg (by rw [hlen]; push_cast; omega), if_neg (by omega)]
  have e2 : ((x ++ enc).length : Int) - 2 = ((x.length + k : Nat) : Int) := by
    rw [hlen]
    push_cast
    omega
  rw [e2]
  simp only [hlen, hscan]
  have hnn : (if (x.length : Int) < 0 then (0 : Int) else (x.length : Int)) = x.length :=
    if_neg (by omega)
  simp only [hnn, Int.toNat_ofNat, drop_append_at]
  by_cases hd : (DecodeRuneInString enc).2 = enc.length
  · rw [if_neg (by rw [hd, hk]; push_cast; omega), if_neg (by omega)]
  · rw [if_pos (by rw [hk] at hd; push_cast; omega), if_pos hd]

theorem scan_two (x : GoString) (b0 c1 : Byte) (h0 : RuneStart b0 = true) :
    scanBack (x ++ [b0, c1]) (max 0 (((x.length + (0 + 2) : Nat) : Int) - 4))
      (x.length + (0 + 2)) (x.length + 0 : Nat) = (x.length : Int) := by
  simp only [scanBack]
  rw [if_pos (by omega)]
  have : ((x.length + 0 : Nat) : Int).toNat = x.length + 0 := by simp
  rw [this, getD_append_at]
  simp [h0]

theorem scan_three (x : GoString) (b0 c1 c2 : Byte) (h0 : RuneStart b0 = true)
    (h1 : RuneStart c1 = false) :
    scanBack (x ++ [b0, c1, c2]) (max 0 (((x.length + (1 + 2) : Nat) : Int) - 4))
      (x.length + (1 + 2)) (x.length + 1 : Nat) = (x.length : Int) := by
  rw [show x.length + (1 + 2) = (x.length + 1) + 1 + 1 by omega]
  simp only [scanBack]
  rw [if_pos (by omega)]
  have : ((x.length + 1 : Nat) : Int).toNat = x.length + 1 := Int.toNat_ofNat _
  rw [this, getD_append_at]
  simp only [List.getD_cons_succ, List.getD_cons_zero, h1]
  rw [if_neg (by simp), if_pos (by push_cast; omega)]
  have : (((x.length + 1 : Nat) : Int) - 1).toNat = x.length + 0 := by
    push_cast
    omega
  rw [this, getD_append_at]
  simp only [List.getD_cons_zero, h0, if_true]
  push_cast
  omega

theorem scan_four (x : GoString) (b0 c1 c2 c3 : Byte) (h0 : RuneStart b0 = true)
    (h1 : RuneStart c1 = false) (h2 : RuneStart c2 = false) :
    scanBack (x ++ [b0, c1, c2, c3]) (max 0 (((x.length + (2 + 2) : Nat) : Int) - 4))
      (x.length + (2 + 2)) (x.length + 2 : Nat) = (x.length : Int) := by
  rw [show x.length + (2 + 2) = (x.length + 1) + 1 + 1 + 1 by omega]
  simp only [scanBack]
  rw [if_pos (by omega)]
  have : ((x.length + 2 : Nat) : Int).toNat = x.length + 2 := Int.toNat_ofNat _
  rw [this, getD_append_at]
  simp only [List.getD_cons_succ, List.getD_cons_zero, h2]
  rw [if_neg (by simp), if_pos (by push_cast; omega)]
  have : (((x.length + 2 : Nat) : Int) - 1).toNat = x.length + 1 := by
    push_cast
    omega
  rw [this, getD_append_at]
  simp only [List.getD_cons_succ, List.getD_cons_zero, h1]
  rw [if_neg (by simp), if_pos (by push_cast; omega)]
  have : (((x.length + 2 : Nat) : Int) - 1 - 1).toNat = x.length + 0 := by
    push_cast
    omega
  rw [this, getD_append_at]
  simp only [List.getD_cons_zero, h0, if_true]
  push_cast
  omega

theorem DecodeLast_encode (x : GoString) (r : Nat) (hv : validRune r) :
    DecodeLastRuneInString (x ++ EncodeRune r) = (r, (EncodeRune r).length) := by
  have hd := decode_encode r hv []
  rw [List.append_nil] at hd
  unfold validRune at hv
  have hstart : ∀ n, 0xC0 ≤ n → n < 256 → RuneStart (byte n) = true := by
    intro n h1 h2
    simp only [RuneStart, byte_val, bne_iff_ne]
    omega
  have hcont : ∀ n, n < 64 → RuneStart (byte (0x80 + n)) = false := by
    intro n h1
    simp only [RuneStart, byte_val]
    have : (0x80 + n) % 256 / 64 = 2 := by omega
    rw [this]
    rfl
  have hge : ∀ n, n < 64 → 0x80 ≤ (byte (0x80 + n)).val := by
    intro n h1
    rw [byte_val]
    omega
  by_cases h1 : r < 0x80
  · have e : EncodeRune r = [byte r] := by
      unfold EncodeRune
      rw [if_pos h1]
    rw [e, DecodeLast_ascii x (byte r) (by rw [byte_val]; omega), byte_val]
    congr 1
    omega
  · by_cases h2 : r < 0x800
    · have e : EncodeRune r = [byte (0xC0 + r / 64), byte (0x80 + r % 64)] := by
        unfold EncodeRune
        rw [if_neg h1, if_pos h2]
      rw [e] at hd ⊢
      rw [DecodeLast_of_scan x [byte (0xC0 + r / 64), byte (0x80 + r % 64)]
        (byte (0x80 + r % 64)) 0 rfl (hge _ (by omega)) rfl
        (scan_two x _ _ (hstart _ (by omega) (by omega))), hd]
      simp
    · by_cases h3 : r < 0x10000
      · have e : EncodeRune r
            = [byte (0xE0 + r / 4096), byte (0x80 + r / 64 % 64), byte (0x80 + r % 64)] := by
          unfold EncodeRune
          rw [if_neg h1, if_neg h2, if_neg (by omega), if_pos h3]
        rw [e] at hd ⊢
        rw [DecodeLast_of_scan x
          [byte (0xE0 + r / 4096), byte (0x80 + r / 64 % 64), byte (0x80 + r % 64)]
          (byte (0x80 + r % 64)) 1 rfl (hge _ (by omega)) rfl
          (scan_three x _ _ _ (hstart _ (by omega) (by omega)) (hcont _ (by omega))), hd]
        simp
      · have e : EncodeRune r
            = [byte (0xF0 + r / 262144), byte (0x80 + r / 4096 % 64),
                byte (0x80 + r / 64 % 64), byte (0x80 + r % 64)] := by
          unfold EncodeRune
          rw [if_neg h1, if_neg h2, if_neg (by omega), if_neg h3]
        rw [e] at hd ⊢
        rw [DecodeLast_of_scan x
          [byte (0xF0 + r / 262144), byte (0x80 + r / 4096 % 64),
            byte (0x80 + r / 64 % 64), byte (0x80 + r % 64)]
          (byte (0x80 + r % 64)) 2 rfl (hge _ (by omega)) rfl
          (scan_four x _ _ _ _ (hstart _ (by omega) (by omega)) (hcont _ (by omega))
            (hcont _ (by omega))), hd]
        simp

theorem scanBack_le (s : GoString) (lim : Int) : ∀ (fuel : Nat) (start : Int),
    scanBack s lim fuel start ≤ start := by
  intro fuel
  induction fuel with
  | zero =>
    intro start
    exact le_refl _
  | succ n ih =>
    intro start
    simp only [scanBack]
    split_ifs
    · exact le_refl _
    · have := ih (start - 1)
      omega
    · exact le_refl _

/-- The backward scan does not depend on its fuel once the fuel exceeds the
number of positions from `start` down to `lim`. -/
theorem scanBack_fuel (s : GoString) (lim : Int) : ∀ (fuel fuel' : Nat) (start : Int),
    start - lim < fuel → start - lim < fuel' →
    scanBack s lim fuel start = scanBack s lim fuel' start := by
  intro fuel
  induction fuel with
  | zero =>
    intro fuel' start h _
    cases fuel' with
    | zero => rfl
    | succ m =>
      simp only [scanBack]
      rw [if_neg (by omega)]
  | succ n ih =>
    intro fuel' start h h'
    cases fuel' with
    | zero =>
      simp only [scanBack]
      rw [if_neg (by omega)]
    | succ m =>
      simp only [scanBack]
      split_ifs
      · rfl
      · exact ih m (start - 1) (by omega) (by omega)
      · rfl

/-- The fuel `s.length` that `DecodeLastRuneInString` gives the backward scan
is enough: more fuel gives the same position. -/
theorem scanBack_enough (s : GoString) (fuel : Nat) (h : s.length ≤ fuel) :
    scanBack s (if (s.length : Int) - 4 < 0 then 0 else (s.length : Int) - 4) s.length
        ((s.length : Int) - 2)
      = scanBack s (if (s.length : Int) - 4 < 0 then 0 else (s.length : Int) - 4) fuel
        ((s.length : Int) - 2) := by
  apply scanBack_fuel
  · split_ifs <;> omega
  · split_ifs <;> omega

theorem DecodeLast_cases (init : GoString) (b : Byte) :
    (b.val < 0x80 ∧ DecodeLastRuneInString (init ++ [b]) = (b.val, 1))
    ∨ DecodeLastRuneInString (init ++ [b]) = (RuneError, 1)
    ∨ (∃ k, DecodeLastRuneInString (init ++ [b]) = DecodeRuneInString ((init ++ [b]).drop k)
        ∧ k + (DecodeRuneInString ((init ++ [b]).drop k)).2 = (init ++ [b]).length
        ∧ k < (init ++ [b]).length) := by
  by_cases hb : b.val < 0x80
  · exact Or.inl ⟨hb, DecodeLast_ascii init b hb⟩
  · right
    unfold DecodeLastRuneInString
    have hlen : (init ++ [b]).length = init.length + 1 := by simp
    have hg : (init ++ [b]).getD (((init ++ [b]).length : Int) - 1).toNat 0 = b := by
      rw [hlen]
      have : (((init.length + 1 : Nat) : Int) - 1).toNat = init.length + 0 := by
        push_cast
        simp
      rw [this, getD_append_at]
      rfl
    simp only [hg]
    rw [if_neg (by rw [hlen]; push_cast; omega), if_neg hb]
    have hle := scanBack_le (init ++ [b])
      (if ((init ++ [b]).length : Int) - 4 < 0 then 0 else ((init ++ [b]).length : Int) - 4)
      (init ++ [b]).length (((init ++ [b]).length : Int) - 2)
    generalize scanBack (init ++ [b]) _ _ _ = scan at hle ⊢
    generalize hst : (if scan < 0 then (0 : Int) else scan) = start
    have hnn : 0 ≤ start ∧ start < ((init ++ [b]).length : Int) := by
      rw [← hst, hlen] at *
      push_cast at *
      split_ifs <;> omega
    by_cases hd : start + ((DecodeRuneInString ((init ++ [b]).drop start.toNat)).2 : Int)
        = ((init ++ [b]).length : Int)
    · right
      have hto : (start.toNat : Int) = start := Int.toNat_of_nonneg hnn.1
      refine ⟨start.toNat, ?_, ?_, ?_⟩
      · rw [if_neg (by simpa using hd)]
      · omega
      · omega
    · left
      rw [if_pos hd]

theorem DecodeLast_size (s : GoString) (hs : s ≠ []) :
    1 ≤ (DecodeLastRuneInString s).2 ∧ (DecodeLastRuneInString s).2 ≤ s.length := by
  obtain ⟨init, b, rfl⟩ : ∃ init b, s = init ++ [b] :=
    ⟨s.dropLast, s.getLast hs, (List.dropLast_append_getLast hs).symm⟩
  have hlen : (init ++ [b]).length = init.length + 1 := by simp
  rcases DecodeLast_cases init b with ⟨-, he⟩ | he | ⟨k, he, hk, hlt⟩
  · rw [he, hlen]
    exact ⟨le_refl _, by simp⟩
  · rw [he, hlen]
    exact ⟨le_refl _, by simp⟩
  · rw [he]
    have hnil : (init ++ [b]).drop k ≠ [] := by
      intro h0
      have := congrArg List.length h0
      simp only [List.length_drop, List.length_nil] at this
      omega
    have := decode_size _ hnil
    omega

theorem DecodeLast_space_inv (s : GoString) (hs : s ≠ [])
    (h : IsSpace (DecodeLastRuneInString s).1 = true) :
    s = s.take (s.length - (DecodeLastRuneInString s).2)
          ++ EncodeRune (DecodeLastRuneInString s).1 := by
  obtain ⟨init, b, rfl⟩ : ∃ init b, s = init ++ [b] :=
    ⟨s.dropLast, s.getLast hs, (List.dropLast_append_getLast hs).symm⟩
  have hlen : (init ++ [b]).length = init.length + 1 := by simp
  rcases DecodeLast_cases init b with ⟨hb, he⟩ | he | ⟨k, he, hk, -⟩
  · rw [he, hlen]
    have e : EncodeRune b.val = [b] := by
      unfold EncodeRune
      rw [if_pos hb, byte_of_val]
    simp [e]
  · rw [he] at h
    exact absurd h (by decide)
  · rw [he] at h ⊢
    by_cases hnil : (init ++ [b]).drop k = []
    · rw [hnil] at h
      exact absurd h (by decide)
    · have hinv := decode_space_inv _ hnil h
      have hrest : ((init ++ [b]).drop k).drop (DecodeRuneInString ((init ++ [b]).drop k)).2
          = [] := by
        apply List.eq_nil_of_length_eq_zero
        simp only [List.length_drop]
        omega
      rw [hrest, List.append_nil] at hinv
      have hk' : (init ++ [b]).length - (DecodeRuneInString ((init ++ [b]).drop k)).2 = k := by
        omega
      rw [hk', ← hinv, List.take_append_drop]

theorem endsWithSpace_iff (s : GoString) :
    endsWithSpace s ↔ s ≠ [] ∧ IsSpace (DecodeLastRuneInString s).1 = true := by
  constructor
  · rintro ⟨r, init, hr, rfl⟩
    refine ⟨by simp [EncodeRune_ne_nil], ?_⟩
    rw [DecodeLast_encode init r (IsSpace_valid r hr)]
    exact hr
  · rintro ⟨hs, h⟩
    exact ⟨_, _, h, DecodeLast_space_inv s hs h⟩

/-! ### Trimming on the right -/

theorem trimRightAux_fuel : ∀ (fuel fuel' : Nat) (s : GoString),
    s.length ≤ fuel → s.length ≤ fuel' → trimRightAux fuel s = trimRightAux fuel' s := by
  intro fuel
  induction fuel with
  | zero =>
    intro fuel' s h _
    have hs : s = [] := List.length_eq_zero.mp (Nat.le_zero.mp h)
    subst hs
    cases fuel' <;> simp [trimRightAux]
  | succ n ih =>
    intro fuel' s h h'
    by_cases hs : s = []
    · subst hs
      cases fuel' <;> simp [trimRightAux]
    · have hd := DecodeLast_size s hs
      have hpos : 0 < s.length := List.length_pos.mpr hs
      cases fuel' with
      | zero => omega
      | succ m =>
        simp only [trimRightAux]
        split_ifs
        · apply ih
          · simp only [List.length_take]
            omega
          · simp only [List.length_take]
            omega
        · rfl

theorem TrimRightSpace_nil : TrimRightSpace [] = [] := rfl

theorem TrimRightSpace_eq (s : GoString) :
    TrimRightSpace s =
      if s ≠ [] ∧ IsSpace (DecodeLastRuneInString s).1 = true then
        TrimRightSpace (s.take (s.length - (DecodeLastRuneInString s).2))
      else s := by
  by_cases hs : s = []
  · subst hs
    simp [TrimRightSpace_nil]
  · have hd := DecodeLast_size s hs
    have hpos : 0 < s.length := List.length_pos.mpr hs
    unfold TrimRightSpace
    obtain ⟨n, hn⟩ : ∃ n, s.length = n + 1 := ⟨s.length - 1, by omega⟩
    rw [hn]
    simp only [trimRightAux]
    split_ifs
    · rw [hn]
      apply trimRightAux_fuel
      · simp only [List.length_take]
        omega
      · exact le_refl _
    · rfl

theorem TrimRightSpace_encode (x : GoString) (r : Nat) (hr : IsSpace r = true) :
    TrimRightSpace (x ++ EncodeRune r) = TrimRightSpace x := by
  rw [TrimRightSpace_eq, DecodeLast_encode x r (IsSpace_valid r hr)]
  simp [hr, EncodeRune_ne_nil]

theorem TrimRightSpace_spaceSeq (w : GoString) (hw : isSpaceSeq w) :
    ∀ x : GoString, TrimRightSpace (x ++ w) = TrimRightSpace x := by
  obtain ⟨rs, hrs, rfl⟩ := hw
  induction rs with
  | nil =>
    intro x
    simp
  | cons r rs ih =>
    intro x
    have h1 : IsSpace r = true := hrs r (List.mem_cons_self _ _)
    have h2 : ∀ y ∈ rs, IsSpace y = true := fun y hy => hrs y (List.mem_cons_of_mem _ hy)
    simp only [List.flatMap_cons]
    rw [← List.append_assoc, ih h2, TrimRightSpace_encode x r h1]

theorem TrimRightSpace_spec : ∀ (n : Nat) (s : GoString), s.length = n →
    (∃ suf, isSpaceSeq suf ∧ s = TrimRightSpace s ++ suf)
      ∧ ¬ endsWithSpace (TrimRightSpace s) := by
  intro n
  induction n using Nat.strong_induction_on with
  | _ n ih =>
    intro s hn
    rw [TrimRightSpace_eq]
    by_cases h : s ≠ [] ∧ IsSpace (DecodeLastRuneInString s).1 = true
    · rw [if_pos h]
      have hd := DecodeLast_size s h.1
      have hlen : (s.take (s.length - (DecodeLastRuneInString s).2)).length < n := by
        simp only [List.length_take]
        omega
      obtain ⟨⟨suf, hsuf, he⟩, hns⟩ :=
        ih _ hlen (s.take (s.length - (DecodeLastRuneInString s).2)) rfl
      refine ⟨⟨suf ++ EncodeRune (DecodeLastRuneInString s).1,
        isSpaceSeq_append _ _ hsuf (by
          have := isSpaceSeq_cons _ h.2 [] isSpaceSeq_nil
          simpa using this), ?_⟩, hns⟩
      rw [← List.append_assoc, ← he]
      exact DecodeLast_space_inv s h.1 h.2
    · rw [if_neg h]
      refine ⟨⟨[], isSpaceSeq_nil, by simp⟩, ?_⟩
      rw [endsWithSpace_iff]
      exact h


/-! ### Trimming a body between white space -/

theorem EncodeRune_head (r : Nat) :
    ∃ b t, EncodeRune r = b :: t ∧ (b.val < 0x80 ∨ 0xC0 ≤ b.val) := by
  unfold EncodeRune
  split_ifs with h1 h2 h3 h4
  · exact ⟨_, _, rfl, Or.inl (by rw [byte_val]; omega)⟩
  · exact ⟨_, _, rfl, Or.inr (by rw [byte_val]; omega)⟩
  · exact ⟨_, _, rfl, Or.inr (by decide)⟩
  · exact ⟨_, _, rfl, Or.inr (by rw [byte_val]; omega)⟩
  · exact ⟨_, _, rfl, Or.inr (by rw [byte_val]; omega)⟩

theorem isSpaceSeq_head (w : GoString) (hw : isSpaceSeq w) :
    ∀ b t, w = b :: t → b.val < 0x80 ∨ 0xC0 ≤ b.val := by
  obtain ⟨rs, -, rfl⟩ := hw
  intro b t h
  rcases rs with _ | ⟨r, rs⟩
  · simp at h
  · obtain ⟨b', t', e, hb⟩ := EncodeRune_head r
    simp only [List.flatMap_cons, e, List.cons_append, List.cons.injEq] at h
    rw [← h.1]
    exact hb

theorem decode_append (s0 : Byte) (t w : GoString)
    (hw : ∀ b u, w = b :: u → b.val < 0x80 ∨ 0xC0 ≤ b.val) :
    DecodeRuneInString (s0 :: t ++ w) = DecodeRuneInString (s0 :: t) := by
  have three : ∀ lo hi x : Nat, first s0 = x → x % 8 = 3 → acceptRanges (x / 16) = (lo, hi) →
      x < 0xF0 → 0x80 ≤ lo → hi ≤ 0xBF →
      DecodeRuneInString (s0 :: t ++ w) = DecodeRuneInString (s0 :: t) := by
    intro lo hi x hf hx ha hx' hlo hhi
    rw [List.cons_append, decode3 s0 (t ++ w) lo hi x hf hx ha hx',
      decode3 s0 t lo hi x hf hx ha hx']
    rcases t with _ | ⟨s1, _ | ⟨s2, t2⟩⟩
    · rcases w with _ | ⟨b, _ | ⟨b2, u⟩⟩
      · rfl
      · rfl
      · have := hw b _ rfl
        simp only [List.nil_append]
        rw [if_neg (by omega)]
    · rcases w with _ | ⟨b, u⟩
      · rfl
      · have := hw b _ rfl
        simp only [List.cons_append, List.nil_append]
        rw [if_neg (by omega)]
    · rfl
  have four : ∀ lo hi x : Nat, first s0 = x → x % 8 = 4 → acceptRanges (x / 16) = (lo, hi) →
      x < 0xF0 → 0x80 ≤ lo → hi ≤ 0xBF →
      DecodeRuneInString (s0 :: t ++ w) = DecodeRuneInString (s0 :: t) := by
    intro lo hi x hf hx ha hx' hlo hhi
    rw [List.cons_append, decode4 s0 (t ++ w) lo hi x hf hx ha hx',
      decode4 s0 t lo hi x hf hx ha hx']
    rcases t with _ | ⟨s1, _ | ⟨s2, _ | ⟨s3, t3⟩⟩⟩
    · rcases w with _ | ⟨b, _ | ⟨b2, _ | ⟨b3, u⟩⟩⟩
      · rfl
      · rfl
      · rfl
      · have := hw b _ rfl
        simp only [List.nil_append]
        rw [if_neg (by omega)]
    · rcases w with _ | ⟨b, _ | ⟨b2, u⟩⟩
      · rfl
      · rfl
      · have := hw b _ rfl
        simp only [List.cons_append, List.nil_append]
        rw [if_neg (by omega)]
    · rcases w with _ | ⟨b, u⟩
      · rfl
      · have := hw b _ rfl
        simp only [List.cons_append, List.nil_append]
        rw [if_neg (by omega)]
    · rfl
  rcases first_cases s0 with h | h | h | h | h | h | h | h | h
  · rw [List.cons_append, decode1 s0 _ _ h.2 (by decide), decode1 s0 _ _ h.2 (by decide)]
  · rw [List.cons_append, decode1 s0 _ _ h.2.2 (by decide), decode1 s0 _ _ h.2.2 (by decide)]
  · rw [List.cons_append, decode2 s0 _ h.2.2, decode2 s0 _ h.2.2]
    rcases t with _ | ⟨s1, t1⟩
    · rcases w with _ | ⟨b, u⟩
      · rfl
      · have := hw b _ rfl
        simp only [List.nil_append]
        rw [if_neg (by omega)]
    · rfl
  · exact three 0xA0 0xBF 0x13 h.2 (by decide) (by decide) (by decide) (by decide) (by decide)
  · exact three 0x80 0xBF 0x03 h.2.2.2 (by decide) (by decide) (by decide) (by decide)
      (by decide)
  · exact three 0x80 0x9F 0x23 h.2 (by decide) (by decide) (by decide) (by decide) (by decide)
  · exact four 0x90 0xBF 0x34 h.2 (by decide) (by decide) (by decide) (by decide) (by decide)
  · exact four 0x80 0xBF 0x04 h.2.2 (by decide) (by decide) (by decide) (by decide) (by decide)
  · exact four 0x80 0x8F 0x44 h.2 (by decide) (by decide) (by decide) (by decide) (by decide)

theorem TrimLeftSpace_append (w : GoString) (hw : isSpaceSeq w) :
    ∀ (n : Nat) (core : GoString), core.length = n →
      TrimLeftSpace (core ++ w)
        = if TrimLeftSpace core = [] then [] else TrimLeftSpace core ++ w := by
  intro n
  induction n using Nat.strong_induction_on with
  | _ n ih =>
    intro core hn
    rcases core with _ | ⟨s0, t⟩
    · have := TrimLeftSpace_spaceSeq w [] hw
      rw [List.append_nil] at this
      simp [this, TrimLeftSpace_nil]
    · have e1 := TrimLeftSpace_eq (s0 :: t ++ w)
      have e2 := TrimLeftSpace_eq (s0 :: t)
      rw [decode_append s0 t w (isSpaceSeq_head w hw)] at e1
      have hd := decode_size (s0 :: t) (by simp)
      by_cases h : IsSpace (DecodeRuneInString (s0 :: t)).1 = true
      · rw [if_pos ⟨by simp, h⟩, List.drop_append_of_le_length hd.2] at e1
        rw [if_pos ⟨by simp, h⟩] at e2
        rw [e1, e2]
        apply ih _ _ _ rfl
        simp only [List.length_drop]
        omega
      · rw [if_neg (fun hh => h hh.2)] at e1 e2
        rw [e1, e2, if_neg (by simp)]

theorem TrimSpace_surrounded (w1 core w2 : GoString) (h1 : isSpaceSeq w1)
    (h2 : isSpaceSeq w2) : TrimSpace (w1 ++ core ++ w2) = TrimSpace core := by
  unfold TrimSpace
  rw [List.append_assoc, TrimLeftSpace_spaceSeq w1 _ h1, TrimLeftSpace_append w2 h2 _ core rfl]
  by_cases h : TrimLeftSpace core = []
  · rw [if_pos h, h]
  · rw [if_neg h, TrimRightSpace_spaceSeq w2 h2]

theorem TrimSpace_spec (s : GoString) :
    (∃ pre suf, isSpaceSeq pre ∧ isSpaceSeq suf ∧ s = pre ++ TrimSpace s ++ suf)
      ∧ ¬ startsWithSpace (TrimSpace s) ∧ ¬ endsWithSpace (TrimSpace s) := by
  obtain ⟨⟨pre, hpre, hl⟩, hns⟩ := TrimLeftSpace_spec s.length s rfl
  obtain ⟨⟨suf, hsuf, hr⟩, hne⟩ :=
    TrimRightSpace_spec (TrimLeftSpace s).length (TrimLeftSpace s) rfl
  unfold TrimSpace
  refine ⟨⟨pre, suf, hpre, hsuf, ?_⟩, ?_, hne⟩
  · rw [List.append_assoc, ← hr]
    exact hl
  · rintro ⟨r, rest, hsp, he⟩
    apply hns
    refine ⟨r, rest ++ suf, hsp, ?_⟩
    rw [← List.append_assoc, ← he]
    exact hr

/-! ### Escaping and unescaping -/

theorem upperhex_hex (n : Nat) (h : n < 16) :
    ishex (upperhex n) = true ∧ unhex (upperhex n) = n := by
  have key : ∀ m : Fin 16, ishex (upperhex m.val) = true ∧ unhex (upperhex m.val) = m.val := by
    decide
  exact key ⟨n, h⟩

theorem escapeByte_cases (c : Byte) :
    (c.val = 0x20 ∧ escapeByte c = [byte 0x2B])
    ∨ (escapeByte c = [byte 0x25, upperhex (c.val / 16), upperhex (c.val % 16)]
        ∧ ishex (upperhex (c.val / 16)) = true ∧ ishex (upperhex (c.val % 16)) = true
        ∧ byte (unhex (upperhex (c.val / 16)) * 16 + unhex (upperhex (c.val % 16))) = c)
    ∨ (escapeByte c = [c] ∧ c.val ≠ 0x25 ∧ c.val ≠ 0x2B ∧ c.val ≠ 0x26 ∧ c.val ≠ 0x3D
        ∧ c.val ≠ 0x3B) := by
  have hc := c.isLt
  unfold escapeByte
  by_cases h1 : c.val = 0x20
  · exact Or.inl ⟨h1, by rw [if_pos h1]⟩
  · right
    rw [if_neg h1]
    by_cases h2 : shouldEscape c = true
    · left
      rw [if_pos h2]
      have a := upperhex_hex (c.val / 16) (by omega)
      have b := upperhex_hex (c.val % 16) (by omega)
      refine ⟨rfl, a.1, b.1, ?_⟩
      rw [a.2, b.2]
      apply Fin.ext
      rw [byte_val]
      omega
    · right
      rw [if_neg h2]
      refine ⟨rfl, ?_⟩
      unfold shouldEscape at h2
      split_ifs at h2 with h3 h4
      · omega
      · omega
      · exact absurd rfl h2

theorem upperhex_plain (n : Nat) (h : n < 16) :
    upperhex n ≠ byte 0x26 ∧ upperhex n ≠ byte 0x3D ∧ upperhex n ≠ byte 0x3B := by
  have key : ∀ m : Fin 16, upperhex m.val ≠ byte 0x26 ∧ upperhex m.val ≠ byte 0x3D
      ∧ upperhex m.val ≠ byte 0x3B := by
    decide
  exact key ⟨n, h⟩

theorem escapeByte_plain (c : Byte) : ∀ b ∈ escapeByte c,
    b ≠ byte 0x26 ∧ b ≠ byte 0x3D ∧ b ≠ byte 0x3B := by
  have hc := c.isLt
  intro b hb
  rcases escapeByte_cases c with h | h | h
  · rw [h.2] at hb
    simp only [List.mem_singleton] at hb
    rw [hb]
    decide
  · rw [h.1] at hb
    simp only [List.mem_cons, List.mem_singleton, List.not_mem_nil, or_false] at hb
    rcases hb with hb | hb | hb
    · rw [hb]
      decide
    · rw [hb]
      exact upperhex_plain _ (by omega)
    · rw [hb]
      exact upperhex_plain _ (by omega)
  · rw [h.1] at hb
    simp only [List.mem_singleton] at hb
    rw [hb]
    refine ⟨?_, ?_, ?_⟩ <;>
    · intro e
      have := congrArg Fin.val e
      rw [byte_val] at this
      omega

theorem escapeByte_ne_nil (c : Byte) : escapeByte c ≠ [] := by
  rcases escapeByte_cases c with h | h | h
  · rw [h.2]
    simp
  · rw [h.1]
    simp
  · rw [h.1]
    simp

theorem QueryUnescape_cons (c : Byte) (t : GoString) :
    QueryUnescape (c :: t) =
      if c.val = 0x25 then
        match t with
        | h1 :: h2 :: rest =>
          if ishex h1 ∧ ishex h2 then
            (QueryUnescape rest).map (fun r => byte (unhex h1 * 16 + unhex h2) :: r)
          else none
        | _ => none
      else if c.val = 0x2B then (QueryUnescape t).map (fun r => byte 0x20 :: r)
      else (QueryUnescape t).map (fun r => c :: r) := by
  rcases t with _ | ⟨a, _ | ⟨b, t⟩⟩ <;> rfl

theorem QueryUnescape_percent (h1 h2 : Byte) (rest : GoString) :
    QueryUnescape (byte 0x25 :: h1 :: h2 :: rest) =
      if ishex h1 = true ∧ ishex h2 = true then
        (QueryUnescape rest).map (fun r => byte (unhex h1 * 16 + unhex h2) :: r)
      else none := by
  rw [QueryUnescape_cons, if_pos (by decide)]

theorem QueryUnescape_plus (t : GoString) :
    QueryUnescape (byte 0x2B :: t) = (QueryUnescape t).map (fun r => byte 0x20 :: r) := by
  rw [QueryUnescape_cons, if_neg (by decide), if_pos (by decide)]

theorem QueryUnescape_other (c : Byte) (t : GoString) (h1 : c.val ≠ 0x25) (h2 : c.val ≠ 0x2B) :
    QueryUnescape (c :: t) = (QueryUnescape t).map (fun r => c :: r) := by
  rw [QueryUnescape_cons, if_neg h1, if_neg h2]

theorem QueryUnescape_escapeByte (c : Byte) (rest : GoString) :
    QueryUnescape (escapeByte c ++ rest) = (QueryUnescape rest).map (fun r => c :: r) := by
  rcases escapeByte_cases c with h | h | h
  · rw [h.2]
    have hc : byte 0x20 = c := by
      apply Fin.ext
      rw [h.1]
      rfl
    simp only [List.cons_append, List.nil_append]
    rw [QueryUnescape_plus, hc]
  · rw [h.1]
    simp only [List.cons_append, List.nil_append]
    rw [QueryUnescape_percent, if_pos ⟨h.2.1, h.2.2.1⟩, h.2.2.2]
  · rw [h.1]
    simp only [List.cons_append, List.nil_append]
    rw [QueryUnescape_other c rest h.2.1 h.2.2.1]

theorem QueryEscape_cons (c : Byte) (s : GoString) :
    QueryEscape (c :: s) = escapeByte c ++ QueryEscape s := by
  simp [QueryEscape]

theorem QueryUnescape_QueryEscape (s : GoString) : QueryUnescape (QueryEscape s) = some s := by
  induction s with
  | nil => rfl
  | cons c s ih =>
    rw [QueryEscape_cons, QueryUnescape_escapeByte, ih]
    rfl

theorem QueryEscape_plain (s : GoString) :
    ∀ b ∈ QueryEscape s, b ≠ byte 0x26 ∧ b ≠ byte 0x3D ∧ b ≠ byte 0x3B := by
  induction s with
  | nil =>
    intro b hb
    simp [QueryEscape] at hb
  | cons c s ih =>
    intro b hb
    rw [QueryEscape_cons, List.mem_append] at hb
    rcases hb with hb | hb
    · exact escapeByte_plain c b hb
    · exact ih b hb

/-! ### Cutting a query string -/

theorem splitByte_plain (sep : Byte) (p : GoString) (hp : ∀ b ∈ p, b ≠ sep) :
    splitByte sep p = [p] := by
  induction p with
  | nil => rfl
  | cons c p ih =>
    have hc : c ≠ sep := hp c (List.mem_cons_self _ _)
    have hp' : ∀ b ∈ p, b ≠ sep := fun b hb => hp b (List.mem_cons_of_mem _ hb)
    simp only [splitByte, if_neg hc, ih hp']

theorem splitByte_append (sep : Byte) (p rest : GoString) (hp : ∀ b ∈ p, b ≠ sep) :
    splitByte sep (p ++ sep :: rest) = p :: splitByte sep rest := by
  induction p with
  | nil => simp [splitByte]
  | cons c p ih =>
    have hc : c ≠ sep := hp c (List.mem_cons_self _ _)
    have hp' : ∀ b ∈ p, b ≠ sep := fun b hb => hp b (List.mem_cons_of_mem _ hb)
    simp only [List.cons_append, splitByte, if_neg hc, List.append_eq, ih hp']

theorem takeWhile_sep (sep : Byte) (p rest : GoString) (hp : ∀ b ∈ p, b ≠ sep) :
    (p ++ sep :: rest).takeWhile (fun c => c ≠ sep) = p
      ∧ (p ++ sep :: rest).dropWhile (fun c => c ≠ sep) = sep :: rest := by
  induction p with
  | nil => simp
  | cons c p ih =>
    have hc : c ≠ sep := hp c (List.mem_cons_self _ _)
    have hp' : ∀ b ∈ p, b ≠ sep := fun b hb => hp b (List.mem_cons_of_mem _ hb)
    have := ih hp'
    simp only [ne_eq, decide_not] at this ⊢
    simp [hc, this.1, this.2]

theorem parsePiece_encodePair (kx : GoString × GoString) :
    parsePiece (encodePair kx) = some kx := by
  obtain ⟨k, x⟩ := kx
  unfold parsePiece encodePair
  have hk : ∀ b ∈ QueryEscape k, b ≠ byte 0x3D := fun b hb => (QueryEscape_plain k b hb).2.1
  have hcut := takeWhile_sep (byte 0x3D) (QueryEscape k) (QueryEscape x) hk
  simp only [List.append_assoc, List.singleton_append] at hcut ⊢
  have hne : ¬ (QueryEscape k ++ byte 0x3D :: QueryEscape x = []
      ∨ byte 0x3B ∈ QueryEscape k ++ byte 0x3D :: QueryEscape x) := by
    rintro (h | h)
    · simp at h
    · rcases List.mem_append.mp h with h | h
      · exact (QueryEscape_plain k _ h).2.2 rfl
      · rcases List.mem_cons.mp h with h | h
        · exact absurd h (by decide)
        · exact (QueryEscape_plain x _ h).2.2 rfl
  rw [if_neg hne, hcut.1, hcut.2]
  simp only [List.drop_succ_cons, List.drop_zero, QueryUnescape_QueryEscape]

theorem encodePair_plain (kx : GoString × GoString) : ∀ b ∈ encodePair kx, b ≠ byte 0x26 := by
  intro b hb
  unfold encodePair at hb
  simp only [List.append_assoc, List.singleton_append, List.mem_append, List.mem_cons] at hb
  rcases hb with hb | hb | hb
  · exact (QueryEscape_plain _ b hb).1
  · rw [hb]
    decide
  · exact (QueryEscape_plain _ b hb).1

theorem ParseQuery_joinAmp (pairs : List (GoString × GoString)) :
    ParseQuery (joinAmp (pairs.map encodePair)) = pairs := by
  unfold ParseQuery
  induction pairs with
  | nil => rfl
  | cons kx rest ih =>
    rcases rest with _ | ⟨ky, rest⟩
    · simp only [List.map_cons, List.map_nil, joinAmp]
      rw [splitByte_plain _ _ (encodePair_plain kx)]
      simp [parsePiece_encodePair]
    · simp only [List.map_cons, joinAmp] at ih ⊢
      rw [splitByte_append _ _ _ (encodePair_plain kx)]
      simp only [List.filterMap_cons, parsePiece_encodePair]
      rw [ih]

/-! ### Encoding a query -/

theorem encodePair_ne_nil (kx : GoString × GoString) : encodePair kx ≠ [] := by
  unfold encodePair
  simp

theorem foldl_nested {α β γ : Type} (f : α → List β) (g : α → γ → β → γ) (keys : List α)
    (init : γ) :
    keys.foldl (fun buf k => (f k).foldl (g k) buf) init
      = (keys.flatMap (fun k => (f k).map (fun x => (k, x)))).foldl
          (fun buf kx => g kx.1 buf kx.2) init := by
  induction keys generalizing init with
  | nil => rfl
  | cons k keys ih =>
    simp only [List.foldl_cons, List.flatMap_cons, List.foldl_append, List.foldl_map]
    exact ih _

theorem foldl_step (pieces : List GoString) (hp : ∀ p ∈ pieces, p ≠ []) (buf : GoString) :
    pieces.foldl (fun buf p => (if buf.length > 0 then buf ++ [byte 0x26] else buf) ++ p) buf
      = if pieces = [] then buf
        else if buf = [] then joinAmp pieces
        else buf ++ byte 0x26 :: joinAmp pieces := by
  induction pieces generalizing buf with
  | nil => simp
  | cons p ps ih =>
    have hp1 : p ≠ [] := hp p (List.mem_cons_self _ _)
    have hp2 : ∀ q ∈ ps, q ≠ [] := fun q hq => hp q (List.mem_cons_of_mem _ hq)
    simp only [List.foldl_cons]
    rw [ih hp2, if_neg (List.cons_ne_nil p ps)]
    have hstep : (if buf.length > 0 then buf ++ [byte 0x26] else buf) ++ p ≠ [] := by
      simp [hp1]
    rw [if_neg hstep]
    by_cases hb : buf = []
    · subst hb
      rw [if_pos rfl]
      rcases ps with _ | ⟨q, qs⟩
      · simp [joinAmp]
      · simp [joinAmp]
    · have hlen : buf.length > 0 := List.length_pos.mpr hb
      rw [if_pos hlen, if_neg hb]
      rcases ps with _ | ⟨q, qs⟩
      · simp [joinAmp]
      · simp [joinAmp]

theorem Encode_eq_joinAmp (v : Values) :
    Values.Encode v = joinAmp ((Values.pairs v).map encodePair) := by
  unfold Values.Encode
  rw [foldl_nested (fun k => Values.index v k)
    (fun k buf x => (if buf.length > 0 then buf ++ [byte 0x26] else buf)
      ++ QueryEscape k ++ [byte 0x3D] ++ QueryEscape x)]
  have e : ∀ l : List (GoString × GoString), ∀ init : GoString,
      l.foldl (fun buf kx => (if buf.length > 0 then buf ++ [byte 0x26] else buf)
          ++ QueryEscape kx.1 ++ [byte 0x3D] ++ QueryEscape kx.2) init
        = (l.map encodePair).foldl
            (fun buf p => (if buf.length > 0 then buf ++ [byte 0x26] else buf) ++ p) init := by
    intro l
    induction l with
    | nil =>
      intro init
      rfl
    | cons kx l ih =>
      intro init
      simp only [List.foldl_cons, List.map_cons]
      rw [ih]
      simp only [encodePair, List.append_assoc]
  show List.foldl _ [] (Values.pairs v) = _
  rw [e, foldl_step _ (by
    intro p hp
    obtain ⟨kx, -, rfl⟩ := List.mem_map.mp hp
    exact encodePair_ne_nil kx)]
  by_cases h : (Values.pairs v).map encodePair = []
  · rw [if_pos h, h]
    rfl
  · rw [if_neg h, if_pos rfl]

/-- The query string `Values.Encode` writes carries exactly the pairs of the
map, by sorted key. -/
theorem ParseQuery_Encode (v : Values) : ParseQuery (Values.Encode v) = Values.pairs v := by
  rw [Encode_eq_joinAmp, ParseQuery_joinAmp]

/-! ### Query maps -/

theorem index_Set (v : Values) (k x k' : GoString) :
    Values.index (Values.Set v k x) k' = if k = k' then [x] else Values.index v k' := by
  induction v with
  | nil => simp [Values.Set, Values.index]
  | cons e v ih =>
    obtain ⟨k0, vs⟩ := e
    simp only [Values.Set]
    by_cases h0 : k0 = k
    · subst h0
      rw [if_pos rfl]
      by_cases h1 : k0 = k'
      · simp [Values.index, h1]
      · simp [Values.index, h1]
    · rw [if_neg h0]
      by_cases h1 : k0 = k'
      · subst h1
        simp only [Values.index, if_true]
        rw [if_neg (fun h => h0 h.symm)]
      · simp only [Values.index, if_neg h1]
        exact ih

theorem keys_Set (v : Values) (k x : GoString) :
    (Values.Set v k x).map Prod.fst
      = if k ∈ v.map Prod.fst then v.map Prod.fst else v.map Prod.fst ++ [k] := by
  induction v with
  | nil => simp [Values.Set]
  | cons e v ih =>
    obtain ⟨k0, vs⟩ := e
    simp only [Values.Set]
    by_cases h0 : k0 = k
    · subst h0
      simp
    · rw [if_neg h0]
      simp only [List.map_cons, ih, List.mem_cons]
      have h0' : ¬ k = k0 := fun h => h0 h.symm
      by_cases h1 : k ∈ v.map Prod.fst
      · simp [h1]
      · rw [if_neg h1, if_neg (by simp only [h0', false_or]; exact h1)]
        rfl

theorem mem_keys_Set (v : Values) (k x k' : GoString) :
    k' ∈ (Values.Set v k x).map Prod.fst ↔ k' = k ∨ k' ∈ v.map Prod.fst := by
  rw [keys_Set]
  by_cases h : k ∈ v.map Prod.fst
  · rw [if_pos h]
    constructor
    · intro h'
      exact Or.inr h'
    · rintro (rfl | h')
      · exact h
      · exact h'
  · rw [if_neg h, List.mem_append, List.mem_singleton]
    exact or_comm

theorem nodup_keys_Set (v : Values) (k x : GoString) (h : (v.map Prod.fst).Nodup) :
    ((Values.Set v k x).map Prod.fst).Nodup := by
  rw [keys_Set]
  by_cases hk : k ∈ v.map Prod.fst
  · rw [if_pos hk]
    exact h
  · rw [if_neg hk]
    exact List.Nodup.append h (List.nodup_singleton k) (by
      intro a ha hb
      rw [List.mem_singleton] at hb
      subst hb
      exact hk ha)

theorem single_Set (v : Values) (k x : GoString) (h : ∀ e ∈ v, ∃ y, e.2 = [y]) :
    ∀ e ∈ Values.Set v k x, ∃ y, e.2 = [y] := by
  induction v with
  | nil =>
    intro e he
    simp only [Values.Set, List.mem_singleton] at he
    subst he
    exact ⟨x, rfl⟩
  | cons e0 v ih =>
    obtain ⟨k0, vs⟩ := e0
    intro e he
    simp only [Values.Set] at he
    by_cases h0 : k0 = k
    · rw [if_pos h0] at he
      rcases List.mem_cons.mp he with rfl | he
      · exact ⟨x, rfl⟩
      · exact h e (List.mem_cons_of_mem _ he)
    · rw [if_neg h0] at he
      rcases List.mem_cons.mp he with rfl | he
      · exact h _ (List.mem_cons_self _ _)
      · exact ih (fun e' he' => h e' (List.mem_cons_of_mem _ he')) e he

theorem index_entry (v : Values) (k : GoString) (hk : k ∈ v.map Prod.fst) :
    ∃ e ∈ v, Values.index v k = e.2 := by
  induction v with
  | nil => simp at hk
  | cons e0 v ih =>
    obtain ⟨k0, vs⟩ := e0
    by_cases h0 : k0 = k
    · exact ⟨(k0, vs), List.mem_cons_self _ _, by simp [Values.index, h0]⟩
    · have hk' : k ∈ v.map Prod.fst := by
        simp only [List.map_cons, List.mem_cons] at hk
        rcases hk with hk | hk
        · exact absurd hk.symm h0
        · exact hk
      obtain ⟨e, he, hi⟩ := ih hk'
      exact ⟨e, List.mem_cons_of_mem _ he, by simp only [Values.index, if_neg h0]; exact hi⟩

theorem index_not_key (v : Values) (k : GoString) (hk : k ∉ v.map Prod.fst) :
    Values.index v k = [] := by
  induction v with
  | nil => rfl
  | cons e0 v ih =>
    obtain ⟨k0, vs⟩ := e0
    simp only [List.map_cons, List.mem_cons, not_or] at hk
    have h0 : ¬ k0 = k := fun h => hk.1 h.symm
    simp only [Values.index, if_neg h0]
    exact ih hk.2

theorem sortedKeys_perm (v : Values) : (Values.sortedKeys v).Perm (v.map Prod.fst) :=
  List.perm_insertionSort _ _

theorem mem_pairs (v : Values) (k x : GoString) :
    (k, x) ∈ Values.pairs v ↔ x ∈ Values.index v k := by
  unfold Values.pairs
  simp only [List.mem_flatMap, List.mem_map, Prod.mk.injEq]
  constructor
  · rintro ⟨k', -, x', hx', rfl, rfl⟩
    exact hx'
  · intro hx
    refine ⟨k, ?_, x, hx, rfl, rfl⟩
    rw [(sortedKeys_perm v).mem_iff]
    by_contra hk
    rw [index_not_key v k hk] at hx
    simp at hx

theorem keys_pairs (v : Values) (h : ∀ e ∈ v, ∃ y, e.2 = [y]) :
    (Values.pairs v).map Prod.fst = Values.sortedKeys v := by
  unfold Values.pairs
  have key : ∀ l : List GoString, (∀ k ∈ l, k ∈ v.map Prod.fst) →
      (l.flatMap (fun k => (Values.index v k).map (fun x => (k, x)))).map Prod.fst = l := by
    intro l
    induction l with
    | nil => simp
    | cons k l ih =>
      intro hl
      obtain ⟨e, he, hi⟩ := index_entry v k (hl k (List.mem_cons_self _ _))
      obtain ⟨y, hy⟩ := h e he
      simp only [List.flatMap_cons, List.map_append, hi, hy, List.map_cons, List.map_nil,
        List.singleton_append]
      rw [ih (fun k' hk' => hl k' (List.mem_cons_of_mem _ hk'))]
  exact key _ (fun k hk => (sortedKeys_perm v).mem_iff.mp hk)

/-! ### Guarded assignments -/

theorem setAll_cons (a : GoString × Option GoString) (as : List (GoString × Option GoString))
    (q : Values) : setAll (a :: as) q = setAll as (optSet q a.1 a.2) := rfl

theorem index_optSet (q : Values) (key : GoString) (o : Option GoString) (k x : GoString) :
    x ∈ Values.index (optSet q key o) k
      ↔ (key = k ∧ o = some x) ∨ (¬ (key = k ∧ o ≠ none) ∧ x ∈ Values.index q k) := by
  cases o with
  | none => simp [optSet]
  | some y =>
    simp only [optSet, index_Set]
    by_cases h : key = k
    · simp [h, eq_comm]
    · simp [h]

theorem index_setAll (as : List (GoString × Option GoString))
    (hnd : (as.map Prod.fst).Nodup) (q : Values) (k x : GoString) :
    x ∈ Values.index (setAll as q) k
      ↔ (k, some x) ∈ as ∨ ((∀ y, (k, some y) ∉ as) ∧ x ∈ Values.index q k) := by
  induction as generalizing q with
  | nil => simp [setAll]
  | cons a as ih =>
    obtain ⟨key, o⟩ := a
    simp only [List.map_cons, List.nodup_cons] at hnd
    rw [setAll_cons, ih hnd.2, index_optSet]
    have hkey : ∀ y, (key, some y) ∉ as := fun y hy =>
      hnd.1 (List.mem_map.mpr ⟨_, hy, rfl⟩)
    simp only [List.mem_cons, Prod.mk.injEq]
    constructor
    · rintro (h | ⟨h1, (⟨rfl, rfl⟩ | ⟨h2, h3⟩)⟩)
      · exact Or.inl (Or.inr h)
      · exact Or.inl (Or.inl ⟨rfl, rfl⟩)
      · right
        refine ⟨?_, h3⟩
        intro y hy
        rcases hy with ⟨rfl, ho⟩ | hy
        · exact h2 ⟨rfl, by rw [← ho]; simp⟩
        · exact h1 y hy
    · rintro ((⟨rfl, ho⟩ | h) | ⟨h1, h2⟩)
      · right
        exact ⟨fun y hy => hkey y hy, Or.inl ⟨rfl, ho.symm⟩⟩
      · exact Or.inl h
      · right
        refine ⟨fun y hy => h1 y (Or.inr hy), Or.inr ⟨?_, h2⟩⟩
        rintro ⟨rfl, ho⟩
        cases o with
        | none => exact ho rfl
        | some y => exact h1 y (Or.inl ⟨rfl, rfl⟩)

theorem single_setAll (as : List (GoString × Option GoString)) (q : Values)
    (h : ∀ e ∈ q, ∃ y, e.2 = [y]) : ∀ e ∈ setAll as q, ∃ y, e.2 = [y] := by
  induction as generalizing q with
  | nil => exact h
  | cons a as ih =>
    rw [setAll_cons]
    apply ih
    cases ho : a.2 with
    | none => simpa [optSet, ho] using h
    | some y =>
      simp only [optSet]
      exact single_Set q a.1 y h

theorem nodup_setAll (as : List (GoString × Option GoString)) (q : Values)
    (h : (q.map Prod.fst).Nodup) : ((setAll as q).map Prod.fst).Nodup := by
  induction as generalizing q with
  | nil => exact h
  | cons a as ih =>
    rw [setAll_cons]
    apply ih
    cases ho : a.2 with
    | none => simpa [optSet, ho] using h
    | some y =>
      simp only [optSet]
      exact nodup_keys_Set q a.1 y h

/-- The query string written for a sequence of guarded assignments with
distinct keys carries exactly the assigned pairs, and no key twice. -/
theorem query_setAll (as : List (GoString × Option GoString))
    (hnd : (as.map Prod.fst).Nodup) :
    (∀ k x, (k, x) ∈ ParseQuery (Values.Encode (setAll as [])) ↔ (k, some x) ∈ as)
    ∧ (queryKeys (Values.Encode (setAll as []))).Nodup
    ∧ (∀ k, k ∈ queryKeys (Values.Encode (setAll as [])) ↔ ∃ x, (k, some x) ∈ as) := by
  have h1 : ∀ k x, (k, x) ∈ ParseQuery (Values.Encode (setAll as [])) ↔ (k, some x) ∈ as := by
    intro k x
    rw [ParseQuery_Encode, mem_pairs, index_setAll as hnd]
    simp [Values.index]
  refine ⟨h1, ?_, ?_⟩
  · unfold queryKeys
    rw [ParseQuery_Encode, keys_pairs _ (single_setAll as [] (by simp))]
    exact (sortedKeys_perm _).nodup_iff.mpr (nodup_setAll as [] (by simp))
  · intro k
    unfold queryKeys
    simp only [List.mem_map, Prod.exists, exists_and_right, exists_eq_right]
    exact exists_congr (fun x => h1 k x)

/-! ### The queries of the operations -/

theorem GetByValues_eq (params : Params) :
    GetByValues params = setAll
      [(str "year", some (formatInt params.Year)),
       (str "month", params.Month.map formatInt02),
       (str "day", params.Day.map formatInt02),
       (str "cc", params.CountryCode),
       (str "pre", params.Pre.map boolToStr),
       (str "covid", params.Covid.map boolToStr),
       (str "sd", params.SixDayWeek.map boolToStr),
       (str "tz", params.TZ)] [] := by
  obtain ⟨year, month, day, cc, pre, covid, sd, tz⟩ := params
  cases month <;> cases day <;> cases cc <;> cases pre <;> cases covid <;> cases sd <;>
    cases tz <;> rfl

theorem GetByPeriodValues_eq (date1 date2 : GoString) (params : Params) :
    GetByPeriodValues date1 date2 params = setAll
      [(str "date1", some date1),
       (str "date2", some date2),
       (str "cc", params.CountryCode),
       (str "pre", params.Pre.map boolToStr),
       (str "covid", params.Covid.map boolToStr),
       (str "sd", params.SixDayWeek.map boolToStr)] [] := by
  obtain ⟨year, month, day, cc, pre, covid, sd, tz⟩ := params
  cases cc <;> cases pre <;> cases covid <;> cases sd <;> rfl

theorem aliasValues_eq (params : Params) :
    aliasValues params = setAll
      [(str "cc", params.CountryCode),
       (str "pre", params.Pre.map boolToStr),
       (str "covid", params.Covid.map boolToStr),
       (str "sd", params.SixDayWeek.map boolToStr),
       (str "tz", params.TZ)] [] := by
  obtain ⟨year, month, day, cc, pre, covid, sd, tz⟩ := params
  cases cc <;> cases pre <;> cases covid <;> cases sd <;> cases tz <;> rfl

theorem GetBy_pairs (params : Params) (k x : GoString) :
    (k, x) ∈ ParseQuery (GetByRequest params).URL.RawQuery ↔
      (k = str "year" ∧ x = formatInt params.Year)
      ∨ (k = str "month" ∧ params.Month.map formatInt02 = some x)
      ∨ (k = str "day" ∧ params.Day.map formatInt02 = some x)
      ∨ (k = str "cc" ∧ params.CountryCode = some x)
      ∨ (k = str "pre" ∧ params.Pre.map boolToStr = some x)
      ∨ (k = str "covid" ∧ params.Covid.map boolToStr = some x)
      ∨ (k = str "sd" ∧ params.SixDayWeek.map boolToStr = some x)
      ∨ (k = str "tz" ∧ params.TZ = some x) := by
  show (k, x) ∈ ParseQuery (Values.Encode (GetByValues params)) ↔ _
  rw [GetByValues_eq, (query_setAll _ (by simp only [List.map_cons, List.map_nil]; decide)).1]
  simp only [List.mem_cons, Prod.mk.injEq, Option.some.injEq, List.not_mem_nil, or_false]
  simp only [eq_comm]

theorem GetBy_keys_nodup (params : Params) :
    (queryKeys (GetByRequest params).URL.RawQuery).Nodup := by
  show (queryKeys (Values.Encode (GetByValues params))).Nodup
  rw [GetByValues_eq]
  exact (query_setAll _ (by simp only [List.map_cons, List.map_nil]; decide)).2.1

theorem GetByPeriod_pairs (date1 date2 : GoString) (params : Params) (k x : GoString) :
    (k, x) ∈ ParseQuery (GetByPeriodRequest date1 date2 params).URL.RawQuery ↔
      (k = str "date1" ∧ x = date1)
      ∨ (k = str "date2" ∧ x = date2)
      ∨ (k = str "cc" ∧ params.CountryCode = some x)
      ∨ (k = str "pre" ∧ params.Pre.map boolToStr = some x)
      ∨ (k = str "covid" ∧ params.Covid.map boolToStr = some x)
      ∨ (k = str "sd" ∧ params.SixDayWeek.map boolToStr = some x) := by
  show (k, x) ∈ ParseQuery (Values.Encode (GetByPeriodValues date1 date2 params)) ↔ _
  rw [GetByPeriodValues_eq, (query_setAll _ (by simp only [List.map_cons, List.map_nil]; decide)).1]
  simp only [List.mem_cons, Prod.mk.injEq, Option.some.injEq, List.not_mem_nil, or_false]
  simp only [eq_comm]

theorem GetByPeriod_keys_nodup (date1 date2 : GoString) (params : Params) :
    (queryKeys (GetByPeriodRequest date1 date2 params).URL.RawQuery).Nodup := by
  show (queryKeys (Values.Encode (GetByPeriodValues date1 date2 params))).Nodup
  rw [GetByPeriodValues_eq]
  exact (query_setAll _ (by simp only [List.map_cons, List.map_nil]; decide)).2.1

theorem alias_pairs (aliasName : GoString) (params : Params) (k x : GoString) :
    (k, x) ∈ ParseQuery (aliasRequestRequest aliasName params).URL.RawQuery ↔
      (k = str "cc" ∧ params.CountryCode = some x)
      ∨ (k = str "pre" ∧ params.Pre.map boolToStr = some x)
      ∨ (k = str "covid" ∧ params.Covid.map boolToStr = some x)
      ∨ (k = str "sd" ∧ params.SixDayWeek.map boolToStr = some x)
      ∨ (k = str "tz" ∧ params.TZ = some x) := by
  show (k, x) ∈ ParseQuery (Values.Encode (aliasValues params)) ↔ _
  rw [aliasValues_eq, (query_setAll _ (by simp only [List.map_cons, List.map_nil]; decide)).1]
  simp only [List.mem_cons, Prod.mk.injEq, Option.some.injEq, List.not_mem_nil, or_false]
  simp only [eq_comm]

theorem alias_keys_nodup (aliasName : GoString) (params : Params) :
    (queryKeys (aliasRequestRequest aliasName params).URL.RawQuery).Nodup := by
  show (queryKeys (Values.Encode (aliasValues params))).Nodup
  rw [aliasValues_eq]
  exact (query_setAll _ (by simp only [List.map_cons, List.map_nil]; decide)).2.1

theorem mem_queryKeys (raw k : GoString) :
    k ∈ queryKeys raw ↔ ∃ x, (k, x) ∈ ParseQuery raw := by
  unfold queryKeys
  simp

theorem map_eq_some_iff_ne_none {α β : Type} (f : α → β) (o : Option α) :
    (∃ x, o.map f = some x) ↔ o ≠ none := by
  cases o <;> simp

theorem eq_some_iff_ne_none {α : Type} (o : Option α) : (∃ x, o = some x) ↔ o ≠ none := by
  cases o <;> simp

theorem eq_singleton_of_nodup {α : Type} (l : List α) (a : α) (hn : l.Nodup)
    (hm : ∀ k, k ∈ l ↔ k = a) : l = [a] := by
  have hp : l.Perm [a] := by
    rw [List.perm_ext_iff_of_nodup hn (List.nodup_singleton a)]
    intro k
    rw [hm, List.mem_singleton]
  exact List.perm_singleton.mp hp

theorem GetBy_mem_queryKeys (p : Params) (k : GoString) :
    k ∈ queryKeys (GetByRequest p).URL.RawQuery ↔
      k = str "year"
      ∨ (k = str "month" ∧ p.Month ≠ none)
      ∨ (k = str "day" ∧ p.Day ≠ none)
      ∨ (k = str "cc" ∧ p.CountryCode ≠ none)
      ∨ (k = str "pre" ∧ p.Pre ≠ none)
      ∨ (k = str "covid" ∧ p.Covid ≠ none)
      ∨ (k = str "sd" ∧ p.SixDayWeek ≠ none)
      ∨ (k = str "tz" ∧ p.TZ ≠ none) := by
  rw [mem_queryKeys]
  simp only [GetBy_pairs, exists_or, exists_and_left, exists_eq, and_true,
    map_eq_some_iff_ne_none, eq_some_iff_ne_none]

/-! ### Decimal formatting -/

theorem digit_byte_val (k : Nat) (hk : k < 10) : (byte (Nat.digitChar k).toNat).val = 0x30 + k := by
  have key : ∀ m : Fin 10, (byte (Nat.digitChar m.val).toNat).val = 0x30 + m.val := by decide
  exact key ⟨k, hk⟩

theorem decimalValue_append (l : GoString) (b : Byte) :
    decimalValue (l ++ [b]) = decimalValue l * 10 + (b.val - 0x30) := by
  unfold decimalValue
  rw [List.foldl_append]
  rfl

theorem toDigitsCore_plain : ∀ (fuel n : Nat) (ds : List Char), n < fuel →
    ∃ l : List Char, Nat.toDigitsCore 10 fuel n ds = l ++ ds
      ∧ isPlainDecimal (l.map (fun c => byte c.toNat)) n := by
  intro fuel
  induction fuel with
  | zero =>
    intro n ds h
    omega
  | succ f ih =>
    intro n ds h
    simp only [Nat.toDigitsCore]
    have hd := digit_byte_val (n % 10) (Nat.mod_lt n (by decide))
    by_cases h0 : n / 10 = 0
    · rw [if_pos h0]
      exists [Nat.digitChar (n % 10)]
      refine ⟨rfl, List.cons_ne_nil _ _, ?_, ?_, ?_⟩
      · intro b hb
        simp only [List.map_cons, List.map_nil, List.mem_singleton] at hb
        rw [hb]
        unfold isDigit
        omega
      · simp only [List.map_cons, List.map_nil, decimalValue, List.foldl_cons, List.foldl_nil]
        omega
      · intro t ht
        simp only [List.map_cons, List.map_nil, List.cons.injEq] at ht
        exact ht.2.symm
    · rw [if_neg h0]
      have hlt : n / 10 < f := by omega
      obtain ⟨l, hl, hne, hdig, hval, hlead⟩ := ih (n / 10) (Nat.digitChar (n % 10) :: ds) hlt
      exists l ++ [Nat.digitChar (n % 10)]
      refine ⟨by rw [hl]; simp, by simp, ?_, ?_, ?_⟩
      · intro b hb
        simp only [List.map_append, List.map_cons, List.map_nil, List.mem_append,
          List.mem_singleton] at hb
        rcases hb with hb | hb
        · exact hdig b hb
        · rw [hb]
          unfold isDigit
          omega
      · rw [List.map_append, List.map_cons, List.map_nil, decimalValue_append, hval]
        omega
      · intro t ht
        exfalso
        rcases hl' : l.map (fun c => byte c.toNat) with _ | ⟨b, u⟩
        · exact hne hl'
        · rw [List.map_append, hl', List.cons_append, List.cons.injEq] at ht
          have hu := hlead u (by rw [hl', ht.1])
          subst hu
          rw [hl', ht.1] at hval
          have : decimalValue [byte 0x30] = 0 := by decide
          omega

theorem digits_plain (n : Nat) : isPlainDecimal (digits n) n := by
  obtain ⟨l, hl, h⟩ := toDigitsCore_plain (n + 1) n [] (by omega)
  unfold digits Nat.toDigits
  rw [hl, List.append_nil]
  exact h

theorem formatInt_nonneg (x : Int) (h : 0 ≤ x) :
    formatInt x = digits x.toNat ∧ isPlainDecimal (formatInt x) x.toNat := by
  have e : x.natAbs = x.toNat := by omega
  have hf : formatInt x = digits x.toNat := by
    unfold formatInt
    rw [if_neg (by omega), e]
  exact ⟨hf, by rw [hf]; exact digits_plain _⟩

theorem formatInt_neg (x : Int) (h : x < 0) :
    formatInt x = byte 0x2D :: digits (-x).toNat
      ∧ isPlainDecimal (digits (-x).toNat) (-x).toNat := by
  have e : x.natAbs = (-x).toNat := by omega
  refine ⟨?_, digits_plain _⟩
  unfold formatInt
  rw [if_pos h, e]

theorem digits_injective (a b : Nat) (h : digits a = digits b) : a = b := by
  have ha := (digits_plain a).2.2.1
  have hb := (digits_plain b).2.2.1
  rw [h] at ha
  omega

/-- Every byte of a formatted integer is a digit or the minus sign. -/
theorem formatInt_bytes (x : Int) : ∀ b ∈ formatInt x, isDigit b ∨ b = byte 0x2D := by
  intro b hb
  by_cases h : 0 ≤ x
  · exact Or.inl ((formatInt_nonneg x h).2.2.1 b hb)
  · have hx : x < 0 := by omega
    rw [(formatInt_neg x hx).1] at hb
    rcases List.mem_cons.mp hb with hb | hb
    · exact Or.inr hb
    · exact Or.inl ((formatInt_neg x hx).2.2.1 b hb)

theorem formatInt_injective (x y : Int) (h : formatInt x = formatInt y) : x = y := by
  have notdigit : ¬ isDigit (byte 0x2D) := by decide
  by_cases hx : 0 ≤ x
  · by_cases hy : 0 ≤ y
    · rw [(formatInt_nonneg x hx).1, (formatInt_nonneg y hy).1] at h
      have := digits_injective _ _ h
      omega
    · exfalso
      have hy' : y < 0 := by omega
      have hp := (formatInt_nonneg x hx).2
      rw [h, (formatInt_neg y hy').1] at hp
      exact notdigit (hp.2.1 _ (List.mem_cons_self _ _))
  · have hx' : x < 0 := by omega
    by_cases hy : 0 ≤ y
    · exfalso
      have hp := (formatInt_nonneg y hy).2
      rw [← h, (formatInt_neg x hx').1] at hp
      exact notdigit (hp.2.1 _ (List.mem_cons_self _ _))
    · have hy' : y < 0 := by omega
      rw [(formatInt_neg x hx').1, (formatInt_neg y hy').1] at h
      have := digits_injective _ _ (List.cons.inj h).2
      omega

set_option maxRecDepth 4000 in
theorem formatInt02_two_digits (m : Int) (h1 : 1 ≤ m) (h2 : m ≤ 31) :
    (formatInt02 m).length = 2 ∧ (∀ b ∈ formatInt02 m, isDigit b)
      ∧ (decimalValue (formatInt02 m) : Int) = m := by
  interval_cases m <;> decide

/-- A status code and a trimmed body can be read back from the message
`unexpected status code <status>: <body>`. -/
theorem generic_message_injective (x y : Int) (t u : GoString)
    (h : str "unexpected status code " ++ formatInt x ++ str ": " ++ t
      = str "unexpected status code " ++ formatInt y ++ str ": " ++ u) :
    x = y ∧ t = u := by
  have hsep : str ": " = [byte 0x3A, byte 0x20] := by decide
  rw [hsep] at h
  simp only [List.append_assoc, List.cons_append, List.nil_append,
    List.append_cancel_left_eq] at h
  have plain : ∀ z : Int, ∀ b ∈ formatInt z, b ≠ byte 0x3A := by
    intro z b hb
    rcases formatInt_bytes z b hb with hd | hd
    · intro e
      rw [e] at hd
      exact absurd hd (by decide)
    · rw [hd]
      decide
  have cx := takeWhile_sep (byte 0x3A) (formatInt x) (byte 0x20 :: t) (plain x)
  have cy := takeWhile_sep (byte 0x3A) (formatInt y) (byte 0x20 :: u) (plain y)
  rw [h] at cx
  have e1 : formatInt x = formatInt y := by rw [← cx.1, cy.1]
  have e2 : byte 0x3A :: byte 0x20 :: t = byte 0x3A :: byte 0x20 :: u := by
    rw [← cx.2, cy.2]
  exact ⟨formatInt_injective x y e1, (List.cons.inj (List.cons.inj e2).2).2⟩

/-! ### Properties of the specification -/

theorem parseAPIError_cases (statusCode : Int) (body : GoString) :
    (TrimSpace body = str "100" ∧ parseAPIError statusCode body
        = .api { Code := ErrorCodeWrongDate, Message := str "Ошибка в дате", Status := statusCode })
    ∨ (TrimSpace body = str "101" ∧ parseAPIError statusCode body
        = .api { Code := ErrorCodeNotFound, Message := str "Данные не найдены",
                 Status := statusCode })
    ∨ (TrimSpace body = str "199" ∧ parseAPIError statusCode body
        = .api { Code := ErrorCodeInternalError, Message := str "Ошибка сервиса",
                 Status := statusCode })
    ∨ (TrimSpace body ≠ str "100" ∧ TrimSpace body ≠ str "101" ∧ TrimSpace body ≠ str "199"
        ∧ parseAPIError statusCode body
          = .errorf (str "unexpected status code " ++ formatInt statusCode ++ str ": "
              ++ TrimSpace body)) := by
  unfold parseAPIError
  by_cases h1 : TrimSpace body = ErrorCodeWrongDate
  · left
    exact ⟨h1, by rw [if_pos h1]⟩
  · by_cases h2 : TrimSpace body = ErrorCodeNotFound
    · right; left
      exact ⟨h2, by rw [if_neg h1, if_pos h2]⟩
    · by_cases h3 : TrimSpace body = ErrorCodeInternalError
      · right; right; left
        exact ⟨h3, by rw [if_neg h1, if_neg h2, if_pos h3]⟩
      · right; right; right
        exact ⟨h1, h2, h3, by rw [if_neg h1, if_neg h2, if_neg h3]⟩

theorem TrimSpace_eq_code (body code : GoString) (hc : TrimSpace code = code) :
    TrimSpace body = code
      ↔ ∃ pre suf, isSpaceSeq pre ∧ isSpaceSeq suf ∧ body = pre ++ code ++ suf := by
  constructor
  · intro h
    obtain ⟨⟨pre, suf, hpre, hsuf, hb⟩, -⟩ := TrimSpace_spec body
    rw [h] at hb
    exact ⟨pre, suf, hpre, hsuf, hb⟩
  · rintro ⟨pre, suf, hpre, hsuf, rfl⟩
    rw [TrimSpace_surrounded pre code suf hpre hsuf, hc]

/-- C1: `parseAPIError` returns an `*APIError` exactly when the trimmed body is
one of "100", "101", "199", that is when the body is one of these codes between
two runs of white-space characters; the error then carries the trimmed body as
its code (WrongDate, NotFound, InternalError), the status code it was given and
the fixed message of its code.  A body "100" gives WrongDate, a body "999"
gives no `*APIError`. -/
theorem parseAPIError_typed (statusCode : Int) (body : GoString) :
    ((parseAPIError statusCode body).isAPIError = true
        ↔ TrimSpace body = str "100" ∨ TrimSpace body = str "101" ∨ TrimSpace body = str "199")
    ∧ ((parseAPIError statusCode body).isAPIError = true
        ↔ ∃ pre suf code, isSpaceSeq pre ∧ isSpaceSeq suf
            ∧ (code = str "100" ∨ code = str "101" ∨ code = str "199")
            ∧ body = pre ++ code ++ suf)
    ∧ (∀ e, parseAPIError statusCode body = .api e →
        e.Code = TrimSpace body ∧ e.Status = statusCode ∧ e.Message = errorMessage e.Code
        ∧ (TrimSpace body = str "100" → e.Code = ErrorCodeWrongDate)
        ∧ (TrimSpace body = str "101" → e.Code = ErrorCodeNotFound)
        ∧ (TrimSpace body = str "199" → e.Code = ErrorCodeInternalError))
    ∧ parseAPIError statusCode (str "100")
        = .api { Code := ErrorCodeWrongDate, Message := str "Ошибка в дате", Status := statusCode }
    ∧ (parseAPIError statusCode (str "999")).isAPIError = false := by
  have hiff : (parseAPIError statusCode body).isAPIError = true
      ↔ TrimSpace body = str "100" ∨ TrimSpace body = str "101"
        ∨ TrimSpace body = str "199" := by
    rcases parseAPIError_cases statusCode body with h | h | h | h
    · simp [h.1, h.2, GoError.isAPIError]
    · simp [h.1, h.2, GoError.isAPIError]
    · simp [h.1, h.2, GoError.isAPIError]
    · simp [h.1, h.2.1, h.2.2.1, h.2.2.2, GoError.isAPIError]
  refine ⟨hiff, ?_, ?_, ?_, ?_⟩
  · rw [hiff, TrimSpace_eq_code body (str "100") (by decide),
      TrimSpace_eq_code body (str "101") (by decide),
      TrimSpace_eq_code body (str "199") (by decide)]
    constructor
    · rintro (⟨pre, suf, h1, h2, h3⟩ | ⟨pre, suf, h1, h2, h3⟩ | ⟨pre, suf, h1, h2, h3⟩)
      · exact ⟨pre, suf, _, h1, h2, Or.inl rfl, h3⟩
      · exact ⟨pre, suf, _, h1, h2, Or.inr (Or.inl rfl), h3⟩
      · exact ⟨pre, suf, _, h1, h2, Or.inr (Or.inr rfl), h3⟩
    · rintro ⟨pre, suf, code, h1, h2, (rfl | rfl | rfl), h3⟩
      · exact Or.inl ⟨pre, suf, h1, h2, h3⟩
      · exact Or.inr (Or.inl ⟨pre, suf, h1, h2, h3⟩)
      · exact Or.inr (Or.inr ⟨pre, suf, h1, h2, h3⟩)
  · intro e he
    rcases parseAPIError_cases statusCode body with h | h | h | h
    · rw [h.2] at he
      cases he
      rw [h.1]
      dsimp only
      exact ⟨by decide, rfl, by decide, by decide, by decide, by decide⟩
    · rw [h.2] at he
      cases he
      rw [h.1]
      dsimp only
      exact ⟨by decide, rfl, by decide, by decide, by decide, by decide⟩
    · rw [h.2] at he
      cases he
      rw [h.1]
      dsimp only
      exact ⟨by decide, rfl, by decide, by decide, by decide, by decide⟩
    · rw [h.2.2.2] at he
      cases he
  · rcases parseAPIError_cases statusCode (str "100") with h | h | h | h
    · exact h.2
    · exact absurd h.1 (by decide)
    · exact absurd h.1 (by decide)
    · exact absurd h.1 (by decide)
  · rcases parseAPIError_cases statusCode (str "999") with h | h | h | h
    · exact absurd h.1 (by decide)
    · exact absurd h.1 (by decide)
    · exact absurd h.1 (by decide)
    · rw [h.2.2.2]
      rfl

/-- Witness of C1: the status 400 with the body " 100\n". -/
theorem parseAPIError_typed_witness :
    parseAPIError 400 (str " 100\n")
        = .api { Code := ErrorCodeWrongDate, Message := str "Ошибка в дате", Status := 400 }
    ∧ ErrorCodeWrongDate = TrimSpace (str " 100\n")
    ∧ (400 : Int) = 400
    ∧ str "Ошибка в дате" = errorMessage ErrorCodeWrongDate
    ∧ (TrimSpace (str " 100\n") = str "100" → ErrorCodeWrongDate = ErrorCodeWrongDate)
    ∧ (TrimSpace (str " 100\n") = str "101" → ErrorCodeWrongDate = ErrorCodeNotFound)
    ∧ (TrimSpace (str " 100\n") = str "199" → ErrorCodeWrongDate = ErrorCodeInternalError) :=
  ⟨by decide,
   (parseAPIError_typed 400 (str " 100\n")).2.2.1
     { Code := ErrorCodeWrongDate, Message := str "Ошибка в дате", Status := 400 } (by decide)⟩

/-- C2: for a response the transport delivers with status `status` and body
`body`, each of `IsLeap`, `GetBy`, `GetByPeriod`, `Today` and `Tomorrow`
returns a non-nil error exactly when `status` is not 200 (204 included); with
an error the value is the zero value, and with status 200 the error is nil
whatever the body is. -/
theorem error_iff_status_not_200 (c : Client) (status : Int) (body : GoString) :
    (∀ year,
        c.httpClient.Do (IsLeapRequest year) = .ok { StatusCode := status, Body := .ok body } →
        ((IsLeap c year).2 ≠ none ↔ status ≠ 200)
        ∧ ((IsLeap c year).2 ≠ none → (IsLeap c year).1 = false)
        ∧ (status = 200 → (IsLeap c year).2 = none))
    ∧ (∀ params,
        c.httpClient.Do (GetByRequest params) = .ok { StatusCode := status, Body := .ok body } →
        ((GetBy c params).2 ≠ none ↔ status ≠ 200)
        ∧ ((GetBy c params).2 ≠ none → (GetBy c params).1 = none)
        ∧ (status = 200 → (GetBy c params).2 = none))
    ∧ (∀ date1 date2 params,
        c.httpClient.Do (GetByPeriodRequest date1 date2 params)
          = .ok { StatusCode := status, Body := .ok body } →
        ((GetByPeriod c date1 date2 params).2 ≠ none ↔ status ≠ 200)
        ∧ ((GetByPeriod c date1 date2 params).2 ≠ none
            → (GetByPeriod c date1 date2 params).1 = none)
        ∧ (status = 200 → (GetByPeriod c date1 date2 params).2 = none))
    ∧ (∀ params,
        c.httpClient.Do (aliasRequestRequest (str "today") params)
          = .ok { StatusCode := status, Body := .ok body } →
        ((Today c params).2 ≠ none ↔ status ≠ 200)
        ∧ ((Today c params).2 ≠ none → (Today c params).1 = none)
        ∧ (status = 200 → (Today c params).2 = none))
    ∧ (∀ params,
        c.httpClient.Do (aliasRequestRequest (str "tomorrow") params)
          = .ok { StatusCode := status, Body := .ok body } →
        ((Tomorrow c params).2 ≠ none ↔ status ≠ 200)
        ∧ ((Tomorrow c params).2 ≠ none → (Tomorrow c params).1 = none)
        ∧ (status = 200 → (Tomorrow c params).2 = none)) := by
  refine ⟨?_, ?_, ?_, ?_, ?_⟩
  · intro year h
    by_cases hs : status = 200 <;> simp [IsLeap, h, hs]
  · intro params h
    by_cases hs : status = 200 <;> simp [GetBy, h, hs]
  · intro date1 date2 params h
    by_cases hs : status = 200 <;> simp [GetByPeriod, h, hs]
  · intro params h
    by_cases hs : status = 200 <;> simp [Today, aliasRequest, h, hs]
  · intro params h
    by_cases hs : status = 200 <;> simp [Tomorrow, aliasRequest, h, hs]

/-- Witness of C2: a transport answering 204 with the body "1". -/
theorem error_iff_status_not_200_witness :
    (((IsLeap (constClient 204 (str "1")) 2024).2 ≠ none ↔ (204 : Int) ≠ 200)
      ∧ ((IsLeap (constClient 204 (str "1")) 2024).2 ≠ none
          → (IsLeap (constClient 204 (str "1")) 2024).1 = false)
      ∧ ((204 : Int) = 200 → (IsLeap (constClient 204 (str "1")) 2024).2 = none))
    ∧ (((GetBy (constClient 204 (str "1")) {}).2 ≠ none ↔ (204 : Int) ≠ 200)
      ∧ ((GetBy (constClient 204 (str "1")) {}).2 ≠ none
          → (GetBy (constClient 204 (str "1")) {}).1 = none)
      ∧ ((204 : Int) = 200 → (GetBy (constClient 204 (str "1")) {}).2 = none))
    ∧ (((GetByPeriod (constClient 204 (str "1")) (str "20240101") (str "20240107") {}).2 ≠ none
          ↔ (204 : Int) ≠ 200)
      ∧ ((GetByPeriod (constClient 204 (str "1")) (str "20240101") (str "20240107") {}).2 ≠ none
          → (GetByPeriod (constClient 204 (str "1")) (str "20240101") (str "20240107") {}).1
              = none)
      ∧ ((204 : Int) = 200
          → (GetByPeriod (constClient 204 (str "1")) (str "20240101") (str "20240107") {}).2
              = none))
    ∧ (((Today (constClient 204 (str "1")) {}).2 ≠ none ↔ (204 : Int) ≠ 200)
      ∧ ((Today (constClient 204 (str "1")) {}).2 ≠ none
          → (Today (constClient 204 (str "1")) {}).1 = none)
      ∧ ((204 : Int) = 200 → (Today (constClient 204 (str "1")) {}).2 = none))
    ∧ (((Tomorrow (constClient 204 (str "1")) {}).2 ≠ none ↔ (204 : Int) ≠ 200)
      ∧ ((Tomorrow (constClient 204 (str "1")) {}).2 ≠ none
          → (Tomorrow (constClient 204 (str "1")) {}).1 = none)
      ∧ ((204 : Int) = 200 → (Tomorrow (constClient 204 (str "1")) {}).2 = none)) :=
  ⟨(error_iff_status_not_200 (constClient 204 (str "1")) 204 (str "1")).1 2024 rfl,
   (error_iff_status_not_200 (constClient 204 (str "1")) 204 (str "1")).2.1 {} rfl,
   (error_iff_status_not_200 (constClient 204 (str "1")) 204 (str "1")).2.2.1
      (str "20240101") (str "20240107") {} rfl,
   (error_iff_status_not_200 (constClient 204 (str "1")) 204 (str "1")).2.2.2.1 {} rfl,
   (error_iff_status_not_200 (constClient 204 (str "1")) 204 (str "1")).2.2.2.2 {} rfl⟩

/-- C8: for a status-200 response `IsLeap` returns no error, and returns true
exactly when the body is the one-character string "1"; nothing is trimmed, so
every other one-character body and the bodies "1\n" and " 1" give false. -/
theorem IsLeap_true_iff (c : Client) (year : Int) (body : GoString)
    (h : c.httpClient.Do (IsLeapRequest year) = .ok { StatusCode := 200, Body := .ok body }) :
    (IsLeap c year).2 = none
    ∧ ((IsLeap c year).1 = true ↔ body = str "1")
    ∧ (∀ b : Byte, body = [b] → b ≠ byte 0x31 → (IsLeap c year).1 = false)
    ∧ IsLeap (constClient 200 (str "1\n")) year = (false, none)
    ∧ IsLeap (constClient 200 (str " 1")) year = (false, none)
    ∧ IsLeap (constClient 200 (str "1")) year = (true, none) := by
  have e : IsLeap c year = (decide (body = YearTypeLeap), none) := by
    simp [IsLeap, h]
  have hl : YearTypeLeap = [byte 0x31] := by decide
  refine ⟨by rw [e], ?_, ?_, ?_, ?_, ?_⟩
  · rw [e]
    simp [hl]
    constructor
    · intro hb
      rw [hb]
      decide
    · intro hb
      rw [hb]
      decide
  · intro b hb hne
    rw [e, hb, hl]
    simp [hne]
  · simp only [IsLeap, constClient, NewWithClient]
    decide
  · simp only [IsLeap, constClient, NewWithClient]
    decide
  · simp only [IsLeap, constClient, NewWithClient]
    decide

/-- Witness of C8: the transport answers 200 with the body "1". -/
theorem IsLeap_true_iff_witness :
    (IsLeap (constClient 200 (str "1")) 2024).2 = none
    ∧ ((IsLeap (constClient 200 (str "1")) 2024).1 = true ↔ str "1" = str "1")
    ∧ (∀ b : Byte, str "1" = [b] → b ≠ byte 0x31
        → (IsLeap (constClient 200 (str "1")) 2024).1 = false)
    ∧ IsLeap (constClient 200 (str "1\n")) 2024 = (false, none)
    ∧ IsLeap (constClient 200 (str " 1")) 2024 = (false, none)
    ∧ IsLeap (constClient 200 (str "1")) 2024 = (true, none) :=
  IsLeap_true_iff (constClient 200 (str "1")) 2024 (str "1") rfl

/-- C10, evaluated on the code: the requests of `IsLeap`, `GetBy` and
`GetByPeriod` carry the `User-Agent` value with version 1.0.0 whatever their
parameters are, the requests of `Today` and `Tomorrow` carry the value with
version 1.0.2, and the two values differ: the header is not one constant
across the five operations. -/
theorem userAgent_depends_on_operation :
    (∀ year, Header.Get (IsLeapRequest year).Header (str "User-Agent")
        = str "isdayoff-golang-lib/1.0.0 (https://github.com/kotopheiop)")
    ∧ (∀ params, Header.Get (GetByRequest params).Header (str "User-Agent")
        = str "isdayoff-golang-lib/1.0.0 (https://github.com/kotopheiop)")
    ∧ (∀ date1 date2 params,
        Header.Get (GetByPeriodRequest date1 date2 params).Header (str "User-Agent")
          = str "isdayoff-golang-lib/1.0.0 (https://github.com/kotopheiop)")
    ∧ (∀ params, Header.Get (aliasRequestRequest (str "today") params).Header (str "User-Agent")
        = str "isdayoff-golang-lib/1.0.2 (https://github.com/kotopheiop)")
    ∧ (∀ params,
        Header.Get (aliasRequestRequest (str "tomorrow") params).Header (str "User-Agent")
          = str "isdayoff-golang-lib/1.0.2 (https://github.com/kotopheiop)")
    ∧ Header.Get (IsLeapRequest 2024).Header (str "User-Agent")
        ≠ Header.Get (aliasRequestRequest (str "today") {}).Header (str "User-Agent") := by
  have hget : ∀ x : GoString,
      Header.Get (Header.Set [] (str "User-Agent") x) (str "User-Agent") = x := by
    intro x
    simp [Header.Get, Header.Set, Values.Set, Values.index]
  refine ⟨?_, ?_, ?_, ?_, ?_, ?_⟩
  · intro year
    exact hget _
  · intro params
    exact hget _
  · intro date1 date2 params
    exact hget _
  · intro params
    exact hget _
  · intro params
    exact hget _
  · decide

theorem GetBy_ok (c : Client) (params : Params) (body : GoString)
    (h : c.httpClient.Do (GetByRequest params) = .ok { StatusCode := 200, Body := .ok body }) :
    GetBy c params = (some ((rangeString body).map EncodeRune), none) := by
  simp [GetBy, h, foldl_append_singleton]

theorem GetByPeriod_ok (c : Client) (date1 date2 : GoString) (params : Params)
    (body : GoString)
    (h : c.httpClient.Do (GetByPeriodRequest date1 date2 params)
      = .ok { StatusCode := 200, Body := .ok body }) :
    GetByPeriod c date1 date2 params = (some ((rangeString body).map EncodeRune), none) := by
  simp [GetByPeriod, h, foldl_append_singleton]

theorem entries_codes_iff (body : GoString) :
    (∀ d ∈ (rangeString body).map EncodeRune, isDayTypeCode d) ↔ ∀ b ∈ body, isDayTypeByte b := by
  rw [← rangeString_all_codes body.length body rfl]
  simp only [List.mem_map, forall_exists_index, and_imp, forall_apply_eq_imp_iff₂,
    EncodeRune_isDayTypeCode]

theorem join_map_encode (text : List Char) :
    (text.map (fun ch => EncodeRune ch.toNat)).flatten = utf8 text := by
  unfold utf8
  rw [List.flatMap_def]

theorem entries_utf8 (text : List Char) :
    (rangeString (utf8 text)).map EncodeRune = text.map (fun ch => EncodeRune ch.toNat) := by
  rw [rangeString_utf8, List.map_map]
  rfl

theorem entries_pass_through (body : GoString) (ds : List DayType)
    (hds : ds = (rangeString body).map EncodeRune) :
    ds = (rangeString body).map EncodeRune
    ∧ (∀ text : List Char, body = utf8 text →
        ds = text.map (fun ch => utf8 [ch])
        ∧ (∀ ch ∈ text, utf8 [ch] ∈ ds)
        ∧ (∀ ch : Char, isDayTypeCode (utf8 [ch])
            ↔ (ch = '0' ∨ ch = '1' ∨ ch = '2' ∨ ch = '4')))
    ∧ ((∀ d ∈ ds, isDayTypeCode d) ↔ ∀ b ∈ body, isDayTypeByte b) := by
  have hone : ∀ ch : Char, utf8 [ch] = EncodeRune ch.toNat := by
    intro ch
    simp [utf8]
  refine ⟨hds, ?_, by rw [hds]; exact entries_codes_iff body⟩
  intro text ht
  have e : ds = text.map (fun ch => utf8 [ch]) := by
    rw [hds, ht, entries_utf8]
    exact List.map_congr_left (fun ch _ => (hone ch).symm)
  refine ⟨e, ?_, ?_⟩
  · intro ch hch
    rw [e]
    exact List.mem_map_of_mem _ hch
  · intro ch
    rw [hone, EncodeRune_isDayTypeCode]
    have hc : ∀ (n : Nat) (c : Char), c.toNat = n → ch.toNat = n → ch = c := by
      intro n c h1 h2
      apply Char.ext
      apply UInt32.ext
      have a1 : ch.toNat = ch.val.toNat := rfl
      have a2 : c.toNat = c.val.toNat := rfl
      omega
    constructor
    · rintro (h | h | h | h)
      · exact Or.inl (hc _ '0' rfl h)
      · exact Or.inr (Or.inl (hc _ '1' rfl h))
      · exact Or.inr (Or.inr (Or.inl (hc _ '2' rfl h)))
      · exact Or.inr (Or.inr (Or.inr (hc _ '4' rfl h)))
    · rintro (h | h | h | h) <;> subst h
      · exact Or.inl rfl
      · exact Or.inr (Or.inl rfl)
      · exact Or.inr (Or.inr (Or.inl rfl))
      · exact Or.inr (Or.inr (Or.inr rfl))

/-- C3 fails on the code: with status 200 and the body "3" both `GetBy` and
`GetByPeriod` return the one entry "3", which is none of the four DayType
codes. -/
theorem GetBy_passes_unrecognized_character :
    GetBy (constClient 200 (str "3")) { Year := 2024 } = (some [str "3"], none)
    ∧ GetByPeriod (constClient 200 (str "3")) (str "20240101") (str "20240101") {}
        = (some [str "3"], none)
    ∧ ¬ isDayTypeCode (str "3") := by
  refine ⟨?_, ?_, ?_⟩
  · rw [GetBy_ok _ _ (str "3") rfl]
    decide
  · rw [GetByPeriod_ok _ _ _ _ (str "3") rfl]
    decide
  · unfold isDayTypeCode
    decide

/-- C3 as amended: for a status-200 body, `GetBy` and `GetByPeriod` return
without error the sequence that holds, for every rune the `range` loop yields
on the body and in that order, the rune converted with `string(char)`: no
character is rejected, replaced or dropped.  For a body that is the UTF-8 text
`text` the entries are the characters of `text`, each as its own one-character
string, whether it is one of `0`, `1`, `2`, `4` or not, and the entry of a
character is one of the four DayType codes exactly when the character is `0`,
`1`, `2` or `4`.  So all entries are among the four DayType codes exactly when
every byte of the body is one of `0`, `1`, `2`, `4`. -/
theorem GetBy_entries_codes_iff (c : Client) (body : GoString) :
    (∀ params,
        c.httpClient.Do (GetByRequest params) = .ok { StatusCode := 200, Body := .ok body } →
        ∃ ds, GetBy c params = (some ds, none)
          ∧ ds = (rangeString body).map EncodeRune
          ∧ (∀ text : List Char, body = utf8 text →
              ds = text.map (fun ch => utf8 [ch])
              ∧ (∀ ch ∈ text, utf8 [ch] ∈ ds)
              ∧ (∀ ch : Char, isDayTypeCode (utf8 [ch])
                  ↔ (ch = '0' ∨ ch = '1' ∨ ch = '2' ∨ ch = '4')))
          ∧ ((∀ d ∈ ds, isDayTypeCode d) ↔ ∀ b ∈ body, isDayTypeByte b))
    ∧ (∀ date1 date2 params,
        c.httpClient.Do (GetByPeriodRequest date1 date2 params)
          = .ok { StatusCode := 200, Body := .ok body } →
        ∃ ds, GetByPeriod c date1 date2 params = (some ds, none)
          ∧ ds = (rangeString body).map EncodeRune
          ∧ (∀ text : List Char, body = utf8 text →
              ds = text.map (fun ch => utf8 [ch])
              ∧ (∀ ch ∈ text, utf8 [ch] ∈ ds)
              ∧ (∀ ch : Char, isDayTypeCode (utf8 [ch])
                  ↔ (ch = '0' ∨ ch = '1' ∨ ch = '2' ∨ ch = '4')))
          ∧ ((∀ d ∈ ds, isDayTypeCode d) ↔ ∀ b ∈ body, isDayTypeByte b)) := by
  constructor
  · intro params h
    exact ⟨_, GetBy_ok c params body h, entries_pass_through body _ rfl⟩
  · intro date1 date2 params h
    exact ⟨_, GetByPeriod_ok c date1 date2 params body h, entries_pass_through body _ rfl⟩

/-- Witness of C3 as amended: the transport answers 200 with the body "0139",
whose characters `3` and `9` are no DayType codes; the entries are "0", "1",
"3", "9". -/
theorem GetBy_entries_codes_iff_witness :
    (∃ ds, GetBy (constClient 200 (str "0139")) { Year := 2024 } = (some ds, none)
        ∧ ds = [str "0", str "1", str "3", str "9"]
        ∧ str "3" ∈ ds ∧ ¬ isDayTypeCode (str "3")
        ∧ ¬ (∀ d ∈ ds, isDayTypeCode d))
    ∧ (∃ ds, GetByPeriod (constClient 200 (str "0139")) (str "20240101") (str "20240104") {}
          = (some ds, none)
        ∧ ds = [str "0", str "1", str "3", str "9"]
        ∧ str "3" ∈ ds ∧ ¬ isDayTypeCode (str "3")
        ∧ ¬ (∀ d ∈ ds, isDayTypeCode d)) := by
  have ht : str "0139" = utf8 ['0', '1', '3', '9'] := by decide
  have hm : ['0', '1', '3', '9'].map (fun ch => utf8 [ch])
      = [str "0", str "1", str "3", str "9"] := by decide
  have h3 : utf8 ['3'] = str "3" := by decide
  have hb : ¬ ∀ b ∈ str "0139", isDayTypeByte b :=
    fun hall => absurd (hall (byte 0x33) (by decide)) (by decide)
  constructor
  · obtain ⟨ds, h, -, htext, hiff⟩ :=
      (GetBy_entries_codes_iff (constClient 200 (str "0139")) (str "0139")).1 { Year := 2024 } rfl
    obtain ⟨hds, hin, hcode⟩ := htext _ ht
    exact ⟨ds, h, hds.trans hm, h3 ▸ hin '3' (by decide),
      fun hc => absurd ((hcode '3').1 (h3 ▸ hc)) (by decide), fun hall => hb (hiff.1 hall)⟩
  · obtain ⟨ds, h, -, htext, hiff⟩ :=
      (GetBy_entries_codes_iff (constClient 200 (str "0139")) (str "0139")).2
        (str "20240101") (str "20240104") {} rfl
    obtain ⟨hds, hin, hcode⟩ := htext _ ht
    exact ⟨ds, h, hds.trans hm, h3 ▸ hin '3' (by decide),
      fun hc => absurd ((hcode '3').1 (h3 ▸ hc)) (by decide), fun hall => hb (hiff.1 hall)⟩

/-- C4: for a status-200 body, `GetBy` and `GetByPeriod` return a non-nil
sequence with one entry per character of the body, in body order: the entries
are the runes the `range` loop yields, each converted with `string(char)`; for
a body that is the UTF-8 text `text` the i-th entry is the one-character string
of the i-th character of `text`, there are as many entries as characters (29
for 29 characters), and the entries concatenated are the body.  Nothing is
trimmed or split: the body "0 1\n" gives the four entries "0", " ", "1", "\n",
and the empty body gives the empty sequence. -/
theorem GetBy_one_entry_per_character (c : Client) (body : GoString) :
    (∀ params,
        c.httpClient.Do (GetByRequest params) = .ok { StatusCode := 200, Body := .ok body } →
        ∃ ds, GetBy c params = (some ds, none)
          ∧ ds = (rangeString body).map EncodeRune
          ∧ ds.length = (rangeString body).length
          ∧ (body = [] → ds = [])
          ∧ (∀ text : List Char, body = utf8 text →
              ds = text.map (fun ch => EncodeRune ch.toNat) ∧ ds.length = text.length
              ∧ (text.length = 29 → ds.length = 29) ∧ ds.flatten = body))
    ∧ (∀ date1 date2 params,
        c.httpClient.Do (GetByPeriodRequest date1 date2 params)
          = .ok { StatusCode := 200, Body := .ok body } →
        ∃ ds, GetByPeriod c date1 date2 params = (some ds, none)
          ∧ ds = (rangeString body).map EncodeRune
          ∧ ds.length = (rangeString body).length
          ∧ (body = [] → ds = [])
          ∧ (∀ text : List Char, body = utf8 text →
              ds = text.map (fun ch => EncodeRune ch.toNat) ∧ ds.length = text.length
              ∧ (text.length = 29 → ds.length = 29) ∧ ds.flatten = body))
    ∧ GetBy (constClient 200 (str "0 1\n")) {} = (some [str "0", str " ", str "1", str "\n"], none)
    ∧ GetByPeriod (constClient 200 (str "0 1\n")) (str "20240101") (str "20240104") {}
        = (some [str "0", str " ", str "1", str "\n"], none)
    ∧ GetBy (constClient 200 (str "")) {} = (some [], none)
    ∧ GetByPeriod (constClient 200 (str "")) (str "20240101") (str "20240104") {}
        = (some [], none) := by
  have key : ∀ ds : List DayType, ds = (rangeString body).map EncodeRune →
      ds = (rangeString body).map EncodeRune
      ∧ ds.length = (rangeString body).length
      ∧ (body = [] → ds = [])
      ∧ (∀ text : List Char, body = utf8 text →
          ds = text.map (fun ch => EncodeRune ch.toNat) ∧ ds.length = text.length
          ∧ (text.length = 29 → ds.length = 29) ∧ ds.flatten = body) := by
    intro ds hds
    refine ⟨hds, by rw [hds, List.length_map], ?_, ?_⟩
    · intro hb
      rw [hds, hb]
      rfl
    · intro text ht
      have e : ds = text.map (fun ch => EncodeRune ch.toNat) := by
        rw [hds, ht, entries_utf8]
      have hl : ds.length = text.length := by rw [e, List.length_map]
      refine ⟨e, hl, fun h29 => by rw [hl, h29], ?_⟩
      rw [e, join_map_encode, ht]
  refine ⟨?_, ?_, ?_, ?_, ?_, ?_⟩
  · intro params h
    exact ⟨_, GetBy_ok c params body h, key _ rfl⟩
  · intro date1 date2 params h
    exact ⟨_, GetByPeriod_ok c date1 date2 params body h, key _ rfl⟩
  · rw [GetBy_ok _ _ (str "0 1\n") rfl]
    decide
  · rw [GetByPeriod_ok _ _ _ _ (str "0 1\n") rfl]
    decide
  · rw [GetBy_ok _ _ (str "") rfl]
    decide
  · rw [GetByPeriod_ok _ _ _ _ (str "") rfl]
    decide


/-- Witness of C4: the transport answers 200 with a body of 29 characters. -/
theorem GetBy_one_entry_per_character_witness :
    (∃ ds, GetBy (constClient 200 (str "00110000011000001100000110000")) { Year := 2024 }
          = (some ds, none)
        ∧ ds = (rangeString (str "00110000011000001100000110000")).map EncodeRune
        ∧ ds.length = (rangeString (str "00110000011000001100000110000")).length
        ∧ (str "00110000011000001100000110000" = [] → ds = [])
        ∧ (∀ text : List Char, str "00110000011000001100000110000" = utf8 text →
            ds = text.map (fun ch => EncodeRune ch.toNat) ∧ ds.length = text.length
            ∧ (text.length = 29 → ds.length = 29)
            ∧ ds.flatten = str "00110000011000001100000110000"))
    ∧ (∃ ds, GetByPeriod (constClient 200 (str "00110000011000001100000110000"))
          (str "20240201") (str "20240229") {} = (some ds, none)
        ∧ ds = (rangeString (str "00110000011000001100000110000")).map EncodeRune
        ∧ ds.length = (rangeString (str "00110000011000001100000110000")).length
        ∧ (str "00110000011000001100000110000" = [] → ds = [])
        ∧ (∀ text : List Char, str "00110000011000001100000110000" = utf8 text →
            ds = text.map (fun ch => EncodeRune ch.toNat) ∧ ds.length = text.length
            ∧ (text.length = 29 → ds.length = 29)
            ∧ ds.flatten = str "00110000011000001100000110000")) :=
  ⟨(GetBy_one_entry_per_character (constClient 200 (str "00110000011000001100000110000"))
      (str "00110000011000001100000110000")).1 { Year := 2024 } rfl,
   (GetBy_one_entry_per_character (constClient 200 (str "00110000011000001100000110000"))
      (str "00110000011000001100000110000")).2.1 (str "20240201") (str "20240229") {} rfl⟩

theorem TrimSpace_unique (body d pre suf : GoString) (hpre : isSpaceSeq pre)
    (hsuf : isSpaceSeq suf) (hb : body = pre ++ d ++ suf) (h1 : ¬ startsWithSpace d)
    (h2 : ¬ endsWithSpace d) : d = TrimSpace body := by
  rw [hb, TrimSpace_surrounded pre d suf hpre hsuf]
  unfold TrimSpace
  have e1 : TrimLeftSpace d = d := by
    rw [TrimLeftSpace_eq, if_neg]
    rw [← startsWithSpace_iff]
    exact h1
  rw [e1, TrimRightSpace_eq, if_neg]
  rw [← endsWithSpace_iff]
  exact h2

theorem aliasRequest_ok (c : Client) (aliasName : GoString) (params : Params)
    (body : GoString)
    (h : c.httpClient.Do (aliasRequestRequest aliasName params)
      = .ok { StatusCode := 200, Body := .ok body }) :
    aliasRequest c aliasName params = (some (TrimSpace body), none) := by
  simp [aliasRequest, h]

theorem aliasRequest_trims (c : Client) (aliasName : GoString) (body : GoString)
    (params : Params)
    (h : c.httpClient.Do (aliasRequestRequest aliasName params)
      = .ok { StatusCode := 200, Body := .ok body }) :
    ∃ d, aliasRequest c aliasName params = (some d, none)
      ∧ (∃ pre suf, isSpaceSeq pre ∧ isSpaceSeq suf ∧ body = pre ++ d ++ suf)
      ∧ ¬ startsWithSpace d ∧ ¬ endsWithSpace d
      ∧ (∀ d' pre suf, isSpaceSeq pre → isSpaceSeq suf → body = pre ++ d' ++ suf →
          ¬ startsWithSpace d' → ¬ endsWithSpace d' → d' = d)
      ∧ (∀ (c' : Client) (params' : Params) (w1 w2 : GoString),
          isSpaceSeq w1 → isSpaceSeq w2 →
          c'.httpClient.Do (aliasRequestRequest aliasName params')
            = .ok { StatusCode := 200, Body := .ok (w1 ++ body ++ w2) } →
          aliasRequest c' aliasName params' = (some d, none)) := by
  refine ⟨TrimSpace body, aliasRequest_ok c aliasName params body h, (TrimSpace_spec body).1,
    (TrimSpace_spec body).2.1, (TrimSpace_spec body).2.2, ?_, ?_⟩
  · intro d' pre suf hpre hsuf hb h1 h2
    exact TrimSpace_unique body d' pre suf hpre hsuf hb h1 h2
  · intro c' params' w1 w2 h1 h2 h'
    rw [aliasRequest_ok c' aliasName params' _ h', TrimSpace_surrounded w1 body w2 h1 h2]

/-- C9: for a status-200 body, `Today` and `Tomorrow` return a non-nil DayType
`d` that is the body without its leading and trailing white space: the body is
`d` between two runs of white-space characters, `d` neither begins nor ends
with a white-space character, and `d` is the only such string.  A body that
differs from this one only by surrounding white space decodes to the same
`d`; so "1", " 1" and "1\r\n" all give "1". -/
theorem Today_trims_body (c : Client) (body : GoString) :
    (∀ params,
        c.httpClient.Do (aliasRequestRequest (str "today") params)
          = .ok { StatusCode := 200, Body := .ok body } →
        ∃ d, Today c params = (some d, none)
          ∧ (∃ pre suf, isSpaceSeq pre ∧ isSpaceSeq suf ∧ body = pre ++ d ++ suf)
          ∧ ¬ startsWithSpace d ∧ ¬ endsWithSpace d
          ∧ (∀ d' pre suf, isSpaceSeq pre → isSpaceSeq suf → body = pre ++ d' ++ suf →
              ¬ startsWithSpace d' → ¬ endsWithSpace d' → d' = d)
          ∧ (∀ (c' : Client) (params' : Params) (w1 w2 : GoString),
              isSpaceSeq w1 → isSpaceSeq w2 →
              c'.httpClient.Do (aliasRequestRequest (str "today") params')
                = .ok { StatusCode := 200, Body := .ok (w1 ++ body ++ w2) } →
              Today c' params' = (some d, none)))
    ∧ (∀ params,
        c.httpClient.Do (aliasRequestRequest (str "tomorrow") params)
          = .ok { StatusCode := 200, Body := .ok body } →
        ∃ d, Tomorrow c params = (some d, none)
          ∧ (∃ pre suf, isSpaceSeq pre ∧ isSpaceSeq suf ∧ body = pre ++ d ++ suf)
          ∧ ¬ startsWithSpace d ∧ ¬ endsWithSpace d
          ∧ (∀ d' pre suf, isSpaceSeq pre → isSpaceSeq suf → body = pre ++ d' ++ suf →
              ¬ startsWithSpace d' → ¬ endsWithSpace d' → d' = d)
          ∧ (∀ (c' : Client) (params' : Params) (w1 w2 : GoString),
              isSpaceSeq w1 → isSpaceSeq w2 →
              c'.httpClient.Do (aliasRequestRequest (str "tomorrow") params')
                = .ok { StatusCode := 200, Body := .ok (w1 ++ body ++ w2) } →
              Tomorrow c' params' = (some d, none)))
    ∧ Today (constClient 200 (str "1")) {} = (some (str "1"), none)
    ∧ Today (constClient 200 (str " 1")) {} = (some (str "1"), none)
    ∧ Today (constClient 200 (str "1\r\n")) {} = (some (str "1"), none)
    ∧ Tomorrow (constClient 200 (str "1")) {} = (some (str "1"), none)
    ∧ Tomorrow (constClient 200 (str " 1")) {} = (some (str "1"), none)
    ∧ Tomorrow (constClient 200 (str "1\r\n")) {} = (some (str "1"), none) := by
  refine ⟨?_, ?_, ?_, ?_, ?_, ?_, ?_, ?_⟩
  · intro params h
    exact aliasRequest_trims c (str "today") body params h
  · intro params h
    exact aliasRequest_trims c (str "tomorrow") body params h
  · rw [Today, aliasRequest_ok _ _ _ (str "1") rfl]
    decide
  · rw [Today, aliasRequest_ok _ _ _ (str " 1") rfl]
    decide
  · rw [Today, aliasRequest_ok _ _ _ (str "1\r\n") rfl]
    decide
  · rw [Tomorrow, aliasRequest_ok _ _ _ (str "1") rfl]
    decide
  · rw [Tomorrow, aliasRequest_ok _ _ _ (str " 1") rfl]
    decide
  · rw [Tomorrow, aliasRequest_ok _ _ _ (str "1\r\n") rfl]
    decide

/-- Witness of C9: the transport answers 200 with the body " 1\r\n". -/
theorem Today_trims_body_witness :
    (∃ d, Today (constClient 200 (str " 1\r\n")) {} = (some d, none)
      ∧ (∃ pre suf, isSpaceSeq pre ∧ isSpaceSeq suf ∧ str " 1\r\n" = pre ++ d ++ suf)
      ∧ ¬ startsWithSpace d ∧ ¬ endsWithSpace d
      ∧ (∀ d' pre suf, isSpaceSeq pre → isSpaceSeq suf → str " 1\r\n" = pre ++ d' ++ suf →
          ¬ startsWithSpace d' → ¬ endsWithSpace d' → d' = d)
      ∧ (∀ (c' : Client) (params' : Params) (w1 w2 : GoString),
          isSpaceSeq w1 → isSpaceSeq w2 →
          c'.httpClient.Do (aliasRequestRequest (str "today") params')
            = .ok { StatusCode := 200, Body := .ok (w1 ++ str " 1\r\n" ++ w2) } →
          Today c' params' = (some d, none)))
    ∧ (∃ d, Tomorrow (constClient 200 (str " 1\r\n")) {} = (some d, none)
      ∧ (∃ pre suf, isSpaceSeq pre ∧ isSpaceSeq suf ∧ str " 1\r\n" = pre ++ d ++ suf)
      ∧ ¬ startsWithSpace d ∧ ¬ endsWithSpace d
      ∧ (∀ d' pre suf, isSpaceSeq pre → isSpaceSeq suf → str " 1\r\n" = pre ++ d' ++ suf →
          ¬ startsWithSpace d' → ¬ endsWithSpace d' → d' = d)
      ∧ (∀ (c' : Client) (params' : Params) (w1 w2 : GoString),
          isSpaceSeq w1 → isSpaceSeq w2 →
          c'.httpClient.Do (aliasRequestRequest (str "tomorrow") params')
            = .ok { StatusCode := 200, Body := .ok (w1 ++ str " 1\r\n" ++ w2) } →
          Tomorrow c' params' = (some d, none))) :=
  ⟨(Today_trims_body (constClient 200 (str " 1\r\n")) (str " 1\r\n")).1 {} rfl,
   (Today_trims_body (constClient 200 (str " 1\r\n")) (str " 1\r\n")).2.1 {} rfl⟩

/-- C5: the query string of the request `GetBy` builds carries the key `year`,
carries each of `month`, `day`, `cc`, `pre`, `covid`, `sd`, `tz` exactly when
the field of that key is non-nil, carries no other key and no key twice; with
only `Year` set its only key is `year`. -/
theorem GetBy_query_keys (params : Params) :
    str "year" ∈ queryKeys (GetByRequest params).URL.RawQuery
    ∧ (∀ k, k ∈ queryKeys (GetByRequest params).URL.RawQuery ↔
        k = str "year"
        ∨ (k = str "month" ∧ params.Month ≠ none)
        ∨ (k = str "day" ∧ params.Day ≠ none)
        ∨ (k = str "cc" ∧ params.CountryCode ≠ none)
        ∨ (k = str "pre" ∧ params.Pre ≠ none)
        ∨ (k = str "covid" ∧ params.Covid ≠ none)
        ∨ (k = str "sd" ∧ params.SixDayWeek ≠ none)
        ∨ (k = str "tz" ∧ params.TZ ≠ none))
    ∧ (queryKeys (GetByRequest params).URL.RawQuery).Nodup
    ∧ queryKeys (GetByRequest { Year := params.Year }).URL.RawQuery = [str "year"] := by
  refine ⟨(GetBy_mem_queryKeys params _).mpr (Or.inl rfl), GetBy_mem_queryKeys params,
    GetBy_keys_nodup params, ?_⟩
  apply eq_singleton_of_nodup _ _ (GetBy_keys_nodup _)
  intro k
  rw [GetBy_mem_queryKeys]
  simp


theorem flag_value (o : Option Bool) (v : GoString) :
    o.map boolToStr = some v ↔ (o = some false ∧ v = str "0") ∨ (o = some true ∧ v = str "1") := by
  cases o with
  | none => simp
  | some b =>
    cases b <;> simp [boolToStr, eq_comm]

theorem flagEmitted_of_pairs (raw key : GoString) (flag : Option Bool)
    (h : ∀ v, (key, v) ∈ ParseQuery raw ↔ flag.map boolToStr = some v) :
    flagEmitted raw key flag := by
  constructor
  · intro v
    rw [h, flag_value]
  · rw [mem_queryKeys]
    simp only [h]
    exact map_eq_some_iff_ne_none boolToStr flag

/-- C6: in the query of `GetBy`, `GetByPeriod`, `Today` and `Tomorrow` each of
the flags `Pre`, `Covid` and `SixDayWeek` is emitted under its key `pre`,
`covid`, `sd` with the value "0" when present and false, with "1" when present
and true, with no other value, and not at all when absent; so `Pre = false`
gives `pre=0` and an unset `Pre` gives no `pre` key. -/
theorem flags_emitted (date1 date2 : GoString) (params : Params) :
    flagEmitted (GetByRequest params).URL.RawQuery (str "pre") params.Pre
    ∧ flagEmitted (GetByRequest params).URL.RawQuery (str "covid") params.Covid
    ∧ flagEmitted (GetByRequest params).URL.RawQuery (str "sd") params.SixDayWeek
    ∧ flagEmitted (GetByPeriodRequest date1 date2 params).URL.RawQuery (str "pre") params.Pre
    ∧ flagEmitted (GetByPeriodRequest date1 date2 params).URL.RawQuery (str "covid") params.Covid
    ∧ flagEmitted (GetByPeriodRequest date1 date2 params).URL.RawQuery (str "sd")
        params.SixDayWeek
    ∧ flagEmitted (aliasRequestRequest (str "today") params).URL.RawQuery (str "pre") params.Pre
    ∧ flagEmitted (aliasRequestRequest (str "today") params).URL.RawQuery (str "covid")
        params.Covid
    ∧ flagEmitted (aliasRequestRequest (str "today") params).URL.RawQuery (str "sd")
        params.SixDayWeek
    ∧ flagEmitted (aliasRequestRequest (str "tomorrow") params).URL.RawQuery (str "pre")
        params.Pre
    ∧ flagEmitted (aliasRequestRequest (str "tomorrow") params).URL.RawQuery (str "covid")
        params.Covid
    ∧ flagEmitted (aliasRequestRequest (str "tomorrow") params).URL.RawQuery (str "sd")
        params.SixDayWeek
    ∧ (GetByRequest { Year := 2024, Pre := some false }).URL.RawQuery = str "pre=0&year=2024"
    ∧ (GetByRequest { Year := 2024, Pre := some true }).URL.RawQuery = str "pre=1&year=2024"
    ∧ (GetByRequest { Year := 2024 }).URL.RawQuery = str "year=2024" := by
  refine ⟨?_, ?_, ?_, ?_, ?_, ?_, ?_, ?_, ?_, ?_, ?_, ?_, ?_, ?_, ?_⟩
  · apply flagEmitted_of_pairs
    intro v
    rw [GetBy_pairs]
    simp +decide
  · apply flagEmitted_of_pairs
    intro v
    rw [GetBy_pairs]
    simp +decide
  · apply flagEmitted_of_pairs
    intro v
    rw [GetBy_pairs]
    simp +decide
  · apply flagEmitted_of_pairs
    intro v
    rw [GetByPeriod_pairs]
    simp +decide
  · apply flagEmitted_of_pairs
    intro v
    rw [GetByPeriod_pairs]
    simp +decide
  · apply flagEmitted_of_pairs
    intro v
    rw [GetByPeriod_pairs]
    simp +decide
  · apply flagEmitted_of_pairs
    intro v
    rw [alias_pairs]
    simp +decide
  · apply flagEmitted_of_pairs
    intro v
    rw [alias_pairs]
    simp +decide
  · apply flagEmitted_of_pairs
    intro v
    rw [alias_pairs]
    simp +decide
  · apply flagEmitted_of_pairs
    intro v
    rw [alias_pairs]
    simp +decide
  · apply flagEmitted_of_pairs
    intro v
    rw [alias_pairs]
    simp +decide
  · apply flagEmitted_of_pairs
    intro v
    rw [alias_pairs]
    simp +decide
  · decide
  · decide
  · decide

/-- C7: the query string of the request `GetByPeriod` builds carries `date1`
and `date2` with the caller's strings as their values, carries each of `cc`,
`pre`, `covid`, `sd` exactly when the field of that key is non-nil, carries no
other key, no key twice, and never `year`, `month`, `day` or `tz`, whatever
`Params` holds; the query `GetBy` builds never carries `date1` or `date2`. -/
theorem GetByPeriod_query (date1 date2 : GoString) (params : Params) :
    (∀ v, (str "date1", v) ∈ ParseQuery (GetByPeriodRequest date1 date2 params).URL.RawQuery
        ↔ v = date1)
    ∧ (∀ v, (str "date2", v) ∈ ParseQuery (GetByPeriodRequest date1 date2 params).URL.RawQuery
        ↔ v = date2)
    ∧ (∀ k, k ∈ queryKeys (GetByPeriodRequest date1 date2 params).URL.RawQuery ↔
        k = str "date1" ∨ k = str "date2"
        ∨ (k = str "cc" ∧ params.CountryCode ≠ none)
        ∨ (k = str "pre" ∧ params.Pre ≠ none)
        ∨ (k = str "covid" ∧ params.Covid ≠ none)
        ∨ (k = str "sd" ∧ params.SixDayWeek ≠ none))
    ∧ (queryKeys (GetByPeriodRequest date1 date2 params).URL.RawQuery).Nodup
    ∧ str "year" ∉ queryKeys (GetByPeriodRequest date1 date2 params).URL.RawQuery
    ∧ str "month" ∉ queryKeys (GetByPeriodRequest date1 date2 params).URL.RawQuery
    ∧ str "day" ∉ queryKeys (GetByPeriodRequest date1 date2 params).URL.RawQuery
    ∧ str "tz" ∉ queryKeys (GetByPeriodRequest date1 date2 params).URL.RawQuery
    ∧ str "date1" ∉ queryKeys (GetByRequest params).URL.RawQuery
    ∧ str "date2" ∉ queryKeys (GetByRequest params).URL.RawQuery
    ∧ (GetByPeriodRequest (str "20240101") (str "20240107")
          { Year := 2024, Month := some 1, Day := some 1, TZ := some (str "3") }).URL.RawQuery
        = str "date1=20240101&date2=20240107" := by
  have hmem : ∀ k, k ∈ queryKeys (GetByPeriodRequest date1 date2 params).URL.RawQuery ↔
        k = str "date1" ∨ k = str "date2"
        ∨ (k = str "cc" ∧ params.CountryCode ≠ none)
        ∨ (k = str "pre" ∧ params.Pre ≠ none)
        ∨ (k = str "covid" ∧ params.Covid ≠ none)
        ∨ (k = str "sd" ∧ params.SixDayWeek ≠ none) := by
    intro k
    rw [mem_queryKeys]
    simp only [GetByPeriod_pairs, exists_or, exists_and_left, exists_eq, and_true,
      map_eq_some_iff_ne_none, eq_some_iff_ne_none]
  refine ⟨?_, ?_, hmem, GetByPeriod_keys_nodup date1 date2 params, ?_, ?_, ?_, ?_, ?_, ?_, ?_⟩
  · intro v
    rw [GetByPeriod_pairs]
    simp +decide
  · intro v
    rw [GetByPeriod_pairs]
    simp +decide
  · rw [hmem]
    simp +decide
  · rw [hmem]
    simp +decide
  · rw [hmem]
    simp +decide
  · rw [hmem]
    simp +decide
  · rw [GetBy_mem_queryKeys]
    simp +decide
  · rw [GetBy_mem_queryKeys]
    simp +decide
  · decide

/-- C11: in the query `GetBy` builds the value of `year` is the plain decimal
representation of `Year`: digits without padding for a year that is not
negative ("0" for zero), a minus sign before the digits of the absolute value
for a negative year.  For a month from 1 to 12 the value of `month`, and for a
day from 1 to 31 the value of `day`, is two decimal digits that denote the
number, so it is padded with a zero on the left below ten: January and day 1
give "01", December gives "12". -/
theorem GetBy_year_month_day (params : Params) :
    (∀ v, (str "year", v) ∈ ParseQuery (GetByRequest params).URL.RawQuery
        ↔ v = formatInt params.Year)
    ∧ (0 ≤ params.Year → isPlainDecimal (formatInt params.Year) params.Year.toNat)
    ∧ (params.Year < 0 → ∃ ds, formatInt params.Year = byte 0x2D :: ds
        ∧ isPlainDecimal ds (-params.Year).toNat)
    ∧ (params.Year = 0 → formatInt params.Year = str "0")
    ∧ (∀ m, params.Month = some m → 1 ≤ m → m ≤ 12 →
        ∃ value, (∀ v, (str "month", v) ∈ ParseQuery (GetByRequest params).URL.RawQuery
            ↔ v = value)
          ∧ value.length = 2 ∧ (∀ b ∈ value, isDigit b) ∧ (decimalValue value : Int) = m)
    ∧ (∀ d, params.Day = some d → 1 ≤ d → d ≤ 31 →
        ∃ value, (∀ v, (str "day", v) ∈ ParseQuery (GetByRequest params).URL.RawQuery
            ↔ v = value)
          ∧ value.length = 2 ∧ (∀ b ∈ value, isDigit b) ∧ (decimalValue value : Int) = d)
    ∧ (GetByRequest { Year := 2024, Month := some 1, Day := some 1 }).URL.RawQuery
        = str "day=01&month=01&year=2024"
    ∧ (GetByRequest { Year := -5, Month := some 12, Day := some 31 }).URL.RawQuery
        = str "day=31&month=12&year=-5"
    ∧ (GetByRequest { Year := 0 }).URL.RawQuery = str "year=0" := by
  refine ⟨?_, ?_, ?_, ?_, ?_, ?_, ?_, ?_, ?_⟩
  · intro v
    rw [GetBy_pairs]
    simp +decide
  · intro h
    exact (formatInt_nonneg _ h).2
  · intro h
    exact ⟨_, (formatInt_neg _ h).1, (formatInt_neg _ h).2⟩
  · intro h
    rw [h]
    decide
  · intro m hm h1 h2
    refine ⟨formatInt02 m, ?_, formatInt02_two_digits m h1 (by omega)⟩
    intro v
    rw [GetBy_pairs, hm]
    simp +decide [eq_comm]
  · intro d hd h1 h2
    refine ⟨formatInt02 d, ?_, formatInt02_two_digits d h1 h2⟩
    intro v
    rw [GetBy_pairs, hd]
    simp +decide [eq_comm]
  · decide
  · decide
  · decide

/-- Witness of C11: the first of January of 2024. -/
theorem GetBy_year_month_day_witness :
    isPlainDecimal (formatInt 2024) 2024
    ∧ (∃ value,
        (∀ v, (str "month", v)
          ∈ ParseQuery (GetByRequest { Year := 2024, Month := some 1, Day := some 1 }).URL.RawQuery
          ↔ v = value)
        ∧ value.length = 2 ∧ (∀ b ∈ value, isDigit b) ∧ (decimalValue value : Int) = 1)
    ∧ (∃ value,
        (∀ v, (str "day", v)
          ∈ ParseQuery (GetByRequest { Year := 2024, Month := some 1, Day := some 1 }).URL.RawQuery
          ↔ v = value)
        ∧ value.length = 2 ∧ (∀ b ∈ value, isDigit b) ∧ (decimalValue value : Int) = 1) :=
  ⟨(GetBy_year_month_day { Year := 2024, Month := some 1, Day := some 1 }).2.1 (by decide),
   (GetBy_year_month_day { Year := 2024, Month := some 1, Day := some 1 }).2.2.2.2.1 1 rfl
     (by decide) (by decide),
   (GetBy_year_month_day { Year := 2024, Month := some 1, Day := some 1 }).2.2.2.2.2.1 1 rfl
     (by decide) (by decide)⟩

/-- C12 fails on the code: for the status 500 the bodies "999\n" and "999"
give the same generic error, whose message "unexpected status code 500: 999"
does not contain the body "999\n" as it was received. -/
theorem parseAPIError_drops_surrounding_space :
    parseAPIError 500 (str "999\n") = .errorf (str "unexpected status code 500: 999")
    ∧ ¬ (str "999\n" <:+: (parseAPIError 500 (str "999\n")).Error)
    ∧ parseAPIError 500 (str "999\n") = parseAPIError 500 (str "999")
    ∧ str "999\n" ≠ str "999" := by
  decide

/-- C12 as amended: for a body whose trimmed text is none of "100", "101",
"199", `parseAPIError` returns a generic error, not an `*APIError`, whose
message is "unexpected status code ", the status code in decimal, ": " and the
trimmed body; the status code and the trimmed body can be read back from the
message, as no other status code or trimmed body gives it. -/
theorem parseAPIError_generic (statusCode : Int) (body : GoString)
    (h : TrimSpace body ≠ str "100" ∧ TrimSpace body ≠ str "101"
      ∧ TrimSpace body ≠ str "199") :
    parseAPIError statusCode body
        = .errorf (str "unexpected status code " ++ formatInt statusCode ++ str ": "
            ++ TrimSpace body)
    ∧ (parseAPIError statusCode body).isAPIError = false
    ∧ (parseAPIError statusCode body).Error
        = str "unexpected status code " ++ formatInt statusCode ++ str ": " ++ TrimSpace body
    ∧ (0 ≤ statusCode → isPlainDecimal (formatInt statusCode) statusCode.toNat)
    ∧ (statusCode < 0 → ∃ ds, formatInt statusCode = byte 0x2D :: ds
        ∧ isPlainDecimal ds (-statusCode).toNat)
    ∧ (∀ (statusCode' : Int) (body' : GoString),
        (parseAPIError statusCode' body').Error = (parseAPIError statusCode body).Error →
        statusCode' = statusCode ∧ TrimSpace body' = TrimSpace body) := by
  have he : parseAPIError statusCode body
      = .errorf (str "unexpected status code " ++ formatInt statusCode ++ str ": "
          ++ TrimSpace body) := by
    rcases parseAPIError_cases statusCode body with c | c | c | c
    · exact absurd c.1 h.1
    · exact absurd c.1 h.2.1
    · exact absurd c.1 h.2.2
    · exact c.2.2.2
  refine ⟨he, by rw [he]; rfl, by rw [he]; rfl, fun h0 => (formatInt_nonneg _ h0).2,
    fun h0 => ⟨_, (formatInt_neg _ h0).1, (formatInt_neg _ h0).2⟩, ?_⟩
  intro statusCode' body' heq
  rw [he] at heq
  have hu : ∀ t : GoString, ∃ r, str "unexpected status code " ++ t = byte 0x75 :: r :=
    fun t => ⟨_, rfl⟩
  have ha : ∀ t : GoString, ∃ r, str "API error " ++ t = byte 0x41 :: r := fun t => ⟨_, rfl⟩
  have clash : ∀ (e : APIError), (GoError.api e).Error
      ≠ str "unexpected status code " ++ formatInt statusCode ++ str ": " ++ TrimSpace body := by
    intro e hc
    simp only [GoError.Error, List.append_assoc] at hc
    obtain ⟨r1, h1⟩ := ha (e.Code ++ (str " (HTTP " ++ (formatInt e.Status ++ (str "): "
      ++ e.Message))))
    obtain ⟨r2, h2⟩ := hu (formatInt statusCode ++ (str ": " ++ TrimSpace body))
    rw [h1, h2] at hc
    exact absurd (List.cons.inj hc).1 (by decide)
  rcases parseAPIError_cases statusCode' body' with c | c | c | c
  · rw [c.2] at heq
    exact absurd heq (clash _)
  · rw [c.2] at heq
    exact absurd heq (clash _)
  · rw [c.2] at heq
    exact absurd heq (clash _)
  · rw [c.2.2.2] at heq
    exact generic_message_injective _ _ _ _ heq

/-- Witness of C12 as amended: the status 500 with the body " 999\n". -/
theorem parseAPIError_generic_witness :
    parseAPIError 500 (str " 999\n")
        = .errorf (str "unexpected status code " ++ formatInt 500 ++ str ": "
            ++ TrimSpace (str " 999\n"))
    ∧ (parseAPIError 500 (str " 999\n")).isAPIError = false
    ∧ (parseAPIError 500 (str " 999\n")).Error
        = str "unexpected status code " ++ formatInt 500 ++ str ": " ++ TrimSpace (str " 999\n")
    ∧ (0 ≤ (500 : Int) → isPlainDecimal (formatInt 500) (500 : Int).toNat)
    ∧ ((500 : Int) < 0 → ∃ ds, formatInt 500 = byte 0x2D :: ds
        ∧ isPlainDecimal ds (-(500 : Int)).toNat)
    ∧ (∀ (statusCode' : Int) (body' : GoString),
        (parseAPIError statusCode' body').Error = (parseAPIError 500 (str " 999\n")).Error →
        statusCode' = 500 ∧ TrimSpace body' = TrimSpace (str " 999\n")) :=
  parseAPIError_generic 500 (str " 999\n") (by decide)

theorem aliasRequest_expect (aliasName : GoString) (params : Params) (req : Request) :
    aliasRequest (expectClient req (str "1")) aliasName params = (some (str "1"), none)
      ↔ req = aliasRequestRequest aliasName params := by
  have ht : TrimSpace (str "1") = str "1" := by decide
  constructor
  · intro h
    by_contra hne
    have hd : (expectClient req (str "1")).httpClient.Do (aliasRequestRequest aliasName params)
        = .error (.external (str "unexpected request")) := by
      simp only [expectClient, NewWithClient]
      rw [if_neg (fun e => hne e.symm)]
    simp only [aliasRequest, hd] at h
    exact absurd (congrArg Prod.fst h) (by simp)
  · intro h
    subst h
    have hd : (expectClient (aliasRequestRequest aliasName params) (str "1")).httpClient.Do
        (aliasRequestRequest aliasName params)
        = .ok { StatusCode := 200, Body := .ok (str "1") } := by
      simp [expectClient, NewWithClient]
    rw [aliasRequest_ok _ _ _ _ hd, ht]

theorem GetBy_expect (params : Params) (req : Request) :
    GetBy (expectClient req (str "1")) params = (some [str "1"], none)
      ↔ req = GetByRequest params := by
  constructor
  · intro h
    by_contra hne
    have hd : (expectClient req (str "1")).httpClient.Do (GetByRequest params)
        = .error (.external (str "unexpected request")) := by
      simp only [expectClient, NewWithClient]
      rw [if_neg (fun e => hne e.symm)]
    simp only [GetBy, hd] at h
    exact absurd (congrArg Prod.fst h) (by simp)
  · intro h
    subst h
    have hd : (expectClient (GetByRequest params) (str "1")).httpClient.Do
        (GetByRequest params)
        = .ok { StatusCode := 200, Body := .ok (str "1") } := by
      simp [expectClient, NewWithClient]
    rw [GetBy_ok _ _ _ hd]
    decide

/-- C13: for every `Params` value, `Today`, `Tomorrow` and `GetBy` each hand one
request to the transport, here `today`, `tomorrow` and `getby`: a transport
that answers the single request `req` with the status 200 and the body "1" and
refuses every other request lets `Today` return "1" exactly when `req` is
`today`, lets `Tomorrow` return "1" exactly when `req` is `tomorrow`, and lets
`GetBy` return the one entry "1" exactly when `req` is `getby`.  The requests
`today` and `tomorrow` go to the paths `/today` and `/tomorrow` of the host
`isdayoff.ru` and are otherwise one and the same request, with the same query.
The query carries each of `cc`, `pre`, `covid`, `sd`, `tz` exactly when the
field of that key is non-nil, no key twice, each with the value the query of
`getby` carries for it, and never `year`, `month` or `day`; when the five
fields are nil the query is empty, whatever `Year`, `Month` and `Day` hold. -/
theorem Today_Tomorrow_request (params : Params) :
    ∃ today tomorrow getby : Request,
      (∀ req, Today (expectClient req (str "1")) params = (some (str "1"), none) ↔ req = today)
      ∧ (∀ req, Tomorrow (expectClient req (str "1")) params = (some (str "1"), none)
          ↔ req = tomorrow)
      ∧ (∀ req, GetBy (expectClient req (str "1")) params = (some [str "1"], none)
          ↔ req = getby)
      ∧ today.URL.Scheme = str "https"
      ∧ today.URL.Host = str "isdayoff.ru"
      ∧ today.URL.Path = str "/today"
      ∧ tomorrow.URL.Scheme = str "https"
      ∧ tomorrow.URL.Host = str "isdayoff.ru"
      ∧ tomorrow.URL.Path = str "/tomorrow"
      ∧ tomorrow.URL.RawQuery = today.URL.RawQuery
      ∧ tomorrow = { today with URL := { today.URL with Path := str "/tomorrow" } }
      ∧ (∀ k, k ∈ queryKeys today.URL.RawQuery ↔
          (k = str "cc" ∧ params.CountryCode ≠ none)
          ∨ (k = str "pre" ∧ params.Pre ≠ none)
          ∨ (k = str "covid" ∧ params.Covid ≠ none)
          ∨ (k = str "sd" ∧ params.SixDayWeek ≠ none)
          ∨ (k = str "tz" ∧ params.TZ ≠ none))
      ∧ (queryKeys today.URL.RawQuery).Nodup
      ∧ (∀ k v, k ∈ [str "cc", str "pre", str "covid", str "sd", str "tz"] →
          ((k, v) ∈ ParseQuery today.URL.RawQuery ↔ (k, v) ∈ ParseQuery getby.URL.RawQuery))
      ∧ str "year" ∉ queryKeys today.URL.RawQuery
      ∧ str "month" ∉ queryKeys today.URL.RawQuery
      ∧ str "day" ∉ queryKeys today.URL.RawQuery
      ∧ (params.CountryCode = none → params.Pre = none → params.Covid = none →
          params.SixDayWeek = none → params.TZ = none →
          today.URL.RawQuery = [] ∧ tomorrow.URL.RawQuery = []) := by
  have hmem : ∀ k, k ∈ queryKeys (aliasRequestRequest (str "today") params).URL.RawQuery ↔
        (k = str "cc" ∧ params.CountryCode ≠ none)
        ∨ (k = str "pre" ∧ params.Pre ≠ none)
        ∨ (k = str "covid" ∧ params.Covid ≠ none)
        ∨ (k = str "sd" ∧ params.SixDayWeek ≠ none)
        ∨ (k = str "tz" ∧ params.TZ ≠ none) := by
    intro k
    rw [mem_queryKeys]
    simp only [alias_pairs, exists_or, exists_and_left, exists_eq, and_true,
      map_eq_some_iff_ne_none, eq_some_iff_ne_none]
  have ptoday : str "/" ++ str "today" = str "/today" := by decide
  have ptomorrow : str "/" ++ str "tomorrow" = str "/tomorrow" := by decide
  refine ⟨aliasRequestRequest (str "today") params, aliasRequestRequest (str "tomorrow") params,
    GetByRequest params, fun req => aliasRequest_expect _ params req,
    fun req => aliasRequest_expect _ params req, fun req => GetBy_expect params req,
    rfl, rfl, ptoday, rfl, rfl, ptomorrow, rfl, ?_, hmem,
    alias_keys_nodup _ params, ?_, ?_, ?_, ?_, ?_⟩
  · show aliasRequestRequest (str "tomorrow") params
      = { aliasRequestRequest (str "today") params with
          URL := { (aliasRequestRequest (str "today") params).URL with Path := str "/tomorrow" } }
    simp only [aliasRequestRequest, NewRequest, ptomorrow]
  · intro k v hk
    rw [alias_pairs, GetBy_pairs]
    simp only [List.mem_cons, List.mem_singleton, List.not_mem_nil, or_false] at hk
    rcases hk with rfl | rfl | rfl | rfl | rfl <;> simp +decide
  · rw [hmem]
    simp +decide
  · rw [hmem]
    simp +decide
  · rw [hmem]
    simp +decide
  · intro h1 h2 h3 h4 h5
    have e : aliasValues params = [] := by
      simp only [aliasValues, h1, h2, h3, h4, h5]
    constructor
    · show Values.Encode (aliasValues params) = []
      rw [e]
      rfl
    · show Values.Encode (aliasValues params) = []
      rw [e]
      rfl

/-- Witness of C13: for a `Params` whose only filter is `Pre`, set to false,
`Today` and `Tomorrow` get their answer from requests to `/today` and
`/tomorrow` whose query carries `pre` with the value "0" as the query of
`GetBy` does; for a `Params` that holds a year, a month and a day and no
filter, the two queries are empty. -/
theorem Today_Tomorrow_request_witness :
    (∃ today tomorrow getby : Request,
      Today (expectClient today (str "1")) { Year := 2024, Pre := some false }
          = (some (str "1"), none)
      ∧ Tomorrow (expectClient tomorrow (str "1")) { Year := 2024, Pre := some false }
          = (some (str "1"), none)
      ∧ GetBy (expectClient getby (str "1")) { Year := 2024, Pre := some false }
          = (some [str "1"], none)
      ∧ today.URL.Path = str "/today"
      ∧ tomorrow.URL.Path = str "/tomorrow"
      ∧ ((str "pre", str "0") ∈ ParseQuery today.URL.RawQuery
          ↔ (str "pre", str "0") ∈ ParseQuery getby.URL.RawQuery))
    ∧ (∃ today tomorrow : Request,
      Today (expectClient today (str "1")) { Year := 2024, Month := some 11, Day := some 4 }
          = (some (str "1"), none)
      ∧ Tomorrow (expectClient tomorrow (str "1"))
            { Year := 2024, Month := some 11, Day := some 4 }
          = (some (str "1"), none)
      ∧ today.URL.RawQuery = [] ∧ tomorrow.URL.RawQuery = []) := by
  constructor
  · obtain ⟨today, tomorrow, getby, h1, h2, h3, -, -, p1, -, -, p2, -, -, -, -, hv, -⟩ :=
      Today_Tomorrow_request { Year := 2024, Pre := some false }
    exact ⟨today, tomorrow, getby, (h1 today).2 rfl, (h2 tomorrow).2 rfl, (h3 getby).2 rfl,
      p1, p2, hv (str "pre") (str "0") (by decide)⟩
  · obtain ⟨today, tomorrow, -, h1, h2, -, -, -, -, -, -, -, -, -, -, -, -, -, -, -, he⟩ :=
      Today_Tomorrow_request { Year := 2024, Month := some 11, Day := some 4 }
    exact ⟨today, tomorrow, (h1 today).2 rfl, (h2 tomorrow).2 rfl, he rfl rfl rfl rfl rfl⟩

end Isdayoff
